import Mathlib

/-!
Coarse level-1 BLAS kernels of `mg_proto` (`lib/lattice/coarse_l1_blas.cpp`).

A shallow embedding of the block-vector kernels and of the thread-local
reduction buffer, together with the properties checked against the
specification.

Conventions of the embedding.

* Field values live in an arbitrary commutative ring `R`: `float` and `double`
  arithmetic is read as exact arithmetic, so every precision conversion is the
  identity.  Concrete evaluations are done at `R := Int`.
* A loop `for (int i = lo; i < hi; ++i)` is `forLoop lo hi body`; OpenMP
  parallel loops are run in their sequential order.
* Raw storage is a total function from offsets to values; a pointer is a
  checkerboard together with an offset into that checkerboard's storage.
* `std::vector` is a `List`; the result vector of `multivector::reduce` is
  accessed with range checks and an access out of range yields `none`.
-/

namespace MG

/-! ## Constants and loops -/

/-- Modelled from the spec: `RE` of `lattice/constants.h` (not among the sources), the offset
of the real part inside an interleaved real/imaginary pair. -/
def RE : Nat := 0

/-- Modelled from the spec: `IM` of `lattice/constants.h` (not among the sources), the offset
of the imaginary part inside an interleaved real/imaginary pair. -/
def IM : Nat := 1

/-- Modelled from the spec: `n_complex` of `lattice/constants.h` (not among the sources), the
number of reals per complex number. -/
def n_complex : Nat := 2

/-- Modelled from the spec: `n_checkerboard` of `lattice/constants.h` (not among the sources),
the number of checkerboards. -/
def n_checkerboard : Nat := 2

/-- The loop `for (int i = lo; i < hi; ++i) s = body i s`. -/
def forLoop {σ : Type} (lo hi : Nat) (body : Nat → σ → σ) (s : σ) : σ :=
  (List.range' lo (hi - lo)).foldl (fun acc i => body i acc) s

/-! ## Complex numbers (`std::complex`) -/

/-- A complex number with parts in `R`, as `std::complex<float>` / `std::complex<double>`. -/
@[ext]
structure Cplx (R : Type) where
  re : R
  im : R
deriving DecidableEq

namespace Cplx

variable {R : Type} [CommRing R]

instance : Zero (Cplx R) := ⟨⟨0, 0⟩⟩
instance : One (Cplx R) := ⟨⟨1, 0⟩⟩
instance : Add (Cplx R) := ⟨fun a b => ⟨a.re + b.re, a.im + b.im⟩⟩
instance : Sub (Cplx R) := ⟨fun a b => ⟨a.re - b.re, a.im - b.im⟩⟩
instance : Neg (Cplx R) := ⟨fun a => ⟨-a.re, -a.im⟩⟩
instance : Mul (Cplx R) :=
  ⟨fun a b => ⟨a.re * b.re - a.im * b.im, a.re * b.im + a.im * b.re⟩⟩

/-- The complex conjugate `std::conj`. -/
def conj (a : Cplx R) : Cplx R := ⟨a.re, -a.im⟩

/-- The product `std::complex<T> * T` of a complex number and a real scalar. -/
def smulReal (a : Cplx R) (s : R) : Cplx R := ⟨a.re * s, a.im * s⟩

instance : AddCommMonoid (Cplx R) where
  add_assoc a b c := Cplx.ext (add_assoc a.re b.re c.re) (add_assoc a.im b.im c.im)
  zero_add a := Cplx.ext (zero_add a.re) (zero_add a.im)
  add_zero a := Cplx.ext (add_zero a.re) (add_zero a.im)
  add_comm a b := Cplx.ext (add_comm a.re b.re) (add_comm a.im b.im)
  nsmul := nsmulRec

end Cplx

/-! ## Geometry, subsets and the block field -/

/-- The part of `MGGeometry::LatticeInfo` (`lattice_info.h`) the kernels read. -/
structure LatticeInfo where
  _n_color : Nat
  _n_spin : Nat
  _n_cb_sites : Nat
deriving DecidableEq

namespace LatticeInfo

/-- The accessor `LatticeInfo::GetNumColors`. -/
def GetNumColors (info : LatticeInfo) : Nat := info._n_color

/-- The accessor `LatticeInfo::GetNumSpins`. -/
def GetNumSpins (info : LatticeInfo) : Nat := info._n_spin

/-- The accessor `LatticeInfo::GetNumCBSites`. -/
def GetNumCBSites (info : LatticeInfo) : Nat := info._n_cb_sites

end LatticeInfo

/-- Modelled from the spec: `AssertCompatible` (declared in `lattice/coarse/coarse_types.h`,
not among the sources).  It passes exactly when the two geometry descriptors agree on the
checkerboard-site count and on the colorspin count (color × spin). -/
def AssertCompatible (a b : LatticeInfo) : Bool :=
  a.GetNumCBSites == b.GetNumCBSites &&
    a.GetNumColors * a.GetNumSpins == b.GetNumColors * b.GetNumSpins

/-- Modelled from the spec: `CBSubset` (not among the sources), the half-open checkerboard
range `[start, end)`. -/
structure CBSubset where
  start : Nat
  end_ : Nat
deriving DecidableEq

/-- Modelled from the spec: `SUBSET_ALL` (not among the sources), the subset selecting both
checkerboards; it is the default `subset` argument of the kernels. -/
def SUBSET_ALL : CBSubset := ⟨0, n_checkerboard⟩

/-- Modelled from the spec: `SUBSET_EVEN` (not among the sources). -/
def SUBSET_EVEN : CBSubset := ⟨0, 1⟩

/-- Modelled from the spec: `SUBSET_ODD` (not among the sources). -/
def SUBSET_ODD : CBSubset := ⟨1, 2⟩

/-- A pointer into the storage of a block field: a checkerboard and an offset (in reals)
into that checkerboard's storage. -/
structure Ptr where
  cb : Nat
  off : Nat
deriving DecidableEq

/-- Modelled from the spec: the `CoarseSpinor` container (`lattice/coarse/coarse_types.h`, not
among the sources): a dense container indexed by (column, checkerboard, checkerboard-site),
each cell a contiguous run of `n_complex * colorspin` reals.  `data cb` is the storage of
checkerboard `cb`. -/
@[ext]
structure CoarseSpinor (R : Type) where
  info : LatticeInfo
  _n_col : Nat
  data : Nat → Nat → R

namespace CoarseSpinor

variable {R : Type}

/-- Modelled from the spec: `CoarseSpinor::GetInfo` (`coarse_types.h`, not among the sources),
the geometry descriptor of the field. -/
def GetInfo (x : CoarseSpinor R) : LatticeInfo := x.info

/-- Modelled from the spec: `CoarseSpinor::GetNCol` (`coarse_types.h`, not among the sources),
the number of columns. -/
def GetNCol (x : CoarseSpinor R) : Nat := x._n_col

/-- Modelled from the spec: `CoarseSpinor::GetNumColorSpin` (`coarse_types.h`, not among the
sources), the colorspin count: colorspin = color × spin. -/
def GetNumColorSpin (x : CoarseSpinor R) : Nat := x.info.GetNumColors * x.info.GetNumSpins

/-- Modelled from the spec: `CoarseSpinor::GetSiteDataPtr(col, cb, site)`.  The cells of one
site are stored column after column (the layout the `XGEMM` calls of `InnerProductMat` and
`UpdateVecs` address from the column-0 pointer with leading dimension `num_colorspin`), the
sites of a checkerboard one after the other. -/
def GetSiteDataPtr (x : CoarseSpinor R) (col cb site : Nat) : Ptr :=
  ⟨cb, (site * x.GetNCol + col) * (n_complex * x.GetNumColorSpin)⟩

/-- Modelled from the spec: `CoarseSpinor::GetSiteDataPtr(col, cb, site)` at a signed column
index, as `CopyVec` computes it from its `int` arguments.  The cell index `site * ncol + col`
is taken in the integers; a cell index below zero (a pointer before the storage of the
checkerboard, undefined in the source) is read as cell 0. -/
def GetSiteDataPtrInt (x : CoarseSpinor R) (col : Int) (cb site : Nat) : Ptr :=
  ⟨cb, Int.toNat (((site * x.GetNCol : Nat) : Int) + col) * (n_complex * x.GetNumColorSpin)⟩

/-- The read `p[i]` through a `float *` into the field. -/
def load (x : CoarseSpinor R) (p : Ptr) (i : Nat) : R := x.data p.cb (p.off + i)

/-- The write `p[i] = v` through a `float *` into the field. -/
def store (x : CoarseSpinor R) (p : Ptr) (i : Nat) (v : R) : CoarseSpinor R :=
  { x with data := fun cb off => if cb = p.cb ∧ off = p.off + i then v else x.data cb off }

/-- The read `p[i]` through a `std::complex<float> *` (a `reinterpret_cast` of a `float *`). -/
def loadC (x : CoarseSpinor R) (p : Ptr) (i : Nat) : Cplx R :=
  ⟨x.load p (RE + n_complex * i), x.load p (IM + n_complex * i)⟩

/-- The write `p[i] = v` through a `std::complex<float> *`. -/
def storeC (x : CoarseSpinor R) (p : Ptr) (i : Nat) (v : Cplx R) : CoarseSpinor R :=
  (x.store p (RE + n_complex * i) v.re).store p (IM + n_complex * i) v.im

end CoarseSpinor

/-- The outcome of a kernel call: it either returns, leaving the mutated field in state `s`
and yielding the value `a`, or it stops at a fatal assertion with the field in state `s`. -/
inductive Run (σ α : Type) where
  | ret (s : σ) (a : α) : Run σ α
  | fatal (s : σ) : Run σ α

namespace Run

variable {σ α : Type}

/-- The state of the mutated field when the call ends (by return or by abort). -/
def state : Run σ α → σ
  | ret s _ => s
  | fatal s => s

/-- The returned value, `none` when the call stopped at a fatal assertion. -/
def value : Run σ α → Option α
  | ret _ a => some a
  | fatal _ => none

/-- Whether the call stopped at a fatal assertion. -/
def isFatal : Run σ α → Bool
  | ret _ _ => false
  | fatal _ => true

end Run

/-- The write `y[i] = v` into a flat buffer of reals (a `float *`). -/
def bufWrite {R : Type} (y : Nat → R) (i : Nat) (v : R) : Nat → R :=
  fun j => if j = i then v else y j

/-! ## OpenMP environment and the thread-local reduction buffer -/

/-- The build and run-time environment the reduction buffer depends on: whether `_OPENMP` is
defined, the value of `omp_get_max_threads()`, and the value of `omp_get_thread_num()` in the
loop iteration `(cb, cbsite, col)`. -/
structure OmpEnv where
  openmp : Bool
  max_threads : Nat
  thread_num : Nat → Nat → Nat → Nat

/-- The class `multivector<T>`: `n * threads` accumulators. -/
structure multivector (T : Type) where
  n : Nat
  threads : Nat
  v : List T

namespace multivector

variable {T : Type} [Zero T] [Add T]

/-- The constructor `multivector(n)`: `threads` is `omp_get_max_threads()` under `_OPENMP` and
`1` otherwise; all `n * threads` entries are zero. -/
def create (env : OmpEnv) (n : Nat) : multivector T :=
  let threads := if env.openmp then env.max_threads else 1
  ⟨n, threads, List.replicate (n * threads) 0⟩

/-- The method `multivector::mine`: the offset in `v` of the returned pointer
`&v[this_thread * n]`, where `this_thread` is `0` under `_OPENMP` and `omp_get_thread_num()`
otherwise. -/
def mine (m : multivector T) (env : OmpEnv) (omp_get_thread_num : Nat) : Nat :=
  let this_thread := if env.openmp then 0 else omp_get_thread_num
  this_thread * m.n

/-- The read `v[idx]` of one accumulator (an index outside the buffer reads `0`). -/
def readAt (m : multivector T) (idx : Nat) : T := m.v.getD idx 0

/-- The write `v[idx] = a` of one accumulator (an index outside the buffer writes nothing). -/
def writeAt (m : multivector T) (idx : Nat) (a : T) : multivector T :=
  { m with v := m.v.set idx a }

/-- The update `v[idx] += s` of one accumulator. -/
def addAt (m : multivector T) (idx : Nat) (s : T) : multivector T :=
  m.writeAt idx (m.readAt idx + s)

/-- The method `multivector::reduce`: `r` has `n` zero entries and the loops run
`r[j] += v[i * threads + j]` for `i < n`, `j < threads`.  An access outside `r` or outside `v`
yields `none`. -/
def reduce (m : multivector T) : Option (List T) :=
  forLoop 0 m.n (fun i =>
    forLoop 0 m.threads (fun j r =>
      match r with
      | none => none
      | some r =>
        match r[j]?, m.v[i * m.threads + j]? with
        | some rj, some vij => some (r.set j (rj + vij))
        | _, _ => none))
    (some (List.replicate m.n 0))

end multivector

/-! ## Cross-process reduction -/

/-- The function `GlobalComm::GlobalSum` in the single-process configuration: the array is
returned untouched.  (The second argument the kernels pass only labels a timer of the
multi-process build.) -/
def GlobalSum {T : Type} (array : List T) : List T := array

/-! ## Reducing kernels -/

section Kernels

variable {R : Type} [CommRing R]

/-- The kernel `Norm2Vec(x, subset)`; the value is the returned vector, `none` when
`reduce` runs out of range. -/
def Norm2Vec (env : OmpEnv) (x : CoarseSpinor R) (subset : CBSubset) : Option (List R) :=
  let x_info := x.GetInfo
  let num_cbsites := x_info.GetNumCBSites
  let num_colorspin := x.GetNumColorSpin
  let ncol := x.GetNCol
  let norm_sqm : multivector R := multivector.create env ncol
  let norm_sqm := forLoop subset.start subset.end_ (fun cb =>
    forLoop 0 num_cbsites (fun cbsite =>
      forLoop 0 ncol (fun col norm_sqm =>
        let norm_sq_ptr := norm_sqm.mine env (env.thread_num cb cbsite col)
        let x_site_data := x.GetSiteDataPtr col cb cbsite
        let cspin_sum := forLoop 0 num_colorspin (fun cspin cspin_sum =>
          let x_re := x.load x_site_data (RE + n_complex * cspin)
          let x_im := x.load x_site_data (IM + n_complex * cspin)
          cspin_sum + (x_re * x_re + x_im * x_im)) (0 : R)
        norm_sqm.addAt (norm_sq_ptr + col) cspin_sum))) norm_sqm
  let norm_sq := norm_sqm.reduce
  norm_sq.map GlobalSum

/-- The kernel `XmyNorm2Vec(x, y, subset)`: the state is the mutated field `x`, the value the
returned vector, `none` when `reduce` runs out of range. -/
def XmyNorm2Vec (env : OmpEnv) (x y : CoarseSpinor R) (subset : CBSubset) :
    Run (CoarseSpinor R) (Option (List R)) :=
  let x_info := x.GetInfo
  let y_info := y.GetInfo
  if !AssertCompatible x_info y_info then Run.fatal x else
  let num_cbsites := x_info.GetNumCBSites
  let num_colorspin := x.GetNumColorSpin
  let ncol := x.GetNCol
  let norm_diffm : multivector R := multivector.create env ncol
  let st := forLoop subset.start subset.end_ (fun cb =>
    forLoop 0 num_cbsites (fun cbsite =>
      forLoop 0 ncol (fun col (st : CoarseSpinor R × multivector R) =>
        let norm_diff_ptr := st.2.mine env (env.thread_num cb cbsite col)
        let x_site_data := x.GetSiteDataPtr col cb cbsite
        let y_site_data := y.GetSiteDataPtr col cb cbsite
        let inner := forLoop 0 num_colorspin (fun cspin (acc : CoarseSpinor R × R) =>
          let diff_re := acc.1.load x_site_data (RE + n_complex * cspin) -
            y.load y_site_data (RE + n_complex * cspin)
          let diff_im := acc.1.load x_site_data (IM + n_complex * cspin) -
            y.load y_site_data (IM + n_complex * cspin)
          let x1 := acc.1.store x_site_data (RE + n_complex * cspin) diff_re
          let x2 := x1.store x_site_data (IM + n_complex * cspin) diff_im
          (x2, acc.2 + (diff_re * diff_re + diff_im * diff_im))) (st.1, (0 : R))
        (inner.1, st.2.addAt (norm_diff_ptr + col) inner.2)))) (x, norm_diffm)
  let norm_diff := st.2.reduce
  Run.ret st.1 (norm_diff.map GlobalSum)

/-- The kernel `InnerProductVec(x, y, subset)`: no field is mutated, the value is the returned
vector, `none` when `reduce` runs out of range. -/
def InnerProductVec (env : OmpEnv) (x y : CoarseSpinor R) (subset : CBSubset) :
    Run Unit (Option (List (Cplx R))) :=
  let x_info := x.GetInfo
  let y_info := y.GetInfo
  if !AssertCompatible x_info y_info then Run.fatal () else
  let num_cbsites := x_info.GetNumCBSites
  let num_colorspin := x.GetNumColorSpin
  let ncol := x.GetNCol
  let ipprodm : multivector (Cplx R) := multivector.create env ncol
  let ipprodm := forLoop subset.start subset.end_ (fun cb =>
    forLoop 0 num_cbsites (fun cbsite =>
      forLoop 0 ncol (fun col ipprodm =>
        let ipprod_ptr := ipprodm.mine env (env.thread_num cb cbsite col)
        let x_site_data := x.GetSiteDataPtr col cb cbsite
        let y_site_data := y.GetSiteDataPtr col cb cbsite
        let cspin_iprod := forLoop 0 num_colorspin (fun cspin (acc : R × R) =>
          (acc.1 + (x.load x_site_data (RE + n_complex * cspin) *
                      y.load y_site_data (RE + n_complex * cspin) +
                    x.load x_site_data (IM + n_complex * cspin) *
                      y.load y_site_data (IM + n_complex * cspin)),
           acc.2 + (x.load x_site_data (RE + n_complex * cspin) *
                      y.load y_site_data (IM + n_complex * cspin) -
                    x.load x_site_data (IM + n_complex * cspin) *
                      y.load y_site_data (RE + n_complex * cspin)))) ((0 : R), (0 : R))
        ipprodm.addAt (ipprod_ptr + col) ⟨cspin_iprod.1, cspin_iprod.2⟩))) ipprodm
  let ipprod := ipprodm.reduce
  Run.ret () (ipprod.map GlobalSum)

/-- The transposition flags `"N"`, `"T"`, `"C"` of `XGEMM`. -/
inductive Trans where
  | N
  | T
  | C
deriving DecidableEq

/-- The entry `(i, l)` of `op(A)` for a matrix stored column-major at `a` with leading
dimension `lda`. -/
def opEntry (trans : Trans) (a : Nat → Cplx R) (lda : Nat) (i l : Nat) : Cplx R :=
  match trans with
  | Trans.N => a (i + lda * l)
  | Trans.T => a (l + lda * i)
  | Trans.C => (a (l + lda * i)).conj

/-- Modelled from the spec: `XGEMM` of `lattice/cmat_mult.h` (not among the sources), the
generalized complex matrix multiply `C := alpha * op(A) * op(B) + beta * C` on column-major
operands, `op(A)` being `m × k`, `op(B)` `k × n` and `C` `m × n`.  The storage holding `C` is
the state `c`, read with `readC` and written with `writeC`. -/
def XGEMM {σ : Type} (transa transb : Trans) (m n k : Nat) (alpha : Cplx R)
    (a : Nat → Cplx R) (lda : Nat) (b : Nat → Cplx R) (ldb : Nat) (beta : Cplx R)
    (readC : σ → Nat → Cplx R) (writeC : σ → Nat → Cplx R → σ) (ldc : Nat) (c : σ) : σ :=
  forLoop 0 n (fun j =>
    forLoop 0 m (fun i c =>
      let temp := forLoop 0 k (fun l temp =>
        temp + opEntry transa a lda i l * opEntry transb b ldb l j) (0 : Cplx R)
      writeC c (i + ldc * j) (alpha * temp + beta * readC c (i + ldc * j)))) c

/-- The conversion `std::complex<double>(z)` of a `std::complex<float>` (exact). -/
def toDoubleC (z : Cplx R) : Cplx R := z

/-- The conversion `std::complex<float>(z)` of a `std::complex<double>` (read as exact). -/
def toFloatC (z : Cplx R) : Cplx R := z

/-- The kernel `InnerProductMat(x, y, subset)`: no field is mutated, the value is the returned
column-major matrix. -/
def InnerProductMat (env : OmpEnv) (x y : CoarseSpinor R) (subset : CBSubset) :
    Run Unit (Option (List (Cplx R))) :=
  let x_info := x.GetInfo
  let y_info := y.GetInfo
  if !AssertCompatible x_info y_info then Run.fatal () else
  let num_cbsites := x_info.GetNumCBSites
  let num_colorspin := x.GetNumColorSpin
  let xncol := x.GetNCol
  let yncol := y.GetNCol
  let ipprodm : multivector (Cplx R) := multivector.create env (xncol * yncol)
  let ipprodm := forLoop subset.start subset.end_ (fun cb =>
    forLoop 0 num_cbsites (fun cbsite ipprodm =>
      let x_site_data := x.GetSiteDataPtr 0 cb cbsite
      let y_site_data := y.GetSiteDataPtr 0 cb cbsite
      let ipprod_ptr := ipprodm.mine env (env.thread_num cb cbsite 0)
      XGEMM Trans.C Trans.N xncol yncol num_colorspin 1 (x.loadC x_site_data) num_colorspin
        (y.loadC y_site_data) num_colorspin 1
        (fun (m : multivector (Cplx R)) k => m.readAt (ipprod_ptr + k))
        (fun (m : multivector (Cplx R)) k z => m.writeAt (ipprod_ptr + k) z) xncol ipprodm))
    ipprodm
  let ipprod := ipprodm.reduce
  let ipprod_d := ipprod.map (fun l => l.map toDoubleC)
  Run.ret () (ipprod_d.map GlobalSum)

/-! ## Element-wise kernels -/

/-- The kernel `ZeroVec(x, subset)`. -/
def ZeroVec (x : CoarseSpinor R) (subset : CBSubset) : CoarseSpinor R :=
  let x_info := x.GetInfo
  let num_cbsites := x_info.GetNumCBSites
  let num_colorspin := x.GetNumColorSpin
  let ncol := x.GetNCol
  forLoop subset.start subset.end_ (fun cb =>
    forLoop 0 num_cbsites (fun cbsite =>
      forLoop 0 ncol (fun col =>
        let x_site_data := x.GetSiteDataPtr col cb cbsite
        forLoop 0 num_colorspin (fun cspin (xs : CoarseSpinor R) =>
          (xs.store x_site_data (RE + n_complex * cspin) 0).store x_site_data
            (IM + n_complex * cspin) 0)))) x

/-- The kernel `UpdateVecs(x, ip, y, subset)`: the state is the mutated field `y`.  The call
`ZeroVec(y)` takes the default subset `SUBSET_ALL`. -/
def UpdateVecs (x : CoarseSpinor R) (ip : List (Cplx R)) (y : CoarseSpinor R)
    (subset : CBSubset) : Run (CoarseSpinor R) Unit :=
  let x_info := x.GetInfo
  let y_info := y.GetInfo
  if !AssertCompatible x_info y_info then Run.fatal y else
  let num_cbsites := x_info.GetNumCBSites
  let num_colorspin := x.GetNumColorSpin
  let xncol := x.GetNCol
  let yncol := y.GetNCol
  if !(xncol * yncol == ip.length) then Run.fatal y else
  let ip_f := ip.map toFloatC
  let y0 := ZeroVec y SUBSET_ALL
  let y1 := forLoop subset.start subset.end_ (fun cb =>
    forLoop 0 num_cbsites (fun cbsite (ys : CoarseSpinor R) =>
      let x_site_data := x.GetSiteDataPtr 0 cb cbsite
      let y_site_data := y.GetSiteDataPtr 0 cb cbsite
      XGEMM Trans.N Trans.N num_colorspin yncol xncol 1 (x.loadC x_site_data) num_colorspin
        (fun k => ip_f.getD k 0) xncol 0
        (fun (c : CoarseSpinor R) k => c.loadC y_site_data k)
        (fun (c : CoarseSpinor R) k z => c.storeC y_site_data k z) num_colorspin ys)) y0
  Run.ret y1 ()

/-- The scalar types at which `AxpyVecT` is instantiated: `mulScalar z a` is the product
`z * toFloat(a)` of a `std::complex<float>` value `z` and the converted scalar. -/
class AxpyScalar (T : Type) (R : Type) where
  mulScalar : Cplx R → T → Cplx R

/-- Real scalars (`float`, `double`): `std::complex<float> * float`. -/
instance instAxpyScalarReal : AxpyScalar R R := ⟨Cplx.smulReal⟩

/-- Complex scalars (`std::complex<float>`, `std::complex<double>`): complex product. -/
instance instAxpyScalarCplx : AxpyScalar (Cplx R) R := ⟨fun z a => z * a⟩

/-- The kernel template `AxpyVecT<T>(alpha, x, y, subset)`: the state is the mutated field
`y`.  A read of `alpha` past its end (undefined in the source) reads `0`. -/
def AxpyVecT {T : Type} [Zero T] [AxpyScalar T R] (alpha : List T) (x y : CoarseSpinor R)
    (subset : CBSubset) : Run (CoarseSpinor R) Unit :=
  let x_info := x.GetInfo
  let y_info := y.GetInfo
  if !AssertCompatible x_info y_info then Run.fatal y else
  let num_cbsites := x_info.GetNumCBSites
  let num_colorspin := x.GetNumColorSpin
  let ncol := x.GetNCol
  Run.ret (forLoop subset.start subset.end_ (fun cb =>
    forLoop 0 num_cbsites (fun cbsite =>
      forLoop 0 ncol (fun col =>
        let x_site_data := x.GetSiteDataPtr col cb cbsite
        let y_site_data := y.GetSiteDataPtr col cb cbsite
        let alpha_col := alpha.getD col 0
        forLoop 0 num_colorspin (fun cspin (ys : CoarseSpinor R) =>
          ys.storeC y_site_data cspin
            (ys.loadC y_site_data cspin +
              AxpyScalar.mulScalar (x.loadC x_site_data cspin) alpha_col))))) y) ()

/-- The four overloads of `AxpyVec` (`std::complex<float>`, `float`, `std::complex<double>`,
`double` scalars): each one calls `AxpyVecT`. -/
def AxpyVec {T : Type} [Zero T] [AxpyScalar T R] (alpha : List T) (x y : CoarseSpinor R)
    (subset : CBSubset) : Run (CoarseSpinor R) Unit :=
  AxpyVecT alpha x y subset

/-- The kernel `YpeqxVec(x, y, subset)`: the state is the mutated field `y`. -/
def YpeqxVec (x y : CoarseSpinor R) (subset : CBSubset) : Run (CoarseSpinor R) Unit :=
  let x_info := x.GetInfo
  let y_info := y.GetInfo
  if !AssertCompatible x_info y_info then Run.fatal y else
  let num_cbsites := x_info.GetNumCBSites
  let num_colorspin := x.GetNumColorSpin
  let ncol := x.GetNCol
  Run.ret (forLoop subset.start subset.end_ (fun cb =>
    forLoop 0 num_cbsites (fun cbsite =>
      forLoop 0 ncol (fun col =>
        let x_site_data := x.GetSiteDataPtr col cb cbsite
        let y_site_data := y.GetSiteDataPtr col cb cbsite
        forLoop 0 num_colorspin (fun cspin (ys : CoarseSpinor R) =>
          let y1 := ys.store y_site_data (RE + n_complex * cspin)
            (ys.load y_site_data (RE + n_complex * cspin) +
              x.load x_site_data (RE + n_complex * cspin))
          y1.store y_site_data (IM + n_complex * cspin)
            (y1.load y_site_data (IM + n_complex * cspin) +
              x.load x_site_data (IM + n_complex * cspin)))))) y) ()

/-- The kernel `YmeqxVec(x, y, subset)`: the state is the mutated field `y`. -/
def YmeqxVec (x y : CoarseSpinor R) (subset : CBSubset) : Run (CoarseSpinor R) Unit :=
  let x_info := x.GetInfo
  let y_info := y.GetInfo
  if !AssertCompatible x_info y_info then Run.fatal y else
  let num_cbsites := x_info.GetNumCBSites
  let num_colorspin := x.GetNumColorSpin
  let ncol := x.GetNCol
  Run.ret (forLoop subset.start subset.end_ (fun cb =>
    forLoop 0 num_cbsites (fun cbsite =>
      forLoop 0 ncol (fun col =>
        let x_site_data := x.GetSiteDataPtr col cb cbsite
        let y_site_data := y.GetSiteDataPtr col cb cbsite
        forLoop 0 num_colorspin (fun cspin (ys : CoarseSpinor R) =>
          let y1 := ys.store y_site_data (RE + n_complex * cspin)
            (ys.load y_site_data (RE + n_complex * cspin) -
              x.load x_site_data (RE + n_complex * cspin))
          y1.store y_site_data (IM + n_complex * cspin)
            (y1.load y_site_data (IM + n_complex * cspin) -
              x.load x_site_data (IM + n_complex * cspin)))))) y) ()

/-- The kernel `XmyzVec(x, y, z, subset)`: the state is the overwritten field `z`. -/
def XmyzVec (x y z : CoarseSpinor R) (subset : CBSubset) : Run (CoarseSpinor R) Unit :=
  let x_info := x.GetInfo
  let y_info := y.GetInfo
  let z_info := z.GetInfo
  if !AssertCompatible x_info y_info then Run.fatal z else
  if !AssertCompatible z_info x_info then Run.fatal z else
  let num_cbsites := x_info.GetNumCBSites
  let num_colorspin := x.GetNumColorSpin
  let ncol := x.GetNCol
  Run.ret (forLoop subset.start subset.end_ (fun cb =>
    forLoop 0 num_cbsites (fun cbsite =>
      forLoop 0 ncol (fun col =>
        let x_site_data := x.GetSiteDataPtr col cb cbsite
        let y_site_data := y.GetSiteDataPtr col cb cbsite
        let z_site_data := z.GetSiteDataPtr col cb cbsite
        forLoop 0 num_colorspin (fun cspin (zs : CoarseSpinor R) =>
          let z1 := zs.store z_site_data (RE + n_complex * cspin)
            (x.load x_site_data (RE + n_complex * cspin) -
              y.load y_site_data (RE + n_complex * cspin))
          z1.store z_site_data (IM + n_complex * cspin)
            (x.load x_site_data (IM + n_complex * cspin) -
              y.load y_site_data (IM + n_complex * cspin)))))) z) ()

/-- The kernel `CopyVec(x, xcol0, xcol1, y, ycol0, subset)` with `int` column arguments: the
state is the mutated field `x`. -/
def CopyVec (x : CoarseSpinor R) (xcol0 xcol1 : Int) (y : CoarseSpinor R) (ycol0 : Int)
    (subset : CBSubset) : Run (CoarseSpinor R) Unit :=
  let x_info := x.GetInfo
  let y_info := y.GetInfo
  if !AssertCompatible x_info y_info then Run.fatal x else
  let num_cbsites := x_info.GetNumCBSites
  let num_colorspin := x.GetNumColorSpin
  let xncol := x.GetNCol
  if ¬ (xcol1 ≤ (xncol : Int)) then Run.fatal x else
  let ncol : Int := max 0 (xcol1 - xcol0)
  if ¬ (ycol0 + ncol ≤ (y.GetNCol : Int)) then Run.fatal x else
  Run.ret (forLoop subset.start subset.end_ (fun cb =>
    forLoop 0 num_cbsites (fun cbsite =>
      forLoop 0 ncol.toNat (fun col =>
        let x_site_data := x.GetSiteDataPtrInt (xcol0 + (col : Int)) cb cbsite
        let y_site_data := y.GetSiteDataPtrInt (ycol0 + (col : Int)) cb cbsite
        forLoop 0 num_colorspin (fun cspin (xs : CoarseSpinor R) =>
          (xs.store x_site_data (RE + n_complex * cspin)
            (y.load y_site_data (RE + n_complex * cspin))).store x_site_data
            (IM + n_complex * cspin) (y.load y_site_data (IM + n_complex * cspin)))))) x) ()

/-- The overload `CopyVec(x, y, subset)`, which copies all the columns of `x`. -/
def CopyVecAllColumns (x y : CoarseSpinor R) (subset : CBSubset) :
    Run (CoarseSpinor R) Unit :=
  CopyVec x 0 (x.GetNCol : Int) y 0 subset

/-- The overload `ScaleVec(alpha, x, subset)` for real scalars (`std::vector<float>`): the
state is the mutated field `x`. -/
def ScaleVec (alpha : List R) (x : CoarseSpinor R) (subset : CBSubset) :
    Run (CoarseSpinor R) Unit :=
  if ¬ (alpha.length = x.GetNCol) then Run.fatal x else
  let x_info := x.GetInfo
  let num_cbsites := x_info.GetNumCBSites
  let num_colorspin := x.GetNumColorSpin
  let ncol := x.GetNCol
  Run.ret (forLoop subset.start subset.end_ (fun cb =>
    forLoop 0 num_cbsites (fun cbsite =>
      forLoop 0 ncol (fun col =>
        let x_site_data := x.GetSiteDataPtr col cb cbsite
        let alpha_col := alpha.getD col 0
        forLoop 0 num_colorspin (fun cspin (xs : CoarseSpinor R) =>
          let x1 := xs.store x_site_data (RE + n_complex * cspin)
            (xs.load x_site_data (RE + n_complex * cspin) * alpha_col)
          x1.store x_site_data (IM + n_complex * cspin)
            (x1.load x_site_data (IM + n_complex * cspin) * alpha_col))))) x) ()

/-- The overload `ScaleVec(alpha, x, subset)` for complex scalars
(`std::vector<std::complex<float>>`): the state is the mutated field `x`.  It has no
assertion; a read of `alpha` past its end (undefined in the source) reads `0`. -/
def ScaleVecComplex (alpha : List (Cplx R)) (x : CoarseSpinor R) (subset : CBSubset) :
    Run (CoarseSpinor R) Unit :=
  let x_info := x.GetInfo
  let num_cbsites := x_info.GetNumCBSites
  let num_colorspin := x.GetNumColorSpin
  let ncol := x.GetNCol
  Run.ret (forLoop subset.start subset.end_ (fun cb =>
    forLoop 0 num_cbsites (fun cbsite =>
      forLoop 0 ncol (fun col =>
        let x_site_data := x.GetSiteDataPtr col cb cbsite
        let alpha_col := alpha.getD col 0
        forLoop 0 num_colorspin (fun cspin (xs : CoarseSpinor R) =>
          let t : Cplx R := ⟨xs.load x_site_data (RE + n_complex * cspin),
            xs.load x_site_data (IM + n_complex * cspin)⟩
          let t := t * alpha_col
          (xs.store x_site_data (RE + n_complex * cspin) t.re).store x_site_data
            (IM + n_complex * cspin) t.im)))) x) ()

/-- The kernel `BiCGStabPUpdate(beta, r, omega, v, p, subset)`: the state is the mutated field
`p`.  A read of `beta` or `omega` past its end (undefined in the source) reads `0`. -/
def BiCGStabPUpdate (beta : List (Cplx R)) (r : CoarseSpinor R) (omega : List (Cplx R))
    (v p : CoarseSpinor R) (subset : CBSubset) : Run (CoarseSpinor R) Unit :=
  let r_info := r.GetInfo
  let p_info := p.GetInfo
  let v_info := v.GetInfo
  if !AssertCompatible r_info p_info then Run.fatal p else
  if !AssertCompatible v_info r_info then Run.fatal p else
  let num_cbsites := p_info.GetNumCBSites
  let num_colorspin := p.GetNumColorSpin
  let ncol := r.GetNCol
  Run.ret (forLoop subset.start subset.end_ (fun cb =>
    forLoop 0 num_cbsites (fun cbsite =>
      forLoop 0 ncol (fun col =>
        let r_site_data := r.GetSiteDataPtr col cb cbsite
        let v_site_data := v.GetSiteDataPtr col cb cbsite
        let p_site_data := p.GetSiteDataPtr col cb cbsite
        let beta_col := beta.getD col 0
        let omega_col := omega.getD col 0
        forLoop 0 num_colorspin (fun cspin (ps : CoarseSpinor R) =>
          let c_p : Cplx R := ⟨ps.load p_site_data (RE + n_complex * cspin),
            ps.load p_site_data (IM + n_complex * cspin)⟩
          let c_r : Cplx R := ⟨r.load r_site_data (RE + n_complex * cspin),
            r.load r_site_data (IM + n_complex * cspin)⟩
          let c_v : Cplx R := ⟨v.load v_site_data (RE + n_complex * cspin),
            v.load v_site_data (IM + n_complex * cspin)⟩
          let res := c_r + beta_col * (c_p - omega_col * c_v)
          (ps.store p_site_data (RE + n_complex * cspin) res.re).store p_site_data
            (IM + n_complex * cspin) res.im)))) p) ()

/-- The kernel `BiCGStabXUpdate(omega, r, alpha, p, x, subset)`: the state is the mutated field
`x`.  A read of `omega` or `alpha` past its end (undefined in the source) reads `0`. -/
def BiCGStabXUpdate (omega : List (Cplx R)) (r : CoarseSpinor R) (alpha : List (Cplx R))
    (p x : CoarseSpinor R) (subset : CBSubset) : Run (CoarseSpinor R) Unit :=
  let r_info := r.GetInfo
  let p_info := p.GetInfo
  let x_info := x.GetInfo
  if !AssertCompatible r_info p_info then Run.fatal x else
  if !AssertCompatible x_info r_info then Run.fatal x else
  let num_cbsites := x_info.GetNumCBSites
  let num_colorspin := x.GetNumColorSpin
  let ncol := x.GetNCol
  Run.ret (forLoop subset.start subset.end_ (fun cb =>
    forLoop 0 num_cbsites (fun cbsite =>
      forLoop 0 ncol (fun col =>
        let r_site_data := r.GetSiteDataPtr col cb cbsite
        let p_site_data := p.GetSiteDataPtr col cb cbsite
        let x_site_data := x.GetSiteDataPtr col cb cbsite
        let alpha_col := alpha.getD col 0
        let omega_col := omega.getD col 0
        forLoop 0 num_colorspin (fun cspin (xs : CoarseSpinor R) =>
          let c_p : Cplx R := ⟨p.load p_site_data (RE + n_complex * cspin),
            p.load p_site_data (IM + n_complex * cspin)⟩
          let c_r : Cplx R := ⟨r.load r_site_data (RE + n_complex * cspin),
            r.load r_site_data (IM + n_complex * cspin)⟩
          let res := omega_col * c_r + alpha_col * c_p
          let x1 := xs.store x_site_data (RE + n_complex * cspin)
            (xs.load x_site_data (RE + n_complex * cspin) + res.re)
          x1.store x_site_data (IM + n_complex * cspin)
            (x1.load x_site_data (IM + n_complex * cspin) + res.im))))) x) ()

/-- The kernel `GetColumns(x, subset, y, ld)`: the state is the buffer `y`.  The source has no
assertion in this kernel. -/
def GetColumns (x : CoarseSpinor R) (subset : CBSubset) (y : Nat → R) (ld : Nat) :
    Run (Nat → R) Unit :=
  let x_info := x.GetInfo
  let num_cbsites := x_info.GetNumCBSites
  let num_colorspin := x.GetNumColorSpin
  let ncol := x.GetNCol
  let cb0 := subset.start
  Run.ret (forLoop subset.start subset.end_ (fun cb =>
    forLoop 0 num_cbsites (fun cbsite =>
      forLoop 0 ncol (fun col =>
        let x_site_data := x.GetSiteDataPtr col cb cbsite
        forLoop 0 num_colorspin (fun cspin (ys : Nat → R) =>
          let y1 := bufWrite ys
            (RE + n_complex * cspin +
              ((cb - cb0) * num_cbsites + cbsite) * num_colorspin * n_complex + ld * col)
            (x.load x_site_data (RE + n_complex * cspin))
          bufWrite y1
            (IM + n_complex * cspin +
              ((cb - cb0) * num_cbsites + cbsite) * num_colorspin * n_complex + ld * col)
            (x.load x_site_data (IM + n_complex * cspin)))))) y) ()

/-- The kernel `PutColumns(y, ld, x, subset)`: the state is the mutated field `x`.  The bound
of the assertion is read for a range with `start ≤ end` and a bound below `2^32`, where the
`(unsigned int)` conversion of the `int` product is the identity; for `end < start` the source
converts a negative product, so every theorem on the outcome of the assertion has the
hypothesis `subset.start ≤ subset.end_`. -/
def PutColumns (y : Nat → R) (ld : Nat) (x : CoarseSpinor R) (subset : CBSubset) :
    Run (CoarseSpinor R) Unit :=
  let x_info := x.GetInfo
  let num_cbsites := x_info.GetNumCBSites
  let num_colorspin := x.GetNumColorSpin
  let ncol := x.GetNCol
  if ¬ (ld ≥ n_complex * num_colorspin * num_cbsites * (subset.end_ - subset.start)) then
    Run.fatal x else
  let cb0 := subset.start
  Run.ret (forLoop subset.start subset.end_ (fun cb =>
    forLoop 0 num_cbsites (fun cbsite =>
      forLoop 0 ncol (fun col =>
        let x_site_data := x.GetSiteDataPtr col cb cbsite
        forLoop 0 num_colorspin (fun cspin (xs : CoarseSpinor R) =>
          (xs.store x_site_data (RE + n_complex * cspin)
            (y (RE + n_complex * cspin +
              ((cb - cb0) * num_cbsites + cbsite) * num_colorspin * n_complex +
                ld * col))).store x_site_data (IM + n_complex * cspin)
            (y (IM + n_complex * cspin +
              ((cb - cb0) * num_cbsites + cbsite) * num_colorspin * n_complex +
                ld * col)))))) x) ()

/-- The buffer position of the specification for `GetColumns` / `PutColumns`:
`realOrImag + 2·colorspin + ((checkerboard − subsetStart)·numCBSites + site)·2·numColorspin +
leadingDim·column`, written from the words of the specification. -/
def columnIndex (numColorSpin numCBSites subsetStart ld : Nat)
    (realOrImag colorspin site checkerboard column : Nat) : Nat :=
  realOrImag + 2 * colorspin +
    ((checkerboard - subsetStart) * numCBSites + site) * 2 * numColorSpin + ld * column

/-- The kernel `Gamma5Vec(x, subset)`; the source has no assertion in this kernel.  The
colorspin loop starts at `num_colorspin / 2` (integer division). -/
def Gamma5Vec (x : CoarseSpinor R) (subset : CBSubset) : CoarseSpinor R :=
  let x_info := x.GetInfo
  let num_cbsites := x_info.GetNumCBSites
  let num_colorspin := x.GetNumColorSpin
  let ncol := x.GetNCol
  forLoop subset.start subset.end_ (fun cb =>
    forLoop 0 num_cbsites (fun cbsite =>
      forLoop 0 ncol (fun col =>
        let x_site_data := x.GetSiteDataPtr col cb cbsite
        forLoop (num_colorspin / 2) num_colorspin (fun cspin (xs : CoarseSpinor R) =>
          let x1 := xs.store x_site_data (RE + n_complex * cspin)
            (xs.load x_site_data (RE + n_complex * cspin) * (-1))
          x1.store x_site_data (IM + n_complex * cspin)
            (x1.load x_site_data (IM + n_complex * cspin) * (-1)))))) x

end Kernels

/-! ## Random fill -/

section RandomFill

variable {R G : Type}

/-- The state of the random source after `k` draws.  The source is the `static`
`std::mt19937_64 twister_engine` together with the `std::normal_distribution<>` object of the
call; `draw g` is the value of one evaluation `normal_dist(twister_engine)` in state `g` and
the state after it. -/
def drawState (draw : G → R × G) (g : G) (k : Nat) : G :=
  (fun g => (draw g).2)^[k] g

/-- The value of draw number `k` (counted from 0) of the random source started in `g`. -/
def drawValue (draw : G → R × G) (g : G) (k : Nat) : R :=
  (draw (drawState draw g k)).1

/-- The kernel `Gaussian(x, subset)`: the loops of the `omp single` block, run by one thread.
The state is the pair of the mutated field and the random source; the conversion of the
drawn `double` to `float` is read as exact. -/
def Gaussian (draw : G → R × G) (x : CoarseSpinor R) (subset : CBSubset) (g : G) :
    CoarseSpinor R × G :=
  let info := x.GetInfo
  let num_colorspin := info.GetNumColors * info.GetNumSpins
  let num_cbsites := info.GetNumCBSites
  let ncol := x.GetNCol
  forLoop subset.start subset.end_ (fun cb =>
    forLoop 0 num_cbsites (fun cbsite =>
      forLoop 0 ncol (fun col =>
        let x_site_data := x.GetSiteDataPtr col cb cbsite
        forLoop 0 num_colorspin (fun cspin (st : CoarseSpinor R × G) =>
          let d1 := draw st.2
          let x1 := st.1.store x_site_data (RE + n_complex * cspin) d1.1
          let d2 := draw d1.2
          (x1.store x_site_data (IM + n_complex * cspin) d2.1, d2.2))))) (x, g)

end RandomFill

/-! ## Gauge-field zeroing -/

/-- Modelled from the spec: the `CoarseGauge` container (`lattice/coarse/coarse_types.h`, not
among the sources), a block gauge field with five storage regions (diagonal block,
off-diagonal block, inverse-diagonal block and the two triangular-factor blocks).  The layout
is left open: `mem` is the memory the `float *` accessors point into, and each accessor is a
field giving the address it returns. -/
structure CoarseGauge (R : Type) where
  info : LatticeInfo
  link_offset : Nat
  site_offset : Nat
  diag_ptr : Nat → Nat → Nat
  dir_ptr : Nat → Nat → Nat → Nat
  invdiag_ptr : Nat → Nat → Nat
  dirAD_ptr : Nat → Nat → Nat → Nat
  dirDA_ptr : Nat → Nat → Nat → Nat
  mem : Nat → R

namespace CoarseGauge

variable {R : Type}

/-- The accessor `CoarseGauge::GetInfo`. -/
def GetInfo (gauge : CoarseGauge R) : LatticeInfo := gauge.info

/-- The accessor `CoarseGauge::GetLinkOffset`: the number of reals of one link matrix. -/
def GetLinkOffset (gauge : CoarseGauge R) : Nat := gauge.link_offset

/-- The accessor `CoarseGauge::GetSiteOffset`: the number of reals of all links of a site. -/
def GetSiteOffset (gauge : CoarseGauge R) : Nat := gauge.site_offset

/-- The accessor `CoarseGauge::GetSiteDiagDataPtr(cb, site)`. -/
def GetSiteDiagDataPtr (gauge : CoarseGauge R) (cb site : Nat) : Nat := gauge.diag_ptr cb site

/-- The accessor `CoarseGauge::GetSiteDirDataPtr(cb, site, mu)`. -/
def GetSiteDirDataPtr (gauge : CoarseGauge R) (cb site mu : Nat) : Nat :=
  gauge.dir_ptr cb site mu

/-- The accessor `CoarseGauge::GetSiteInvDiagDataPtr(cb, site)`. -/
def GetSiteInvDiagDataPtr (gauge : CoarseGauge R) (cb site : Nat) : Nat :=
  gauge.invdiag_ptr cb site

/-- The accessor `CoarseGauge::GetSiteDirADDataPtr(cb, site, mu)`. -/
def GetSiteDirADDataPtr (gauge : CoarseGauge R) (cb site mu : Nat) : Nat :=
  gauge.dirAD_ptr cb site mu

/-- The accessor `CoarseGauge::GetSiteDirDADataPtr(cb, site, mu)`. -/
def GetSiteDirDADataPtr (gauge : CoarseGauge R) (cb site mu : Nat) : Nat :=
  gauge.dirDA_ptr cb site mu

/-- The write `data[j] = v` through a `float *` at address `data`. -/
def write (gauge : CoarseGauge R) (data j : Nat) (v : R) : CoarseGauge R :=
  { gauge with mem := bufWrite gauge.mem (data + j) v }

/-- The read `data[j]` through a `float *` at address `data`. -/
def read (gauge : CoarseGauge R) (data j : Nat) : R := gauge.mem (data + j)

end CoarseGauge

section GaugeZero

variable {R : Type} [Zero R]

/-- The function `ZeroGauge(gauge)`: five loop nests over both checkerboards and all sites,
one per storage region. -/
def ZeroGauge (gauge : CoarseGauge R) : CoarseGauge R :=
  let info := gauge.GetInfo
  let num_cbsites := info.GetNumCBSites
  -- diag_data
  let g1 := forLoop 0 n_checkerboard (fun cb =>
    forLoop 0 num_cbsites (fun cbsite =>
      let data := gauge.GetSiteDiagDataPtr cb cbsite
      forLoop 0 gauge.GetLinkOffset (fun j (g : CoarseGauge R) => g.write data j 0))) gauge
  -- offdiag_data
  let g2 := forLoop 0 n_checkerboard (fun cb =>
    forLoop 0 num_cbsites (fun cbsite =>
      let data := gauge.GetSiteDirDataPtr cb cbsite 0
      forLoop 0 gauge.GetSiteOffset (fun j (g : CoarseGauge R) => g.write data j 0))) g1
  -- inv diag_data
  let g3 := forLoop 0 n_checkerboard (fun cb =>
    forLoop 0 num_cbsites (fun cbsite =>
      let data := gauge.GetSiteInvDiagDataPtr cb cbsite
      forLoop 0 gauge.GetLinkOffset (fun j (g : CoarseGauge R) => g.write data j 0))) g2
  -- AD_data
  let g4 := forLoop 0 n_checkerboard (fun cb =>
    forLoop 0 num_cbsites (fun cbsite =>
      let data := gauge.GetSiteDirADDataPtr cb cbsite 0
      forLoop 0 gauge.GetSiteOffset (fun j (g : CoarseGauge R) => g.write data j 0))) g3
  -- DA_data
  forLoop 0 n_checkerboard (fun cb =>
    forLoop 0 num_cbsites (fun cbsite =>
      let data := gauge.GetSiteDirDADataPtr cb cbsite 0
      forLoop 0 gauge.GetSiteOffset (fun j (g : CoarseGauge R) => g.write data j 0))) g4

end GaugeZero

/-! ## Link matrix times half spinor (`kokkos_matvec.h`) -/

section HalfSpinor

variable {R : Type} [CommRing R]

/-- Modelled from the spec: `ComplexZero(res)` of `kokkos_ops.h` (not among the sources; the
specification does not describe it): the new value of `res`, zero. -/
def ComplexZero (_res : Cplx R) : Cplx R := 0

/-- Modelled from the spec: `ComplexCMadd(res, a, b)` of `kokkos_ops.h` (not among the sources;
the specification does not describe it): the new value of `res`, following the comment at the
call site, `v_out(row,spin) += u(row,col)*v_in(col)` with the complex product
`a(K_RE)*b(K_RE)-a(K_IM)*b(K_IM)`, `a(K_RE)*b(K_IM) + a(K_IM)*b(K_RE)`. -/
def ComplexCMadd (res a b : Cplx R) : Cplx R := res + a * b

/-- Modelled from the spec: `ComplexConjMadd(res, a, b)` of `kokkos_ops.h` (not among the
sources; the specification does not describe it): the new value of `res`, following the
disabled lines at the call site, which add `a_RE*b_RE + a_IM*b_IM` to the real part and
`a_RE*b_IM - a_IM*b_RE` to the imaginary part: `res += conj(a) * b`. -/
def ComplexConjMadd (res a b : Cplx R) : Cplx R := res + a.conj * b

/-- The write `v(row, spin) = z` into a `HalfSpinorSiteView`. -/
def siteWrite (v : Nat → Nat → Cplx R) (row spin : Nat) (z : Cplx R) : Nat → Nat → Cplx R :=
  fun r s => if r = row ∧ s = spin then z else v r s

/-- The function `mult_u_halfspinor(gauge_in, v_in, v_out, i, dir)`: the state is `v_out`. -/
def mult_u_halfspinor (gauge_in : Nat → Nat → Nat → Nat → Cplx R) (v_in : Nat → Nat → Cplx R)
    (v_out : Nat → Nat → Cplx R) (i dir : Nat) : Nat → Nat → Cplx R :=
  forLoop 0 3 (fun row v_out =>
    let v_out := forLoop 0 2 (fun spin v_out =>
      siteWrite v_out row spin (ComplexZero (v_out row spin))) v_out
    forLoop 0 3 (fun col =>
      forLoop 0 2 (fun spin v_out =>
        siteWrite v_out row spin
          (ComplexCMadd (v_out row spin) (gauge_in i dir row col) (v_in col spin)))) v_out)
    v_out

/-- The function `mult_adj_u_halfspinor(gauge_in, v_in, v_out, i, dir)`: the state is
`v_out`. -/
def mult_adj_u_halfspinor (gauge_in : Nat → Nat → Nat → Nat → Cplx R)
    (v_in : Nat → Nat → Cplx R) (v_out : Nat → Nat → Cplx R) (i dir : Nat) :
    Nat → Nat → Cplx R :=
  let v_out := forLoop 0 3 (fun row =>
    forLoop 0 2 (fun spin v_out =>
      siteWrite v_out row spin (ComplexZero (v_out row spin)))) v_out
  forLoop 0 3 (fun col =>
    forLoop 0 3 (fun row =>
      forLoop 0 2 (fun spin v_out =>
        siteWrite v_out row spin
          (ComplexConjMadd (v_out row spin) (gauge_in i dir col row) (v_in col spin)))))
    v_out

end HalfSpinor

/-! ## Concrete inputs -/

/-- One thread in an OpenMP build (`_OPENMP` defined, `OMP_NUM_THREADS=1`). -/
def env1 : OmpEnv := ⟨true, 1, fun _ _ _ => 0⟩

/-- Two threads in an OpenMP build (`_OPENMP` defined, `OMP_NUM_THREADS=2`). -/
def env2 : OmpEnv := ⟨true, 2, fun _ _ col => col % 2⟩

/-- A geometry with one colorspin component and one checkerboard site. -/
def info11 : LatticeInfo := ⟨1, 1, 1⟩

/-- A geometry with one colorspin component and four checkerboard sites. -/
def info14 : LatticeInfo := ⟨1, 1, 4⟩

/-- A two-column field on `info11`: on either checkerboard column 0 holds `1 + 0i` and
column 1 holds `2 + 0i`. -/
def xTwoCol : CoarseSpinor Int :=
  ⟨info11, 2, fun _ off => if off = 0 then 1 else if off = 2 then 2 else 0⟩

/-- A two-column field on `info11`: on either checkerboard column 0 holds `0 + 1i` and
column 1 holds `1 + 0i`. -/
def yTwoCol : CoarseSpinor Int :=
  ⟨info11, 2, fun _ off => if off = 1 then 1 else if off = 2 then 1 else 0⟩

/-- A one-column field on `info11` holding `0 + 1i` on either checkerboard. -/
def yOneCol : CoarseSpinor Int := ⟨info11, 1, fun _ off => if off = 1 then 1 else 0⟩

/-- A one-column field on `info14` holding `1 + 0i` at every site. -/
def xConst : CoarseSpinor Int := ⟨info14, 1, fun _ off => if off % 2 = 0 then 1 else 0⟩

/-- A one-column field on `info14` holding `0 + 1i` at every site. -/
def yConst : CoarseSpinor Int := ⟨info14, 1, fun _ off => if off % 2 = 1 then 1 else 0⟩

/-- A reduction buffer of width 2 for one thread, holding `1` and `2`. -/
def mvTwoOne : multivector Int := ⟨2, 1, [1, 2]⟩

/-- A two-column field on `info11`: on either checkerboard column 0 holds `3 + 4i` and
column 1 holds `5 + 6i`. -/
def zTwoCol : CoarseSpinor Int :=
  ⟨info11, 2, fun _ off =>
    if off = 0 then 3 else if off = 1 then 4 else if off = 2 then 5 else if off = 3 then 6
    else 0⟩

/-- A buffer of zeros. -/
def bufZero : Nat → Int := fun _ => 0

/-- The per-column complex scalars `(0 + 1i, 1 + 1i)`. -/
def scalarsA : List (Cplx Int) := [⟨0, 1⟩, ⟨1, 1⟩]

/-- The per-column complex scalars `(1 + 0i, 2 + 0i)`. -/
def scalarsB : List (Cplx Int) := [⟨1, 0⟩, ⟨2, 0⟩]

/-- A geometry with one colorspin component and ten checkerboard sites. -/
def info110 : LatticeInfo := ⟨1, 1, 10⟩

/-- A one-column field on `info110` holding the constant `1 + 2i` at every site. -/
def xTen : CoarseSpinor Int := ⟨info110, 1, fun _ off => if off % 2 = 0 then 1 else 2⟩

/-- A geometry with three colorspin components (an odd count) and one checkerboard site. -/
def info31 : LatticeInfo := ⟨3, 1, 1⟩

/-- A one-column field on `info31`: the colorspin components hold `1 + 2i`, `3 + 4i` and
`5 + 6i` on either checkerboard. -/
def xOddCs : CoarseSpinor Int := ⟨info31, 1, fun _ off => (off : Int) + 1⟩

/-- A reduction buffer of width `n = 1` for `T = 2` threads holding `[1, 2]`. -/
def mvOneTwo : multivector Int := ⟨1, 2, [1, 2]⟩

/-- A two-column field on `info11` holding `7 + 8i` in column 0 and `9 + 10i` in column 1 on
either checkerboard. -/
def yFull : CoarseSpinor Int :=
  ⟨info11, 2, fun _ off => if off = 0 then 7 else if off = 1 then 8 else if off = 2 then 9
    else 10⟩

/-- The coefficients of the 2 × 2 identity, column-major. -/
def ipIdentity : List (Cplx Int) := [⟨1, 0⟩, ⟨0, 0⟩, ⟨0, 0⟩, ⟨1, 0⟩]

/-- A random source that counts: draw number `k` of the source started in `g` is `g + k`. -/
def drawCounter (g : Int) : Int × Int := (g, g + 1)

/-- A gauge container on `info11` with links of 2 reals, 4 reals per site, whose five regions
lie one after the other (8 reals each) and which holds `5` everywhere. -/
def gaugeFives : CoarseGauge Int :=
  ⟨info11, 2, 4, fun cb site => (cb + site) * 4, fun cb site mu => 8 + (cb + site) * 4 + 2 * mu,
    fun cb site => 16 + (cb + site) * 4, fun cb site mu => 24 + (cb + site) * 4 + 2 * mu,
    fun cb site mu => 32 + (cb + site) * 4 + 2 * mu, fun _ => 5⟩

/-- A link field whose matrix at every site and direction has the entry `row + col·i` at
`(row, col)`. -/
def uLinks : Nat → Nat → Nat → Nat → Cplx Int := fun _ _ row col => ⟨row, col⟩

/-- A half spinor with the entry `(col + 1) + spin·i` at `(col, spin)`. -/
def vHalf : Nat → Nat → Cplx Int := fun col spin => ⟨(col : Int) + 1, spin⟩

/-- A half spinor that holds `9 + 9i` everywhere. -/
def vNines : Nat → Nat → Cplx Int := fun _ _ => ⟨9, 9⟩

/-! ## Complex arithmetic lemmas -/

namespace Cplx

variable {R : Type} [CommRing R]

@[simp] theorem zero_re : (0 : Cplx R).re = 0 := rfl
@[simp] theorem zero_im : (0 : Cplx R).im = 0 := rfl
@[simp] theorem one_re : (1 : Cplx R).re = 1 := rfl
@[simp] theorem one_im : (1 : Cplx R).im = 0 := rfl
@[simp] theorem add_re (a b : Cplx R) : (a + b).re = a.re + b.re := rfl
@[simp] theorem add_im (a b : Cplx R) : (a + b).im = a.im + b.im := rfl
@[simp] theorem sub_re (a b : Cplx R) : (a - b).re = a.re - b.re := rfl
@[simp] theorem sub_im (a b : Cplx R) : (a - b).im = a.im - b.im := rfl
@[simp] theorem neg_re (a : Cplx R) : (-a).re = -a.re := rfl
@[simp] theorem neg_im (a : Cplx R) : (-a).im = -a.im := rfl
@[simp] theorem mul_re (a b : Cplx R) : (a * b).re = a.re * b.re - a.im * b.im := rfl
@[simp] theorem mul_im (a b : Cplx R) : (a * b).im = a.re * b.im + a.im * b.re := rfl
@[simp] theorem conj_re (a : Cplx R) : a.conj.re = a.re := rfl
@[simp] theorem conj_im (a : Cplx R) : a.conj.im = -a.im := rfl
@[simp] theorem smulReal_re (a : Cplx R) (s : R) : (a.smulReal s).re = a.re * s := rfl
@[simp] theorem smulReal_im (a : Cplx R) (s : R) : (a.smulReal s).im = a.im * s := rfl

end Cplx

/-! ## Loop lemmas -/

section LoopLemmas

variable {σ : Type}

theorem forLoop_empty (lo hi : Nat) (h : hi ≤ lo) (body : Nat → σ → σ) (s : σ) :
    forLoop lo hi body s = s := by
  unfold forLoop
  have : hi - lo = 0 := by omega
  rw [this]; rfl

theorem forLoop_step (lo hi : Nat) (h : lo < hi) (body : Nat → σ → σ) (s : σ) :
    forLoop lo hi body s = forLoop (lo + 1) hi body (body lo s) := by
  unfold forLoop
  have : hi - lo = (hi - (lo + 1)) + 1 := by omega
  rw [this, List.range'_succ]; rfl

theorem forLoop_split (lo mid hi : Nat) (h1 : lo ≤ mid) (h2 : mid ≤ hi) (body : Nat → σ → σ)
    (s : σ) : forLoop lo hi body s = forLoop mid hi body (forLoop lo mid body s) := by
  obtain ⟨d, rfl⟩ : ∃ d, mid = lo + d := ⟨mid - lo, by omega⟩
  clear h1
  induction d generalizing lo s with
  | zero => rw [forLoop_empty lo (lo + 0) (by omega)]; rfl
  | succ d ih =>
    rw [forLoop_step lo hi (by omega), forLoop_step lo (lo + (d + 1)) (by omega)]
    have e : lo + (d + 1) = (lo + 1) + d := by omega
    rw [e]
    exact ih (lo + 1) (body lo s) (by omega)

/-- A value observed on the state that no iteration changes is unchanged by the loop. -/
theorem forLoop_obs_frame {V : Type} (obs : σ → V) (lo hi : Nat) (body : Nat → σ → σ)
    (h : ∀ i, lo ≤ i → i < hi → ∀ s, obs (body i s) = obs s) (s : σ) :
    obs (forLoop lo hi body s) = obs s := by
  by_cases hle : hi ≤ lo
  · rw [forLoop_empty lo hi hle]
  · obtain ⟨d, rfl⟩ : ∃ d, hi = lo + d := ⟨hi - lo, by omega⟩
    clear hle
    induction d generalizing lo s with
    | zero => rw [forLoop_empty lo (lo + 0) (by omega)]
    | succ d ih =>
      rw [forLoop_step lo (lo + (d + 1)) (by omega)]
      have e : lo + (d + 1) = (lo + 1) + d := by omega
      rw [e, ih (lo + 1) (body lo s) (fun i h1 h2 => h i (by omega) (by omega)),
        h lo (by omega) (by omega)]

/-- A value observed on the state that exactly one iteration `i0` changes, by `g`, is changed
by `g` by the loop. -/
theorem forLoop_obs_hit {V : Type} (obs : σ → V) (g : V → V) (lo hi i0 : Nat) (hlo : lo ≤ i0)
    (hhi : i0 < hi) (body : Nat → σ → σ)
    (hother : ∀ i, lo ≤ i → i < hi → i ≠ i0 → ∀ s, obs (body i s) = obs s)
    (hhit : ∀ s, obs (body i0 s) = g (obs s)) (s : σ) :
    obs (forLoop lo hi body s) = g (obs s) := by
  rw [forLoop_split lo i0 hi hlo (by omega), forLoop_step i0 hi hhi,
    forLoop_obs_frame obs (i0 + 1) hi body (fun i h1 h2 => hother i (by omega) h2 (by omega)),
    hhit, forLoop_obs_frame obs lo i0 body (fun i h1 h2 => hother i h1 (by omega) (by omega))]

/-- Two loops with bodies that agree on the range agree. -/
theorem forLoop_congr (lo hi : Nat) (body body2 : Nat → σ → σ)
    (h : ∀ i, lo ≤ i → i < hi → ∀ s, body i s = body2 i s) (s : σ) :
    forLoop lo hi body s = forLoop lo hi body2 s := by
  by_cases hle : hi ≤ lo
  · rw [forLoop_empty lo hi hle, forLoop_empty lo hi hle]
  · obtain ⟨d, rfl⟩ : ∃ d, hi = lo + d := ⟨hi - lo, by omega⟩
    clear hle
    induction d generalizing lo s with
    | zero => rw [forLoop_empty lo (lo + 0) (by omega), forLoop_empty lo (lo + 0) (by omega)]
    | succ d ih =>
      rw [forLoop_step lo (lo + (d + 1)) (by omega), forLoop_step lo (lo + (d + 1)) (by omega)]
      have e : lo + (d + 1) = (lo + 1) + d := by omega
      rw [e, h lo (by omega) (by omega)]
      exact ih (lo + 1) (body2 lo s) (fun i h1 h2 => h i (by omega) (by omega))

/-- The three outer loops (checkerboard, site, column) of a kernel leave unchanged a value
that no cell body changes. -/
theorem cellLoop_obs_frame {V : Type} (obs : σ → V) (s e ns nc : Nat)
    (body : Nat → Nat → Nat → σ → σ)
    (h : ∀ cb site col, s ≤ cb → cb < e → site < ns → col < nc →
      ∀ st, obs (body cb site col st) = obs st) (st : σ) :
    obs (forLoop s e (fun cb => forLoop 0 ns (fun site => forLoop 0 nc (fun col =>
      body cb site col))) st) = obs st := by
  apply forLoop_obs_frame
  intro cb h1 h2 st
  apply forLoop_obs_frame
  intro site _ h3 st
  apply forLoop_obs_frame
  intro col _ h4 st
  exact h cb site col h1 h2 h3 h4 st

/-- The three outer loops of a kernel change by `g` a value that exactly the cell body of
`(cb0, site0, col0)` changes, by `g`. -/
theorem cellLoop_obs_hit {V : Type} (obs : σ → V) (g : V → V) (s e ns nc : Nat)
    (body : Nat → Nat → Nat → σ → σ) (cb0 site0 col0 : Nat)
    (hs : s ≤ cb0) (he : cb0 < e) (hsite : site0 < ns) (hcol : col0 < nc)
    (hother : ∀ cb site col, s ≤ cb → cb < e → site < ns → col < nc →
      ¬ (cb = cb0 ∧ site = site0 ∧ col = col0) → ∀ st, obs (body cb site col st) = obs st)
    (hhit : ∀ st, obs (body cb0 site0 col0 st) = g (obs st)) (st : σ) :
    obs (forLoop s e (fun cb => forLoop 0 ns (fun site => forLoop 0 nc (fun col =>
      body cb site col))) st) = g (obs st) := by
  apply forLoop_obs_hit obs g s e cb0 hs he
  · intro cb h1 h2 hne st
    apply forLoop_obs_frame
    intro site _ h3 st
    apply forLoop_obs_frame
    intro col _ h4 st
    exact hother cb site col h1 h2 h3 h4 (fun h => hne h.1) st
  · intro st
    apply forLoop_obs_hit obs g 0 ns site0 (Nat.zero_le _) hsite
    · intro site _ h3 hne st
      apply forLoop_obs_frame
      intro col _ h4 st
      exact hother cb0 site col hs he h3 h4 (fun h => hne h.2.1) st
    · intro st
      apply forLoop_obs_hit obs g 0 nc col0 (Nat.zero_le _) hcol
      · intro col _ h4 hne st
        exact hother cb0 site0 col hs he hsite h4 (fun h => hne h.2.2) st
      · exact hhit

end LoopLemmas

/-! ## Storage lemmas -/

section StorageLemmas

variable {R : Type}

theorem mul_add_lt_inj (P a b k k2 : Nat) (hk : k < P) (hk2 : k2 < P)
    (h : a * P + k = b * P + k2) : a = b ∧ k = k2 := by
  rcases Nat.lt_trichotomy a b with hlt | heq | hgt
  · have h1 : (a + 1) * P ≤ b * P := Nat.mul_le_mul_right P hlt
    rw [Nat.add_mul] at h1
    omega
  · subst heq
    exact ⟨rfl, by omega⟩
  · have h1 : (b + 1) * P ≤ a * P := Nat.mul_le_mul_right P hgt
    rw [Nat.add_mul] at h1
    omega

namespace CoarseSpinor

theorem data_store (x : CoarseSpinor R) (p : Ptr) (i : Nat) (v : R) (c a : Nat) :
    (x.store p i v).data c a = if c = p.cb ∧ a = p.off + i then v else x.data c a := rfl

theorem data_store_same (x : CoarseSpinor R) (p : Ptr) (i : Nat) (v : R) :
    (x.store p i v).data p.cb (p.off + i) = v := by
  simp [data_store]

theorem data_store_ne (x : CoarseSpinor R) (p : Ptr) (i : Nat) (v : R) (c a : Nat)
    (h : ¬ (c = p.cb ∧ a = p.off + i)) : (x.store p i v).data c a = x.data c a := by
  simp [data_store, h]

theorem store_info (x : CoarseSpinor R) (p : Ptr) (i : Nat) (v : R) :
    (x.store p i v).info = x.info := rfl

theorem store_n_col (x : CoarseSpinor R) (p : Ptr) (i : Nat) (v : R) :
    (x.store p i v)._n_col = x._n_col := rfl

/-- The offset of the cell `(col, site)` in a checkerboard of a field of the shape of `x`. -/
theorem GetSiteDataPtr_off (x : CoarseSpinor R) (col cb site : Nat) :
    (x.GetSiteDataPtr col cb site).off =
      (site * x.GetNCol + col) * (n_complex * x.GetNumColorSpin) := rfl

theorem GetSiteDataPtr_cb (x : CoarseSpinor R) (col cb site : Nat) :
    (x.GetSiteDataPtr col cb site).cb = cb := rfl

/-- Two entries of in-range cells of one field share their address only if they are the same
entry. -/
theorem addr_inj (x : CoarseSpinor R) (col site k col2 site2 k2 : Nat) (cb cb2 : Nat)
    (hc : col < x.GetNCol) (hc2 : col2 < x.GetNCol)
    (hk : k < n_complex * x.GetNumColorSpin) (hk2 : k2 < n_complex * x.GetNumColorSpin)
    (h : (x.GetSiteDataPtr col cb site).off + k = (x.GetSiteDataPtr col2 cb2 site2).off + k2) :
    site = site2 ∧ col = col2 ∧ k = k2 := by
  rw [GetSiteDataPtr_off, GetSiteDataPtr_off] at h
  obtain ⟨h1, h2⟩ := mul_add_lt_inj _ _ _ _ _ hk hk2 h
  obtain ⟨h3, h4⟩ := mul_add_lt_inj _ _ _ _ _ hc hc2 h1
  exact ⟨h3, h4, h2⟩

end CoarseSpinor

end StorageLemmas

/-! ## Element-wise kernels: the generic entry-wise description -/

section Pointwise

variable {R : Type}

/-- Two in-range entries (real or imaginary part `r`, `r0` of a colorspin of a cell) of a
field of the shape of `z` have the same address only if they are the same entry. -/
theorem entry_addr_inj (z : CoarseSpinor R) (col site cspin r col0 site0 cspin0 r0 : Nat)
    (cb cb0 : Nat) (hc : col < z.GetNCol) (hc0 : col0 < z.GetNCol)
    (hk : cspin < z.GetNumColorSpin) (hk0 : cspin0 < z.GetNumColorSpin)
    (hr : r < n_complex) (hr0 : r0 < n_complex)
    (h : (z.GetSiteDataPtr col cb site).off + (r + n_complex * cspin) =
      (z.GetSiteDataPtr col0 cb0 site0).off + (r0 + n_complex * cspin0)) :
    site = site0 ∧ col = col0 ∧ cspin = cspin0 ∧ r = r0 := by
  have hb : r + n_complex * cspin < n_complex * z.GetNumColorSpin := by
    have : n_complex * (cspin + 1) ≤ n_complex * z.GetNumColorSpin := Nat.mul_le_mul_left _ hk
    rw [Nat.mul_add] at this
    omega
  have hb0 : r0 + n_complex * cspin0 < n_complex * z.GetNumColorSpin := by
    have : n_complex * (cspin0 + 1) ≤ n_complex * z.GetNumColorSpin :=
      Nat.mul_le_mul_left _ hk0
    rw [Nat.mul_add] at this
    omega
  obtain ⟨h1, h2, h3⟩ := CoarseSpinor.addr_inj z col site _ col0 site0 _ cb cb0 hc hc0 hb hb0 h
  simp only [n_complex] at h3 hr hr0
  exact ⟨h1, h2, by omega, by omega⟩

/-- The generic element-wise kernel.  The four loops run over checkerboard, site, column and
colorspin; the body `upd` of the entry `(cb, site, col, cspin)` overwrites the real and the
imaginary part of that entry of the field (addressed through the pointers of `z`) with
`f cb site col cspin` of their old values.  Then every in-range entry of the result is
`f` of its initial value. -/
theorem pointwise_kernel (z : CoarseSpinor R) (s e ns nc ncs : Nat) (hnc : nc ≤ z.GetNCol)
    (hncs : ncs ≤ z.GetNumColorSpin)
    (upd : Nat → Nat → Nat → Nat → CoarseSpinor R → CoarseSpinor R)
    (f : Nat → Nat → Nat → Nat → R × R → R × R)
    (hupd : ∀ cb site col cspin (xs : CoarseSpinor R) c a,
      (upd cb site col cspin xs).data c a =
        if c = cb ∧ a = (z.GetSiteDataPtr col cb site).off + (IM + n_complex * cspin) then
          (f cb site col cspin
            (xs.load (z.GetSiteDataPtr col cb site) (RE + n_complex * cspin),
              xs.load (z.GetSiteDataPtr col cb site) (IM + n_complex * cspin))).2
        else if c = cb ∧ a = (z.GetSiteDataPtr col cb site).off + (RE + n_complex * cspin) then
          (f cb site col cspin
            (xs.load (z.GetSiteDataPtr col cb site) (RE + n_complex * cspin),
              xs.load (z.GetSiteDataPtr col cb site) (IM + n_complex * cspin))).1
        else xs.data c a)
    (x0 : CoarseSpinor R) (cb0 site0 col0 cspin0 : Nat) (hs : s ≤ cb0) (he : cb0 < e)
    (hsite : site0 < ns) (hcol : col0 < nc) (hcspin : cspin0 < ncs) :
    ((forLoop s e (fun cb => forLoop 0 ns (fun site => forLoop 0 nc (fun col =>
        forLoop 0 ncs (fun cspin => upd cb site col cspin)))) x0).load
          (z.GetSiteDataPtr col0 cb0 site0) (RE + n_complex * cspin0),
      (forLoop s e (fun cb => forLoop 0 ns (fun site => forLoop 0 nc (fun col =>
        forLoop 0 ncs (fun cspin => upd cb site col cspin)))) x0).load
          (z.GetSiteDataPtr col0 cb0 site0) (IM + n_complex * cspin0)) =
      f cb0 site0 col0 cspin0
        (x0.load (z.GetSiteDataPtr col0 cb0 site0) (RE + n_complex * cspin0),
          x0.load (z.GetSiteDataPtr col0 cb0 site0) (IM + n_complex * cspin0)) := by
  have hRE : RE < n_complex := by decide
  have hIM : IM < n_complex := by decide
  -- the effect of one body on the observed entry
  have key : ∀ cb site col cspin, col < nc → cspin < ncs → ∀ xs : CoarseSpinor R,
      ((upd cb site col cspin xs).load (z.GetSiteDataPtr col0 cb0 site0)
          (RE + n_complex * cspin0),
        (upd cb site col cspin xs).load (z.GetSiteDataPtr col0 cb0 site0)
          (IM + n_complex * cspin0)) =
      if cb = cb0 ∧ site = site0 ∧ col = col0 ∧ cspin = cspin0 then
        f cb0 site0 col0 cspin0
          (xs.load (z.GetSiteDataPtr col0 cb0 site0) (RE + n_complex * cspin0),
            xs.load (z.GetSiteDataPtr col0 cb0 site0) (IM + n_complex * cspin0))
      else
        (xs.load (z.GetSiteDataPtr col0 cb0 site0) (RE + n_complex * cspin0),
          xs.load (z.GetSiteDataPtr col0 cb0 site0) (IM + n_complex * cspin0)) := by
    intro cb site col cspin hc hk xs
    have inj := fun r r0 hr hr0 h =>
      entry_addr_inj z col0 site0 cspin0 r0 col site cspin r cb0 cb (by omega) (by omega)
        (by omega) (by omega) hr0 hr h
    simp only [CoarseSpinor.load, hupd, CoarseSpinor.GetSiteDataPtr_cb]
    by_cases hkey : cb = cb0 ∧ site = site0 ∧ col = col0 ∧ cspin = cspin0
    · obtain ⟨rfl, rfl, rfl, rfl⟩ := hkey
      have h1 : ¬ ((z.GetSiteDataPtr col cb site).off + (RE + n_complex * cspin) =
          (z.GetSiteDataPtr col cb site).off + (IM + n_complex * cspin)) := by
        simp only [RE, IM]; omega
      simp [h1]
    · have h1 : ∀ r r0, r < n_complex → r0 < n_complex →
          ¬ (cb0 = cb ∧ (z.GetSiteDataPtr col0 cb0 site0).off + (r0 + n_complex * cspin0) =
            (z.GetSiteDataPtr col cb site).off + (r + n_complex * cspin)) := by
        intro r r0 hr hr0 h
        obtain ⟨h2, h3, h4, _⟩ := inj r r0 hr hr0 h.2
        exact hkey ⟨h.1.symm, h2.symm, h3.symm, h4.symm⟩
      simp [h1 _ _ hRE hRE, h1 _ _ hIM hRE, h1 _ _ hRE hIM, h1 _ _ hIM hIM, hkey]
  apply cellLoop_obs_hit
    (fun xs : CoarseSpinor R =>
      (xs.load (z.GetSiteDataPtr col0 cb0 site0) (RE + n_complex * cspin0),
        xs.load (z.GetSiteDataPtr col0 cb0 site0) (IM + n_complex * cspin0)))
    (f cb0 site0 col0 cspin0) s e ns nc _ cb0 site0 col0 hs he hsite hcol
  · intro cb site col _ _ _ h4 hne st
    apply forLoop_obs_frame (fun xs : CoarseSpinor R =>
      (xs.load (z.GetSiteDataPtr col0 cb0 site0) (RE + n_complex * cspin0),
        xs.load (z.GetSiteDataPtr col0 cb0 site0) (IM + n_complex * cspin0)))
    intro cspin _ h5 st
    show (_, _) = (_, _)
    rw [key cb site col cspin h4 h5, if_neg (fun h => hne ⟨h.1, h.2.1, h.2.2.1⟩)]
  · intro st
    apply forLoop_obs_hit (fun xs : CoarseSpinor R =>
      (xs.load (z.GetSiteDataPtr col0 cb0 site0) (RE + n_complex * cspin0),
        xs.load (z.GetSiteDataPtr col0 cb0 site0) (IM + n_complex * cspin0)))
      (f cb0 site0 col0 cspin0) 0 ncs cspin0 (Nat.zero_le _) hcspin
    · intro cspin _ h5 hne st
      show (_, _) = (_, _)
      rw [key cb0 site0 col0 cspin hcol h5, if_neg (fun h => hne h.2.2.2)]
    · intro st
      show (_, _) = _
      rw [key cb0 site0 col0 cspin0 hcol hcspin, if_pos ⟨rfl, rfl, rfl, rfl⟩]

/-- The generic element-wise kernel leaves the storage of a checkerboard outside the loop
range untouched, provided every body writes only to its own checkerboard. -/
theorem pointwise_kernel_frame (s e ns nc ncs : Nat)
    (upd : Nat → Nat → Nat → Nat → CoarseSpinor R → CoarseSpinor R)
    (hupd : ∀ cb site col cspin (xs : CoarseSpinor R) c a, c ≠ cb →
      (upd cb site col cspin xs).data c a = xs.data c a)
    (x0 : CoarseSpinor R) (c a : Nat) (hc : c < s ∨ e ≤ c) :
    (forLoop s e (fun cb => forLoop 0 ns (fun site => forLoop 0 nc (fun col =>
        forLoop 0 ncs (fun cspin => upd cb site col cspin)))) x0).data c a = x0.data c a := by
  apply cellLoop_obs_frame (fun xs : CoarseSpinor R => xs.data c a)
  intro cb site col h1 h2 _ _ st
  apply forLoop_obs_frame (fun xs : CoarseSpinor R => xs.data c a)
  intro cspin _ _ st
  exact hupd cb site col cspin st c a (by omega)

end Pointwise

/-! ## Properties of the kernels -/

section Properties

variable {R : Type} [CommRing R]

theorem forLoop_map {σ τ : Type} (φ : σ → τ) (lo hi : Nat) (body : Nat → σ → σ)
    (body2 : Nat → τ → τ) (h : ∀ i, lo ≤ i → i < hi → ∀ s, φ (body i s) = body2 i (φ s))
    (s : σ) : φ (forLoop lo hi body s) = forLoop lo hi body2 (φ s) := by
  by_cases hle : hi ≤ lo
  · rw [forLoop_empty lo hi hle, forLoop_empty lo hi hle]
  · obtain ⟨d, rfl⟩ : ∃ d, hi = lo + d := ⟨hi - lo, by omega⟩
    clear hle
    induction d generalizing lo s with
    | zero => rw [forLoop_empty lo (lo + 0) (by omega), forLoop_empty lo (lo + 0) (by omega)]
    | succ d ih =>
      rw [forLoop_step lo (lo + (d + 1)) (by omega), forLoop_step lo (lo + (d + 1)) (by omega)]
      have e : lo + (d + 1) = (lo + 1) + d := by omega
      rw [e, ih (lo + 1) (body lo s) (fun i h1 h2 => h i (by omega) (by omega)),
        h lo (by omega) (by omega)]

/-- The field component of the loop state of `XmyNorm2Vec` evolves as the loops of the
element-wise subtraction `x[i] -= y[i]`. -/
theorem XmyNorm2Vec_state (env : OmpEnv) (x y : CoarseSpinor R) (subset : CBSubset)
    (hcompat : AssertCompatible x.GetInfo y.GetInfo = true) :
    (XmyNorm2Vec env x y subset).state =
      forLoop subset.start subset.end_ (fun cb =>
        forLoop 0 x.GetInfo.GetNumCBSites (fun site =>
          forLoop 0 x.GetNCol (fun col =>
            forLoop 0 x.GetNumColorSpin (fun cspin (xs : CoarseSpinor R) =>
              (xs.store (x.GetSiteDataPtr col cb site) (RE + n_complex * cspin)
                (xs.load (x.GetSiteDataPtr col cb site) (RE + n_complex * cspin) -
                  y.load (y.GetSiteDataPtr col cb site) (RE + n_complex * cspin))).store
                (x.GetSiteDataPtr col cb site) (IM + n_complex * cspin)
                (xs.load (x.GetSiteDataPtr col cb site) (IM + n_complex * cspin) -
                  y.load (y.GetSiteDataPtr col cb site) (IM + n_complex * cspin)))))) x := by
  unfold XmyNorm2Vec
  simp only [hcompat, Bool.not_true, Bool.false_eq_true, if_false, Run.state]
  rw [forLoop_map Prod.fst]
  intro cb _ _ st
  rw [forLoop_map Prod.fst]
  intro site _ _ st
  rw [forLoop_map Prod.fst]
  intro col _ _ st
  show Prod.fst (forLoop _ _ _ (_ : CoarseSpinor R × R)) = _
  rw [forLoop_map Prod.fst]
  intro cspin _ _ acc
  rfl

theorem colorspin_eq_of_compatible {S : Type} (x y : CoarseSpinor S)
    (hcompat : AssertCompatible x.GetInfo y.GetInfo = true) :
    x.GetNumColorSpin = y.GetNumColorSpin ∧
      x.GetInfo.GetNumCBSites = y.GetInfo.GetNumCBSites := by
  simp only [AssertCompatible, Bool.and_eq_true, beq_iff_eq] at hcompat
  exact ⟨hcompat.2, hcompat.1⟩

/-- C5: for compatible fields `x`, `y` and every subset, `XmyNorm2Vec(x, y, subset)` returns and
leaves in every entry of `x` on a checkerboard of the subset (every site, column, colorspin,
real and imaginary part) the old value of `x` minus the value of `y`.  The operand `y` is
`const`: it is not part of the mutated state. -/
theorem XmyNorm2Vec_overwrites_x (env : OmpEnv) (x y : CoarseSpinor R) (subset : CBSubset)
    (hcompat : AssertCompatible x.GetInfo y.GetInfo = true) :
    (XmyNorm2Vec env x y subset).isFatal = false ∧
    ∀ cb site col cspin, subset.start ≤ cb → cb < subset.end_ →
      site < x.GetInfo.GetNumCBSites → col < x.GetNCol → cspin < x.GetNumColorSpin →
      (XmyNorm2Vec env x y subset).state.load (x.GetSiteDataPtr col cb site)
          (RE + n_complex * cspin) =
        x.load (x.GetSiteDataPtr col cb site) (RE + n_complex * cspin) -
          y.load (y.GetSiteDataPtr col cb site) (RE + n_complex * cspin) ∧
      (XmyNorm2Vec env x y subset).state.load (x.GetSiteDataPtr col cb site)
          (IM + n_complex * cspin) =
        x.load (x.GetSiteDataPtr col cb site) (IM + n_complex * cspin) -
          y.load (y.GetSiteDataPtr col cb site) (IM + n_complex * cspin) := by
  refine ⟨?_, ?_⟩
  · unfold XmyNorm2Vec
    simp only [hcompat, Bool.not_true, Bool.false_eq_true, if_false, Run.isFatal]
  · intro cb site col cspin h1 h2 h3 h4 h5
    rw [XmyNorm2Vec_state env x y subset hcompat]
    have h := pointwise_kernel x subset.start subset.end_ x.GetInfo.GetNumCBSites x.GetNCol
      x.GetNumColorSpin (Nat.le_refl _) (Nat.le_refl _)
      (fun cb site col cspin (xs : CoarseSpinor R) =>
        (xs.store (x.GetSiteDataPtr col cb site) (RE + n_complex * cspin)
          (xs.load (x.GetSiteDataPtr col cb site) (RE + n_complex * cspin) -
            y.load (y.GetSiteDataPtr col cb site) (RE + n_complex * cspin))).store
          (x.GetSiteDataPtr col cb site) (IM + n_complex * cspin)
          (xs.load (x.GetSiteDataPtr col cb site) (IM + n_complex * cspin) -
            y.load (y.GetSiteDataPtr col cb site) (IM + n_complex * cspin)))
      (fun cb site col cspin v =>
        (v.1 - y.load (y.GetSiteDataPtr col cb site) (RE + n_complex * cspin),
          v.2 - y.load (y.GetSiteDataPtr col cb site) (IM + n_complex * cspin)))
      (fun _ _ _ _ _ _ _ => rfl) x cb site col cspin h1 h2 h3 h4 h5
    exact ⟨congrArg Prod.fst h, congrArg Prod.snd h⟩

/-- The entry-wise description of `AxpyVecT` for any scalar type. -/
theorem AxpyVecT_entry {T : Type} [Zero T] [AxpyScalar T R] (alpha : List T)
    (x y : CoarseSpinor R) (subset : CBSubset)
    (hcompat : AssertCompatible x.GetInfo y.GetInfo = true) (hcols : x.GetNCol ≤ y.GetNCol) :
    (AxpyVecT alpha x y subset).isFatal = false ∧
    ∀ cb site col cspin, subset.start ≤ cb → cb < subset.end_ →
      site < x.GetInfo.GetNumCBSites → col < x.GetNCol → cspin < x.GetNumColorSpin →
      (AxpyVecT alpha x y subset).state.loadC (y.GetSiteDataPtr col cb site) cspin =
        y.loadC (y.GetSiteDataPtr col cb site) cspin +
          AxpyScalar.mulScalar (x.loadC (x.GetSiteDataPtr col cb site) cspin)
            (alpha.getD col 0) := by
  refine ⟨?_, ?_⟩
  · unfold AxpyVecT
    simp only [hcompat, Bool.not_true, Bool.false_eq_true, if_false, Run.isFatal]
  · intro cb site col cspin h1 h2 h3 h4 h5
    have h := pointwise_kernel y subset.start subset.end_ x.GetInfo.GetNumCBSites x.GetNCol
      x.GetNumColorSpin hcols (Nat.le_of_eq (colorspin_eq_of_compatible x y hcompat).1)
      (fun cb site col cspin (ys : CoarseSpinor R) =>
        ys.storeC (y.GetSiteDataPtr col cb site) cspin
          (ys.loadC (y.GetSiteDataPtr col cb site) cspin +
            AxpyScalar.mulScalar (x.loadC (x.GetSiteDataPtr col cb site) cspin)
              (alpha.getD col 0)))
      (fun cb site col cspin v =>
        (((⟨v.1, v.2⟩ : Cplx R) +
            AxpyScalar.mulScalar (x.loadC (x.GetSiteDataPtr col cb site) cspin)
              (alpha.getD col 0)).re,
          ((⟨v.1, v.2⟩ : Cplx R) +
            AxpyScalar.mulScalar (x.loadC (x.GetSiteDataPtr col cb site) cspin)
              (alpha.getD col 0)).im))
      (fun _ _ _ _ _ _ _ => rfl) y cb site col cspin h1 h2 h3 h4 h5
    unfold AxpyVecT
    simp only [hcompat, Bool.not_true, Bool.false_eq_true, if_false, Run.state]
    have hre := congrArg Prod.fst h
    have him := congrArg Prod.snd h
    simp only at hre him
    show (⟨_, _⟩ : Cplx R) = _
    rw [hre, him]
    rfl

theorem getD_eq_get_of_lt {α : Type} (l : List α) (d : α) (n : Nat) (h : n < l.length) :
    l.getD n d = l.get ⟨n, h⟩ := by
  simp [List.getD_eq_getElem?_getD, List.getElem?_eq_getElem h]

/-- C9: for compatible fields `x`, `y` such that `y` has the columns of `x`, every subset and
every per-column scalar vector `alpha` with a scalar for each column of `x`, `AxpyVec` returns
and leaves in each complex entry of column `c` of `y` on the subset the old entry plus the
entry of `x` times `alpha[c]`: a real scale of both parts for the real overloads (`float`,
`double`), the complex product for the complex overloads.  The operand `x` is `const`. -/
theorem AxpyVec_adds_scaled_x (x y : CoarseSpinor R) (subset : CBSubset)
    (hcompat : AssertCompatible x.GetInfo y.GetInfo = true) (hcols : x.GetNCol ≤ y.GetNCol) :
    (∀ (alpha : List R) (hlen : x.GetNCol ≤ alpha.length),
      (AxpyVec alpha x y subset).isFatal = false ∧
      ∀ cb site col cspin (hcol : col < x.GetNCol), subset.start ≤ cb → cb < subset.end_ →
        site < x.GetInfo.GetNumCBSites → cspin < x.GetNumColorSpin →
        (AxpyVec alpha x y subset).state.loadC (y.GetSiteDataPtr col cb site) cspin =
          y.loadC (y.GetSiteDataPtr col cb site) cspin +
            (x.loadC (x.GetSiteDataPtr col cb site) cspin).smulReal
              (alpha.get ⟨col, Nat.lt_of_lt_of_le hcol hlen⟩)) ∧
    (∀ (alpha : List (Cplx R)) (hlen : x.GetNCol ≤ alpha.length),
      (AxpyVec alpha x y subset).isFatal = false ∧
      ∀ cb site col cspin (hcol : col < x.GetNCol), subset.start ≤ cb → cb < subset.end_ →
        site < x.GetInfo.GetNumCBSites → cspin < x.GetNumColorSpin →
        (AxpyVec alpha x y subset).state.loadC (y.GetSiteDataPtr col cb site) cspin =
          y.loadC (y.GetSiteDataPtr col cb site) cspin +
            x.loadC (x.GetSiteDataPtr col cb site) cspin *
              alpha.get ⟨col, Nat.lt_of_lt_of_le hcol hlen⟩) := by
  refine ⟨?_, ?_⟩
  · intro alpha hlen
    obtain ⟨h0, h⟩ := AxpyVecT_entry alpha x y subset hcompat hcols
    refine ⟨h0, ?_⟩
    intro cb site col cspin hcol h1 h2 h3 h5
    have := h cb site col cspin h1 h2 h3 hcol h5
    rw [getD_eq_get_of_lt alpha 0 col (Nat.lt_of_lt_of_le hcol hlen)] at this
    exact this
  · intro alpha hlen
    obtain ⟨h0, h⟩ := AxpyVecT_entry alpha x y subset hcompat hcols
    refine ⟨h0, ?_⟩
    intro cb site col cspin hcol h1 h2 h3 h5
    have := h cb site col cspin h1 h2 h3 hcol h5
    rw [getD_eq_get_of_lt alpha 0 col (Nat.lt_of_lt_of_le hcol hlen)] at this
    exact this

/-- With coefficients acting as the identity, `AxpyVecT` is `YpeqxVec`. -/
theorem AxpyVecT_eq_YpeqxVec {T : Type} [Zero T] [AxpyScalar T R] (alpha : List T)
    (x y : CoarseSpinor R) (subset : CBSubset)
    (h : ∀ col, col < x.GetNCol → ∀ z : Cplx R,
      AxpyScalar.mulScalar z (alpha.getD col 0) = z) :
    AxpyVecT alpha x y subset = YpeqxVec x y subset := by
  unfold AxpyVecT YpeqxVec
  by_cases hcompat : AssertCompatible x.GetInfo y.GetInfo = true
  · simp only [hcompat, Bool.not_true, Bool.false_eq_true, if_false]
    congr 1
    apply forLoop_congr
    intro cb _ _ st
    apply forLoop_congr
    intro site _ _ st
    apply forLoop_congr
    intro col _ hcol st
    apply forLoop_congr
    intro cspin _ _ ys
    rw [h col hcol]
    ext c a
    · rfl
    · rfl
    · simp only [CoarseSpinor.storeC, CoarseSpinor.loadC, CoarseSpinor.data_store,
        CoarseSpinor.load, Cplx.add_re, Cplx.add_im]
      have hne : ¬ ((x.GetSiteDataPtr col cb site).off + (IM + n_complex * cspin) =
          (x.GetSiteDataPtr col cb site).off + (RE + n_complex * cspin)) := by
        simp only [RE, IM]; omega
      have hne2 : ¬ ((y.GetSiteDataPtr col cb site).off + (IM + n_complex * cspin) =
          (y.GetSiteDataPtr col cb site).off + (RE + n_complex * cspin)) := by
        simp only [RE, IM]; omega
      simp [hne, hne2]
  · simp only [Bool.not_eq_true] at hcompat
    simp only [hcompat, Bool.not_false, if_true]

/-- With coefficients acting as the negation, `AxpyVecT` is `YmeqxVec`. -/
theorem AxpyVecT_eq_YmeqxVec {T : Type} [Zero T] [AxpyScalar T R] (alpha : List T)
    (x y : CoarseSpinor R) (subset : CBSubset)
    (h : ∀ col, col < x.GetNCol → ∀ z : Cplx R,
      AxpyScalar.mulScalar z (alpha.getD col 0) = -z) :
    AxpyVecT alpha x y subset = YmeqxVec x y subset := by
  unfold AxpyVecT YmeqxVec
  by_cases hcompat : AssertCompatible x.GetInfo y.GetInfo = true
  · simp only [hcompat, Bool.not_true, Bool.false_eq_true, if_false]
    congr 1
    apply forLoop_congr
    intro cb _ _ st
    apply forLoop_congr
    intro site _ _ st
    apply forLoop_congr
    intro col _ hcol st
    apply forLoop_congr
    intro cspin _ _ ys
    rw [h col hcol]
    ext c a
    · rfl
    · rfl
    · simp only [CoarseSpinor.storeC, CoarseSpinor.loadC, CoarseSpinor.data_store,
        CoarseSpinor.load, Cplx.add_re, Cplx.add_im, Cplx.neg_re, Cplx.neg_im]
      have hne2 : ¬ ((y.GetSiteDataPtr col cb site).off + (IM + n_complex * cspin) =
          (y.GetSiteDataPtr col cb site).off + (RE + n_complex * cspin)) := by
        simp only [RE, IM]; omega
      simp [hne2, sub_eq_add_neg]
  · simp only [Bool.not_eq_true] at hcompat
    simp only [hcompat, Bool.not_false, if_true]

/-- C10: for all fields `x`, `y` and every subset, `AxpyVec` with every coefficient equal to
`1` (real or complex) ends exactly as `YpeqxVec(x, y, subset)`, and `AxpyVec` with every
coefficient equal to `-1` ends exactly as `YmeqxVec(x, y, subset)`: same outcome and same
final state of `y`. -/
theorem AxpyVec_unit_coefficients (x y : CoarseSpinor R) (subset : CBSubset) :
    (∀ alpha : List R, x.GetNCol ≤ alpha.length → (∀ a ∈ alpha, a = 1) →
      AxpyVec alpha x y subset = YpeqxVec x y subset) ∧
    (∀ alpha : List (Cplx R), x.GetNCol ≤ alpha.length → (∀ a ∈ alpha, a = 1) →
      AxpyVec alpha x y subset = YpeqxVec x y subset) ∧
    (∀ alpha : List R, x.GetNCol ≤ alpha.length → (∀ a ∈ alpha, a = -1) →
      AxpyVec alpha x y subset = YmeqxVec x y subset) ∧
    (∀ alpha : List (Cplx R), x.GetNCol ≤ alpha.length → (∀ a ∈ alpha, a = -1) →
      AxpyVec alpha x y subset = YmeqxVec x y subset) := by
  refine ⟨?_, ?_, ?_, ?_⟩
  · intro alpha hlen hall
    apply AxpyVecT_eq_YpeqxVec
    intro col hcol z
    rw [getD_eq_get_of_lt alpha 0 col (by omega), hall _ (List.get_mem _ _ _)]
    ext <;> simp [AxpyScalar.mulScalar]
  · intro alpha hlen hall
    apply AxpyVecT_eq_YpeqxVec
    intro col hcol z
    rw [getD_eq_get_of_lt alpha 0 col (by omega), hall _ (List.get_mem _ _ _)]
    ext <;> simp [AxpyScalar.mulScalar]
  · intro alpha hlen hall
    apply AxpyVecT_eq_YmeqxVec
    intro col hcol z
    rw [getD_eq_get_of_lt alpha 0 col (by omega), hall _ (List.get_mem _ _ _)]
    ext <;> simp [AxpyScalar.mulScalar]
  · intro alpha hlen hall
    apply AxpyVecT_eq_YmeqxVec
    intro col hcol z
    rw [getD_eq_get_of_lt alpha 0 col (by omega), hall _ (List.get_mem _ _ _)]
    ext <;> simp [AxpyScalar.mulScalar]

theorem forLoop_succ_right {σ : Type} (lo hi : Nat) (h : lo ≤ hi) (body : Nat → σ → σ)
    (s : σ) : forLoop lo (hi + 1) body s = body hi (forLoop lo hi body s) := by
  rw [forLoop_split lo hi (hi + 1) h (Nat.le_succ _), forLoop_step hi (hi + 1) (Nat.lt_succ_self _),
    forLoop_empty (hi + 1) (hi + 1) (Nat.le_refl _)]

/-- An accumulation loop `acc += g l` for `l < k` computes the sum of the `g l`. -/
theorem forLoop_sum {M : Type} [AddCommMonoid M] (k : Nat) (g : Nat → M) (a : M) :
    forLoop 0 k (fun l acc => acc + g l) a = a + ∑ l in Finset.range k, g l := by
  induction k with
  | zero => rw [forLoop_empty 0 0 (Nat.le_refl _)]; simp
  | succ k ih =>
    rw [forLoop_succ_right 0 k (Nat.zero_le _), ih, Finset.sum_range_succ, add_assoc]

/-- The entry `i + ncs * j` (in complex numbers) after the pointer of column 0 of a site is
the entry `i` of column `j` of that site. -/
theorem ptr_shift {S : Type} (y : CoarseSpinor S) (cb site i j r : Nat) :
    (y.GetSiteDataPtr 0 cb site).off + (r + n_complex * (i + y.GetNumColorSpin * j)) =
      (y.GetSiteDataPtr j cb site).off + (r + n_complex * i) := by
  simp only [CoarseSpinor.GetSiteDataPtr_off]
  ring

theorem loadC_shift {S : Type} (xs y : CoarseSpinor S) (cb site i j : Nat) :
    xs.loadC (y.GetSiteDataPtr 0 cb site) (i + y.GetNumColorSpin * j) =
      xs.loadC (y.GetSiteDataPtr j cb site) i := by
  simp only [CoarseSpinor.loadC, CoarseSpinor.load, ptr_shift, CoarseSpinor.GetSiteDataPtr_cb]

theorem Cplx.one_mul_add_zero_mul (a b : Cplx R) : 1 * a + 0 * b = a := by
  ext <;> simp

/-- The entry-wise description of a successful `UpdateVecs`. -/
theorem UpdateVecs_entry (x : CoarseSpinor R) (ip : List (Cplx R)) (y : CoarseSpinor R)
    (subset : CBSubset) (hcompat : AssertCompatible x.GetInfo y.GetInfo = true)
    (hip : ip.length = x.GetNCol * y.GetNCol)
    (cb site j cspin : Nat) (h1 : subset.start ≤ cb) (h2 : cb < subset.end_)
    (h3 : site < x.GetInfo.GetNumCBSites) (h4 : j < y.GetNCol)
    (h5 : cspin < x.GetNumColorSpin) :
    (UpdateVecs x ip y subset).state.loadC (y.GetSiteDataPtr j cb site) cspin =
      ∑ i in Finset.range x.GetNCol,
        x.loadC (x.GetSiteDataPtr i cb site) cspin * ip.getD (i + j * x.GetNCol) 0 := by
  have hcs := (colorspin_eq_of_compatible x y hcompat).1
  have hbeq : (x.GetNCol * y.GetNCol == ip.length) = true := by
    rw [beq_iff_eq]; exact hip.symm
  have h := pointwise_kernel y subset.start subset.end_ x.GetInfo.GetNumCBSites y.GetNCol
    x.GetNumColorSpin (Nat.le_refl _) (Nat.le_of_eq hcs)
    (fun cb site j i (ys : CoarseSpinor R) =>
      ys.storeC (y.GetSiteDataPtr 0 cb site) (i + x.GetNumColorSpin * j)
        (1 * forLoop 0 x.GetNCol (fun l temp =>
            temp + opEntry Trans.N (x.loadC (x.GetSiteDataPtr 0 cb site)) x.GetNumColorSpin i l *
              opEntry Trans.N (fun k => (ip.map toFloatC).getD k 0) x.GetNCol l j) (0 : Cplx R) +
          0 * ys.loadC (y.GetSiteDataPtr 0 cb site) (i + x.GetNumColorSpin * j)))
    (fun cb site j i v =>
      ((1 * forLoop 0 x.GetNCol (fun l temp =>
            temp + opEntry Trans.N (x.loadC (x.GetSiteDataPtr 0 cb site)) x.GetNumColorSpin i l *
              opEntry Trans.N (fun k => (ip.map toFloatC).getD k 0) x.GetNCol l j) (0 : Cplx R) +
          0 * (⟨v.1, v.2⟩ : Cplx R)).re,
        (1 * forLoop 0 x.GetNCol (fun l temp =>
            temp + opEntry Trans.N (x.loadC (x.GetSiteDataPtr 0 cb site)) x.GetNumColorSpin i l *
              opEntry Trans.N (fun k => (ip.map toFloatC).getD k 0) x.GetNCol l j) (0 : Cplx R) +
          0 * (⟨v.1, v.2⟩ : Cplx R)).im))
    (by
      intro cb site j i ys c a
      beta_reduce
      rw [hcs, loadC_shift]
      simp only [CoarseSpinor.storeC, CoarseSpinor.data_store, ptr_shift,
        CoarseSpinor.GetSiteDataPtr_cb]
      rfl)
    (ZeroVec y SUBSET_ALL) cb site j cspin h1 h2 h3 h4 h5
  have hre := congrArg Prod.fst h
  have him := congrArg Prod.snd h
  simp only at hre him
  have hval : ∀ v : Cplx R,
      1 * forLoop 0 x.GetNCol (fun l temp =>
            temp + opEntry Trans.N (x.loadC (x.GetSiteDataPtr 0 cb site)) x.GetNumColorSpin
                cspin l *
              opEntry Trans.N (fun k => (ip.map toFloatC).getD k 0) x.GetNCol l j) (0 : Cplx R) +
          0 * v =
        ∑ i in Finset.range x.GetNCol,
          x.loadC (x.GetSiteDataPtr i cb site) cspin * ip.getD (i + j * x.GetNCol) 0 := by
    intro v
    have hmap : ip.map toFloatC = ip := List.map_id ip
    rw [Cplx.one_mul_add_zero_mul, forLoop_sum, zero_add, hmap]
    apply Finset.sum_congr rfl
    intro l _
    simp only [opEntry]
    rw [loadC_shift, Nat.mul_comm x.GetNCol j]
  unfold UpdateVecs XGEMM
  simp only [hcompat, hbeq, Bool.not_true, Bool.false_eq_true, if_false, Run.state]
  apply Cplx.ext
  · exact hre.trans (congrArg Cplx.re (hval _))
  · exact him.trans (congrArg Cplx.im (hval _))

/-- C7: for compatible fields `x` (`m` columns) and `y` (`n` columns), every coefficient vector
`ip` of length `m * n` and every subset, `UpdateVecs(x, ip, y, subset)` returns and leaves in
column `j` of `y`, at every site and colorspin of the subset, the sum over `i < m` of the entry
of column `i` of `x` times `ip[i + j * m]`, whatever `y` held before.  The operand `x` is
`const`.  (The index `i + j * m` is within `ip`, so the default of `getD` is never read.) -/
theorem UpdateVecs_columns (x : CoarseSpinor R) (ip : List (Cplx R)) (y : CoarseSpinor R)
    (subset : CBSubset) (hcompat : AssertCompatible x.GetInfo y.GetInfo = true)
    (hip : ip.length = x.GetNCol * y.GetNCol) :
    (UpdateVecs x ip y subset).isFatal = false ∧
    ∀ cb site j cspin, subset.start ≤ cb → cb < subset.end_ →
      site < x.GetInfo.GetNumCBSites → j < y.GetNCol → cspin < x.GetNumColorSpin →
      (UpdateVecs x ip y subset).state.loadC (y.GetSiteDataPtr j cb site) cspin =
        ∑ i in Finset.range x.GetNCol,
          x.loadC (x.GetSiteDataPtr i cb site) cspin * ip.getD (i + j * x.GetNCol) 0 := by
  refine ⟨?_, ?_⟩
  · have hbeq : (x.GetNCol * y.GetNCol == ip.length) = true := by
      rw [beq_iff_eq]; exact hip.symm
    unfold UpdateVecs
    simp only [hcompat, hbeq, Bool.not_true, Bool.false_eq_true, if_false, Run.isFatal]
  · intro cb site j cspin h1 h2 h3 h4 h5
    exact UpdateVecs_entry x ip y subset hcompat hip cb site j cspin h1 h2 h3 h4 h5

/-- C8: on compatible geometries `UpdateVecs(x, ip, y, subset)` stops at a fatal assertion
exactly when `ip.size()` differs from `columns(x) * columns(y)`, and when it does `y` is in
its initial state. -/
theorem UpdateVecs_fatal_iff (x : CoarseSpinor R) (ip : List (Cplx R)) (y : CoarseSpinor R)
    (subset : CBSubset) (hcompat : AssertCompatible x.GetInfo y.GetInfo = true) :
    ((UpdateVecs x ip y subset).isFatal = true ↔ ip.length ≠ x.GetNCol * y.GetNCol) ∧
    ((UpdateVecs x ip y subset).isFatal = true → (UpdateVecs x ip y subset).state = y) := by
  unfold UpdateVecs
  by_cases hbeq : (x.GetNCol * y.GetNCol == ip.length) = true
  · have hip : ip.length = x.GetNCol * y.GetNCol := by
      rw [beq_iff_eq] at hbeq; exact hbeq.symm
    simp only [hcompat, hbeq, Bool.not_true, Bool.false_eq_true, if_false, Run.isFatal]
    simp [hip]
  · have hip : ip.length ≠ x.GetNCol * y.GetNCol := by
      intro h; apply hbeq; rw [beq_iff_eq]; exact h.symm
    simp only [Bool.not_eq_true] at hbeq
    simp only [hcompat, hbeq, Bool.not_true, Bool.not_false, Bool.false_eq_true, if_false,
      if_true, Run.isFatal, Run.state]
    simp [hip]

/-! ### Evaluations of the reducing kernels -/

/-- C2: on a buffer of width `n = 2` with `T = 1` thread holding `[1, 2]`, `reduce()` returns
`[3, 0]`: both accumulators are added into entry 0 and entry 1 stays zero, where the sums over
the thread slices are `[1, 2]`. -/
theorem reduce_two_one : mvTwoOne.reduce = some [3, 0] := by decide

/-- C1: on the two-column field `xTwoCol` (column norms `1` and `4` on one checkerboard) with
one thread, `Norm2Vec` returns `[5, 0]`: entry 0 holds the contributions of both columns. -/
theorem Norm2Vec_two_columns : Norm2Vec env1 xTwoCol SUBSET_EVEN = some [5, 0] := by decide

/-- C3: on the two-column fields `xTwoCol`, `yTwoCol` (column products `0 + 1i` and `2 + 0i`
on one checkerboard) with one thread, `InnerProductVec` returns `[2 + 1i, 0]`. -/
theorem InnerProductVec_two_columns :
    (InnerProductVec env1 xTwoCol yTwoCol SUBSET_EVEN).value = some (some [⟨2, 1⟩, ⟨0, 0⟩]) := by
  decide

/-- C4: on the two-column fields `xTwoCol`, `yTwoCol` (squared norms of the column differences
`2` and `1` on one checkerboard) with one thread, `XmyNorm2Vec` returns `[3, 0]`. -/
theorem XmyNorm2Vec_two_columns :
    (XmyNorm2Vec env1 xTwoCol yTwoCol SUBSET_EVEN).value = some (some [3, 0]) := by
  decide

/-- C6: on `xTwoCol` (`m = 2` columns) and `yOneCol` (`n = 1` column), with products
`⟨x[0]|y[0]⟩ = 0 + 1i` and `⟨x[1]|y[0]⟩ = 0 + 2i` on one checkerboard and one thread,
`InnerProductMat` returns `[0 + 3i, 0]`. -/
theorem InnerProductMat_two_by_one :
    (InnerProductMat env1 xTwoCol yOneCol SUBSET_EVEN).value = some (some [⟨0, 3⟩, ⟨0, 0⟩]) := by
  decide

/-- The scenario of the specification for `InnerProductVec` (`x = 1 + 0i`, `y = 0 + 1i`, one
column, four sites, one checkerboard) evaluates to `[0 + 4i]` with one thread. -/
theorem InnerProductVec_scenario_one_thread :
    (InnerProductVec env1 xConst yConst SUBSET_EVEN).value = some (some [⟨0, 4⟩]) := by
  decide

/-- With two threads the same scenario makes `reduce` index its one-entry result at
position 1. -/
theorem InnerProductVec_scenario_two_threads :
    (InnerProductVec env2 xConst yConst SUBSET_EVEN).value = some none := by
  decide

/-- On the two-column fields `xTwoCol`, `yTwoCol` the fused `XmyNorm2Vec` and `Norm2Vec` of
the field written by `XmyzVec` return the same vector. -/
theorem XmyNorm2Vec_unfused_two_columns :
    (XmyNorm2Vec env1 xTwoCol yTwoCol SUBSET_EVEN).value =
      some (Norm2Vec env1 (XmyzVec xTwoCol yTwoCol xTwoCol SUBSET_EVEN).state SUBSET_EVEN) := by
  decide

/-! ### Instances of the theorems with hypotheses -/

/-- An instance of the theorem for C5 on the fields `xTwoCol`, `yTwoCol`. -/
theorem XmyNorm2Vec_overwrites_x_witness :
    AssertCompatible xTwoCol.GetInfo yTwoCol.GetInfo = true ∧
    (XmyNorm2Vec env1 xTwoCol yTwoCol SUBSET_ALL).isFatal = false ∧
    (XmyNorm2Vec env1 xTwoCol yTwoCol SUBSET_ALL).state.load (xTwoCol.GetSiteDataPtr 1 1 0)
        (RE + n_complex * 0) = 1 ∧
    (XmyNorm2Vec env1 xTwoCol yTwoCol SUBSET_ALL).state.load (xTwoCol.GetSiteDataPtr 0 1 0)
        (IM + n_complex * 0) = -1 :=
  ⟨by decide,
    (XmyNorm2Vec_overwrites_x env1 xTwoCol yTwoCol SUBSET_ALL (by decide)).1,
    ((XmyNorm2Vec_overwrites_x env1 xTwoCol yTwoCol SUBSET_ALL (by decide)).2 1 0 1 0
      (by decide) (by decide) (by decide) (by decide) (by decide)).1.trans (by decide),
    ((XmyNorm2Vec_overwrites_x env1 xTwoCol yTwoCol SUBSET_ALL (by decide)).2 1 0 0 0
      (by decide) (by decide) (by decide) (by decide) (by decide)).2.trans (by decide)⟩

/-- An instance of the theorem for C7: `y[0] = x[0] * 1 + x[1] * i` with `x[0] = 1` and
`x[1] = 2`. -/
theorem UpdateVecs_columns_witness :
    AssertCompatible xTwoCol.GetInfo yOneCol.GetInfo = true ∧
    [(⟨1, 0⟩ : Cplx Int), ⟨0, 1⟩].length = xTwoCol.GetNCol * yOneCol.GetNCol ∧
    (UpdateVecs xTwoCol [⟨1, 0⟩, ⟨0, 1⟩] yOneCol SUBSET_ALL).isFatal = false ∧
    (UpdateVecs xTwoCol [⟨1, 0⟩, ⟨0, 1⟩] yOneCol SUBSET_ALL).state.loadC
        (yOneCol.GetSiteDataPtr 0 1 0) 0 = ⟨1, 2⟩ :=
  ⟨by decide, by decide,
    (UpdateVecs_columns xTwoCol [⟨1, 0⟩, ⟨0, 1⟩] yOneCol SUBSET_ALL (by decide) (by decide)).1,
    ((UpdateVecs_columns xTwoCol [⟨1, 0⟩, ⟨0, 1⟩] yOneCol SUBSET_ALL (by decide)
      (by decide)).2 1 0 0 0 (by decide) (by decide) (by decide) (by decide)
      (by decide)).trans (by
        show ∑ i in Finset.range 2, _ = _
        rw [Finset.sum_range_succ, Finset.sum_range_one]
        decide)⟩

/-- An instance of the theorem for C8: a coefficient vector of length 1 for `2 * 1` columns is
rejected with `y` untouched, one of length 2 is accepted. -/
theorem UpdateVecs_fatal_iff_witness :
    AssertCompatible xTwoCol.GetInfo yOneCol.GetInfo = true ∧
    (UpdateVecs xTwoCol [⟨1, 0⟩] yOneCol SUBSET_ALL).isFatal = true ∧
    (UpdateVecs xTwoCol [⟨1, 0⟩] yOneCol SUBSET_ALL).state = yOneCol ∧
    (UpdateVecs xTwoCol [⟨1, 0⟩, ⟨0, 1⟩] yOneCol SUBSET_ALL).isFatal ≠ true :=
  ⟨by decide,
    (UpdateVecs_fatal_iff xTwoCol [⟨1, 0⟩] yOneCol SUBSET_ALL (by decide)).1.mpr (by decide),
    (UpdateVecs_fatal_iff xTwoCol [⟨1, 0⟩] yOneCol SUBSET_ALL (by decide)).2
      ((UpdateVecs_fatal_iff xTwoCol [⟨1, 0⟩] yOneCol SUBSET_ALL (by decide)).1.mpr
        (by decide)),
    fun h => (UpdateVecs_fatal_iff xTwoCol [⟨1, 0⟩, ⟨0, 1⟩] yOneCol SUBSET_ALL
      (by decide)).1.mp h (by decide)⟩

/-- An instance of the theorem for C9 with real and with complex coefficients. -/
theorem AxpyVec_adds_scaled_x_witness :
    AssertCompatible xTwoCol.GetInfo yTwoCol.GetInfo = true ∧
    xTwoCol.GetNCol ≤ yTwoCol.GetNCol ∧
    (AxpyVec [(3 : Int), 5] xTwoCol yTwoCol SUBSET_ALL).state.loadC
        (yTwoCol.GetSiteDataPtr 1 0 0) 0 = ⟨11, 0⟩ ∧
    (AxpyVec [(⟨0, 1⟩ : Cplx Int), ⟨1, 1⟩] xTwoCol yTwoCol SUBSET_ALL).state.loadC
        (yTwoCol.GetSiteDataPtr 1 0 0) 0 = ⟨3, 2⟩ :=
  ⟨by decide, by decide,
    (((AxpyVec_adds_scaled_x xTwoCol yTwoCol SUBSET_ALL (by decide) (by decide)).1
      [3, 5] (by decide)).2 0 0 1 0 (by decide) (by decide) (by decide) (by decide)
      (by decide)).trans (by decide),
    (((AxpyVec_adds_scaled_x xTwoCol yTwoCol SUBSET_ALL (by decide) (by decide)).2
      [⟨0, 1⟩, ⟨1, 1⟩] (by decide)).2 0 0 1 0 (by decide) (by decide) (by decide) (by decide)
      (by decide)).trans (by decide)⟩

/-- An instance of the theorem for C10 with real coefficients `1` and complex coefficients
`-1`. -/
theorem AxpyVec_unit_coefficients_witness :
    AxpyVec [(1 : Int), 1] xTwoCol yTwoCol SUBSET_ALL = YpeqxVec xTwoCol yTwoCol SUBSET_ALL ∧
    AxpyVec [(-1 : Cplx Int), -1] xTwoCol yTwoCol SUBSET_ALL =
      YmeqxVec xTwoCol yTwoCol SUBSET_ALL :=
  ⟨(AxpyVec_unit_coefficients xTwoCol yTwoCol SUBSET_ALL).1 [1, 1] (by decide) (by decide),
    (AxpyVec_unit_coefficients xTwoCol yTwoCol SUBSET_ALL).2.2.2 [-1, -1] (by decide)
      (by decide)⟩

end Properties

/-! ## Loops over ranges: the effect on one observed value -/

section RangeLoops

variable {σ : Type}

/-- A loop in which only the iteration `i0` changes the observed value, by `g`, changes it by
`g` when `i0` is in the range and leaves it unchanged otherwise. -/
theorem forLoop_obs_ite {V : Type} (obs : σ → V) (g : V → V) (lo hi i0 : Nat)
    (body : Nat → σ → σ)
    (h : ∀ i, lo ≤ i → i < hi → ∀ s, obs (body i s) = if i = i0 then g (obs s) else obs s)
    (s : σ) :
    obs (forLoop lo hi body s) = if lo ≤ i0 ∧ i0 < hi then g (obs s) else obs s := by
  by_cases hin : lo ≤ i0 ∧ i0 < hi
  · rw [if_pos hin]
    apply forLoop_obs_hit obs g lo hi i0 hin.1 hin.2
    · intro i h1 h2 hne s
      rw [h i h1 h2, if_neg hne]
    · intro s
      rw [h i0 hin.1 hin.2, if_pos rfl]
  · rw [if_neg hin]
    apply forLoop_obs_frame obs
    intro i h1 h2 s
    rw [h i h1 h2, if_neg]
    rintro rfl
    exact hin ⟨h1, h2⟩

/-- The same one level up: the iterations are told apart by a condition `C` on the enclosing
loop variables. -/
theorem forLoop_obs_cond {V : Type} (obs : σ → V) (g : V → V) (C : Prop) [Decidable C]
    (lo hi i0 : Nat)
    (body : Nat → σ → σ)
    (h : ∀ i, lo ≤ i → i < hi → ∀ s,
      obs (body i s) = if C ∧ i = i0 then g (obs s) else obs s)
    (s : σ) :
    obs (forLoop lo hi body s) = if C ∧ (lo ≤ i0 ∧ i0 < hi) then g (obs s) else obs s := by
  by_cases hC : C
  · have h2 : ∀ i, lo ≤ i → i < hi → ∀ s,
        obs (body i s) = if i = i0 then g (obs s) else obs s := by
      intro i h1 h2 s
      rw [h i h1 h2]
      simp only [hC, true_and]
    rw [forLoop_obs_ite obs g lo hi i0 body h2]
    simp only [hC, true_and]
  · rw [if_neg (fun hh => hC hh.1)]
    apply forLoop_obs_frame obs
    intro i h1 h2 s
    rw [h i h1 h2, if_neg (fun hh => hC hh.1)]

/-- The four loops of a kernel (checkerboard, site, column range, colorspin range): when the
body of the entry `(cb0, site0, col0, cspin0)` is the only one that changes the observed
value, by `g`, the loops change it by `g` if that entry is in the ranges and leave it
unchanged otherwise. -/
theorem kernelLoop_obs {V : Type} (obs : σ → V) (g : V → V) (s e ns c0 c1 k0 k1 : Nat)
    (upd : Nat → Nat → Nat → Nat → σ → σ) (cb0 site0 col0 cspin0 : Nat)
    (hkey : ∀ cb site col cspin, s ≤ cb → cb < e → site < ns → c0 ≤ col → col < c1 →
      k0 ≤ cspin → cspin < k1 → ∀ st,
      obs (upd cb site col cspin st) =
        if cb = cb0 ∧ site = site0 ∧ col = col0 ∧ cspin = cspin0 then g (obs st) else obs st)
    (st : σ) :
    obs (forLoop s e (fun cb => forLoop 0 ns (fun site => forLoop c0 c1 (fun col =>
      forLoop k0 k1 (fun cspin => upd cb site col cspin)))) st) =
      if (s ≤ cb0 ∧ cb0 < e) ∧ site0 < ns ∧ (c0 ≤ col0 ∧ col0 < c1) ∧
          (k0 ≤ cspin0 ∧ cspin0 < k1) then g (obs st) else obs st := by
  -- colorspin loop
  have L4 : ∀ cb site col, s ≤ cb → cb < e → site < ns → c0 ≤ col → col < c1 → ∀ st,
      obs (forLoop k0 k1 (fun cspin => upd cb site col cspin) st) =
        if (cb = cb0 ∧ site = site0 ∧ col = col0) ∧ (k0 ≤ cspin0 ∧ cspin0 < k1) then
          g (obs st) else obs st := by
    intro cb site col h1 h2 h3 h4 h5 st
    apply forLoop_obs_cond obs g (cb = cb0 ∧ site = site0 ∧ col = col0) k0 k1 cspin0
    intro cspin h6 h7 st
    rw [hkey cb site col cspin h1 h2 h3 h4 h5 h6 h7]
    simp only [and_assoc]
  -- column loop
  have L3 : ∀ cb site, s ≤ cb → cb < e → site < ns → ∀ st,
      obs (forLoop c0 c1 (fun col => forLoop k0 k1 (fun cspin => upd cb site col cspin)) st) =
        if (cb = cb0 ∧ site = site0) ∧ (c0 ≤ col0 ∧ col0 < c1) then
          (fun v => if k0 ≤ cspin0 ∧ cspin0 < k1 then g v else v) (obs st) else obs st := by
    intro cb site h1 h2 h3 st
    apply forLoop_obs_cond obs (fun v => if k0 ≤ cspin0 ∧ cspin0 < k1 then g v else v)
      (cb = cb0 ∧ site = site0) c0 c1 col0
    intro col h4 h5 st
    rw [L4 cb site col h1 h2 h3 h4 h5]
    by_cases ha : cb = cb0 ∧ site = site0 ∧ col = col0 <;>
      by_cases hb : k0 ≤ cspin0 ∧ cspin0 < k1 <;>
      by_cases hc : (cb = cb0 ∧ site = site0) ∧ col = col0 <;>
      simp only [ha, hb, hc, and_self, and_true, and_false, if_true, if_false]
  -- site loop
  have L2 : ∀ cb, s ≤ cb → cb < e → ∀ st,
      obs (forLoop 0 ns (fun site => forLoop c0 c1 (fun col =>
        forLoop k0 k1 (fun cspin => upd cb site col cspin))) st) =
        if cb = cb0 ∧ (0 ≤ site0 ∧ site0 < ns) then
          (fun v => if c0 ≤ col0 ∧ col0 < c1 then
            (if k0 ≤ cspin0 ∧ cspin0 < k1 then g v else v) else v) (obs st) else obs st := by
    intro cb h1 h2 st
    apply forLoop_obs_cond obs (fun v => if c0 ≤ col0 ∧ col0 < c1 then
      (if k0 ≤ cspin0 ∧ cspin0 < k1 then g v else v) else v) (cb = cb0) 0 ns site0
    intro site _ h3 st
    rw [L3 cb site h1 h2 h3]
    by_cases ha : cb = cb0 ∧ site = site0 <;>
      by_cases hb : c0 ≤ col0 ∧ col0 < c1 <;>
      simp only [ha, hb, and_self, and_true, and_false, if_true, if_false]
  -- checkerboard loop
  have L1 : ∀ st,
      obs (forLoop s e (fun cb => forLoop 0 ns (fun site => forLoop c0 c1 (fun col =>
        forLoop k0 k1 (fun cspin => upd cb site col cspin)))) st) =
        if s ≤ cb0 ∧ cb0 < e then
          (fun v => if 0 ≤ site0 ∧ site0 < ns then
            (if c0 ≤ col0 ∧ col0 < c1 then
              (if k0 ≤ cspin0 ∧ cspin0 < k1 then g v else v) else v) else v) (obs st)
        else obs st := by
    intro st
    apply forLoop_obs_ite obs (fun v => if 0 ≤ site0 ∧ site0 < ns then
      (if c0 ≤ col0 ∧ col0 < c1 then
        (if k0 ≤ cspin0 ∧ cspin0 < k1 then g v else v) else v) else v) s e cb0
    intro cb h1 h2 st
    rw [L2 cb h1 h2]
    by_cases ha : cb = cb0 <;>
      by_cases hb : 0 ≤ site0 ∧ site0 < ns <;>
      simp only [ha, hb, and_self, and_true, and_false, true_and, if_true, if_false]
  rw [L1]
  by_cases h1 : s ≤ cb0 ∧ cb0 < e <;>
    by_cases h2 : site0 < ns <;>
    by_cases h3 : c0 ≤ col0 ∧ col0 < c1 <;>
    by_cases h4 : k0 ≤ cspin0 ∧ cspin0 < k1 <;>
    simp only [h1, h2, h3, h4, Nat.zero_le, and_self, and_true, and_false, true_and,
      false_and, if_true, if_false]

end RangeLoops

/-! ## Element-wise kernels over column and colorspin ranges -/

section PointwiseRange

variable {R : Type}

/-- The effect of the body of the entry `(cb, site, col, cspin)`, which overwrites that complex
entry with `v` of its old value, on the complex entry `(cb0, site0, col0, cspin0)`. -/
theorem entry_update_loadC (z : CoarseSpinor R) (upd1 : CoarseSpinor R → CoarseSpinor R)
    (v : Cplx R → Cplx R) (cb site col cspin : Nat)
    (hupd : ∀ (xs : CoarseSpinor R) c a,
      (upd1 xs).data c a =
        if c = cb ∧ a = (z.GetSiteDataPtr col cb site).off + (IM + n_complex * cspin) then
          (v (xs.loadC (z.GetSiteDataPtr col cb site) cspin)).im
        else if c = cb ∧ a = (z.GetSiteDataPtr col cb site).off + (RE + n_complex * cspin) then
          (v (xs.loadC (z.GetSiteDataPtr col cb site) cspin)).re
        else xs.data c a)
    (hc : col < z.GetNCol) (hk : cspin < z.GetNumColorSpin)
    (cb0 site0 col0 cspin0 : Nat) (hc0 : col0 < z.GetNCol) (hk0 : cspin0 < z.GetNumColorSpin)
    (xs : CoarseSpinor R) :
    (upd1 xs).loadC (z.GetSiteDataPtr col0 cb0 site0) cspin0 =
      if cb = cb0 ∧ site = site0 ∧ col = col0 ∧ cspin = cspin0 then
        v (xs.loadC (z.GetSiteDataPtr col0 cb0 site0) cspin0)
      else xs.loadC (z.GetSiteDataPtr col0 cb0 site0) cspin0 := by
  have hRE : RE < n_complex := by decide
  have hIM : IM < n_complex := by decide
  have inj := fun r r0 hr hr0 h =>
    entry_addr_inj z col0 site0 cspin0 r0 col site cspin r cb0 cb hc0 hc hk0 hk hr0 hr h
  by_cases hkey : cb = cb0 ∧ site = site0 ∧ col = col0 ∧ cspin = cspin0
  · obtain ⟨rfl, rfl, rfl, rfl⟩ := hkey
    have h1 : ¬ ((z.GetSiteDataPtr col cb site).off + (RE + n_complex * cspin) =
        (z.GetSiteDataPtr col cb site).off + (IM + n_complex * cspin)) := by
      simp only [RE, IM]; omega
    apply Cplx.ext
    · simp only [CoarseSpinor.loadC, CoarseSpinor.load, hupd, CoarseSpinor.GetSiteDataPtr_cb]
      simp [h1]
    · simp only [CoarseSpinor.loadC, CoarseSpinor.load, hupd, CoarseSpinor.GetSiteDataPtr_cb]
      simp
  · have h1 : ∀ r r0, r < n_complex → r0 < n_complex →
        ¬ (cb0 = cb ∧ (z.GetSiteDataPtr col0 cb0 site0).off + (r0 + n_complex * cspin0) =
          (z.GetSiteDataPtr col cb site).off + (r + n_complex * cspin)) := by
      intro r r0 hr hr0 h
      obtain ⟨h2, h3, h4, _⟩ := inj r r0 hr hr0 h.2
      exact hkey ⟨h.1.symm, h2.symm, h3.symm, h4.symm⟩
    rw [if_neg hkey]
    apply Cplx.ext
    · simp only [CoarseSpinor.loadC, CoarseSpinor.load, hupd, CoarseSpinor.GetSiteDataPtr_cb]
      simp [h1 _ _ hRE hRE, h1 _ _ hIM hRE]
    · simp only [CoarseSpinor.loadC, CoarseSpinor.load, hupd, CoarseSpinor.GetSiteDataPtr_cb]
      simp [h1 _ _ hRE hIM, h1 _ _ hIM hIM]

/-- The generic element-wise kernel over a column range `[c0, c1)` and a colorspin range
`[k0, k1)` inside the shape of `z`.  The body of the entry `(cb, site, col, cspin)` overwrites
that complex entry with `f cb site col cspin` of its old value.  Then every complex entry of
the shape of `z` is `f` of its initial value when it is in the ranges of the loops and keeps
its initial value otherwise. -/
theorem pointwise_kernel_range (z : CoarseSpinor R) (s e ns c0 c1 k0 k1 : Nat)
    (hc1 : c1 ≤ z.GetNCol) (hk1 : k1 ≤ z.GetNumColorSpin)
    (upd : Nat → Nat → Nat → Nat → CoarseSpinor R → CoarseSpinor R)
    (f : Nat → Nat → Nat → Nat → Cplx R → Cplx R)
    (hupd : ∀ cb site col cspin (xs : CoarseSpinor R) c a,
      (upd cb site col cspin xs).data c a =
        if c = cb ∧ a = (z.GetSiteDataPtr col cb site).off + (IM + n_complex * cspin) then
          (f cb site col cspin (xs.loadC (z.GetSiteDataPtr col cb site) cspin)).im
        else if c = cb ∧ a = (z.GetSiteDataPtr col cb site).off + (RE + n_complex * cspin) then
          (f cb site col cspin (xs.loadC (z.GetSiteDataPtr col cb site) cspin)).re
        else xs.data c a)
    (x0 : CoarseSpinor R) (cb0 site0 col0 cspin0 : Nat) (hcol0 : col0 < z.GetNCol)
    (hcspin0 : cspin0 < z.GetNumColorSpin) :
    (forLoop s e (fun cb => forLoop 0 ns (fun site => forLoop c0 c1 (fun col =>
        forLoop k0 k1 (fun cspin => upd cb site col cspin)))) x0).loadC
          (z.GetSiteDataPtr col0 cb0 site0) cspin0 =
      if (s ≤ cb0 ∧ cb0 < e) ∧ site0 < ns ∧ (c0 ≤ col0 ∧ col0 < c1) ∧
          (k0 ≤ cspin0 ∧ cspin0 < k1) then
        f cb0 site0 col0 cspin0 (x0.loadC (z.GetSiteDataPtr col0 cb0 site0) cspin0)
      else x0.loadC (z.GetSiteDataPtr col0 cb0 site0) cspin0 := by
  apply kernelLoop_obs
    (fun xs : CoarseSpinor R => xs.loadC (z.GetSiteDataPtr col0 cb0 site0) cspin0)
    (f cb0 site0 col0 cspin0) s e ns c0 c1 k0 k1 upd cb0 site0 col0 cspin0
  intro cb site col cspin _ _ _ _ h5 _ h7 st
  have h := entry_update_loadC z (upd cb site col cspin) (f cb site col cspin) cb site col
    cspin (hupd cb site col cspin) (by omega) (by omega) cb0 site0 col0 cspin0 hcol0 hcspin0 st
  show (upd cb site col cspin st).loadC (z.GetSiteDataPtr col0 cb0 site0) cspin0 = _
  rw [h]
  by_cases hkey : cb = cb0 ∧ site = site0 ∧ col = col0 ∧ cspin = cspin0
  · obtain ⟨rfl, rfl, rfl, rfl⟩ := hkey
    simp
  · simp [hkey]

/-- The info and the column count of the field are those of the initial field after the loops
of a kernel whose bodies only store values. -/
theorem kernelLoop_shape (s e ns c0 c1 k0 k1 : Nat)
    (upd : Nat → Nat → Nat → Nat → CoarseSpinor R → CoarseSpinor R)
    (hupd : ∀ cb site col cspin (xs : CoarseSpinor R),
      (upd cb site col cspin xs).info = xs.info ∧ (upd cb site col cspin xs)._n_col = xs._n_col)
    (x0 : CoarseSpinor R) :
    (forLoop s e (fun cb => forLoop 0 ns (fun site => forLoop c0 c1 (fun col =>
        forLoop k0 k1 (fun cspin => upd cb site col cspin)))) x0).info = x0.info ∧
    (forLoop s e (fun cb => forLoop 0 ns (fun site => forLoop c0 c1 (fun col =>
        forLoop k0 k1 (fun cspin => upd cb site col cspin)))) x0)._n_col = x0._n_col := by
  have h := kernelLoop_obs (fun xs : CoarseSpinor R => (xs.info, xs._n_col)) id s e ns c0 c1
    k0 k1 upd 0 0 0 0
    (by
      intro cb site col cspin _ _ _ _ _ _ _ st
      show ((upd cb site col cspin st).info, (upd cb site col cspin st)._n_col) = _
      rw [(hupd cb site col cspin st).1, (hupd cb site col cspin st).2]
      simp) x0
  simp only [id, ite_self] at h
  exact ⟨congrArg Prod.fst h, congrArg Prod.snd h⟩

end PointwiseRange

/-! ## Properties of the element-wise kernels -/

section ElementWise

variable {R : Type} [CommRing R]

theorem CoarseSpinor.load_store_re_im {S : Type} (xs : CoarseSpinor S) (p : Ptr) (cspin : Nat)
    (a : S) :
    (xs.store p (RE + n_complex * cspin) a).load p (IM + n_complex * cspin) =
      xs.load p (IM + n_complex * cspin) := by
  have hne : ¬ (p.off + (IM + n_complex * cspin) = p.off + (RE + n_complex * cspin)) := by
    simp only [RE, IM]; omega
  simp [CoarseSpinor.load, CoarseSpinor.data_store, hne]

theorem Cplx.mul_comm (a b : Cplx R) : a * b = b * a := by
  ext
  · simp only [Cplx.mul_re]; ring
  · simp only [Cplx.mul_im]; ring

/-- C19: for compatible fields `x`, `y`, `z` such that `z` has the columns of `x`, and every
subset, `XmyzVec(x, y, z, subset)` returns and leaves in every complex entry of `z` on the
subset (every checkerboard of the subset, site, column of `x` and colorspin) the entry of `x`
minus the entry of `y`.  The operands `x` and `y` are `const` and separate from the state `z`:
they are not part of the mutated state. -/
theorem XmyzVec_writes_difference (x y z : CoarseSpinor R) (subset : CBSubset)
    (hxy : AssertCompatible x.GetInfo y.GetInfo = true)
    (hzx : AssertCompatible z.GetInfo x.GetInfo = true) (hcols : x.GetNCol ≤ z.GetNCol) :
    (XmyzVec x y z subset).isFatal = false ∧
    ∀ cb site col cspin, subset.start ≤ cb → cb < subset.end_ →
      site < x.GetInfo.GetNumCBSites → col < x.GetNCol → cspin < x.GetNumColorSpin →
      (XmyzVec x y z subset).state.loadC (z.GetSiteDataPtr col cb site) cspin =
        x.loadC (x.GetSiteDataPtr col cb site) cspin -
          y.loadC (y.GetSiteDataPtr col cb site) cspin := by
  have hcs := (colorspin_eq_of_compatible z x hzx).1
  refine ⟨?_, ?_⟩
  · unfold XmyzVec
    simp only [hxy, hzx, Bool.not_true, Bool.false_eq_true, if_false, Run.isFatal]
  · intro cb site col cspin h1 h2 h3 h4 h5
    have h := pointwise_kernel_range z subset.start subset.end_ x.GetInfo.GetNumCBSites 0
      x.GetNCol 0 x.GetNumColorSpin hcols (Nat.le_of_eq hcs.symm)
      (fun cb site col cspin (zs : CoarseSpinor R) =>
        (zs.store (z.GetSiteDataPtr col cb site) (RE + n_complex * cspin)
          (x.load (x.GetSiteDataPtr col cb site) (RE + n_complex * cspin) -
            y.load (y.GetSiteDataPtr col cb site) (RE + n_complex * cspin))).store
          (z.GetSiteDataPtr col cb site) (IM + n_complex * cspin)
          (x.load (x.GetSiteDataPtr col cb site) (IM + n_complex * cspin) -
            y.load (y.GetSiteDataPtr col cb site) (IM + n_complex * cspin)))
      (fun cb site col cspin _ =>
        x.loadC (x.GetSiteDataPtr col cb site) cspin -
          y.loadC (y.GetSiteDataPtr col cb site) cspin)
      (fun _ _ _ _ _ _ _ => rfl) z cb site col cspin (by omega) (by omega)
    rw [if_pos ⟨⟨h1, h2⟩, h3, ⟨Nat.zero_le _, h4⟩, ⟨Nat.zero_le _, h5⟩⟩] at h
    unfold XmyzVec
    simp only [hxy, hzx, Bool.not_true, Bool.false_eq_true, if_false, Run.state]
    exact h

/-- The entry-wise description of the real overload of `ScaleVec`. -/
theorem ScaleVec_entry (alpha : List R) (x : CoarseSpinor R) (subset : CBSubset)
    (hlen : alpha.length = x.GetNCol) :
    (ScaleVec alpha x subset).isFatal = false ∧
    ∀ cb site col cspin, subset.start ≤ cb → cb < subset.end_ →
      site < x.GetInfo.GetNumCBSites → col < x.GetNCol → cspin < x.GetNumColorSpin →
      (ScaleVec alpha x subset).state.loadC (x.GetSiteDataPtr col cb site) cspin =
        (x.loadC (x.GetSiteDataPtr col cb site) cspin).smulReal (alpha.getD col 0) := by
  refine ⟨?_, ?_⟩
  · unfold ScaleVec
    simp only [hlen, not_true_eq_false, if_false, Run.isFatal]
  · intro cb site col cspin h1 h2 h3 h4 h5
    have h := pointwise_kernel_range x subset.start subset.end_ x.GetInfo.GetNumCBSites 0
      x.GetNCol 0 x.GetNumColorSpin (Nat.le_refl _) (Nat.le_refl _)
      (fun cb site col cspin (xs : CoarseSpinor R) =>
        (xs.store (x.GetSiteDataPtr col cb site) (RE + n_complex * cspin)
          (xs.load (x.GetSiteDataPtr col cb site) (RE + n_complex * cspin) *
            alpha.getD col 0)).store
          (x.GetSiteDataPtr col cb site) (IM + n_complex * cspin)
          ((xs.store (x.GetSiteDataPtr col cb site) (RE + n_complex * cspin)
            (xs.load (x.GetSiteDataPtr col cb site) (RE + n_complex * cspin) *
              alpha.getD col 0)).load (x.GetSiteDataPtr col cb site)
                (IM + n_complex * cspin) * alpha.getD col 0))
      (fun _ _ col _ v => v.smulReal (alpha.getD col 0))
      (by
        intro cb site col cspin xs c a
        beta_reduce
        rw [CoarseSpinor.load_store_re_im]
        rfl) x cb site col cspin h4 h5
    rw [if_pos ⟨⟨h1, h2⟩, h3, ⟨Nat.zero_le _, h4⟩, ⟨Nat.zero_le _, h5⟩⟩] at h
    unfold ScaleVec
    simp only [hlen, not_true_eq_false, if_false, Run.state]
    exact h

/-- The entry-wise description of the complex overload of `ScaleVec`. -/
theorem ScaleVecComplex_entry (alpha : List (Cplx R)) (x : CoarseSpinor R)
    (subset : CBSubset) :
    (ScaleVecComplex alpha x subset).isFatal = false ∧
    ∀ cb site col cspin, subset.start ≤ cb → cb < subset.end_ →
      site < x.GetInfo.GetNumCBSites → col < x.GetNCol → cspin < x.GetNumColorSpin →
      (ScaleVecComplex alpha x subset).state.loadC (x.GetSiteDataPtr col cb site) cspin =
        alpha.getD col 0 * x.loadC (x.GetSiteDataPtr col cb site) cspin := by
  refine ⟨rfl, ?_⟩
  intro cb site col cspin h1 h2 h3 h4 h5
  have h := pointwise_kernel_range x subset.start subset.end_ x.GetInfo.GetNumCBSites 0
    x.GetNCol 0 x.GetNumColorSpin (Nat.le_refl _) (Nat.le_refl _)
    (fun cb site col cspin (xs : CoarseSpinor R) =>
      (xs.store (x.GetSiteDataPtr col cb site) (RE + n_complex * cspin)
        ((⟨xs.load (x.GetSiteDataPtr col cb site) (RE + n_complex * cspin),
          xs.load (x.GetSiteDataPtr col cb site) (IM + n_complex * cspin)⟩ : Cplx R) *
            alpha.getD col 0).re).store
        (x.GetSiteDataPtr col cb site) (IM + n_complex * cspin)
        ((⟨xs.load (x.GetSiteDataPtr col cb site) (RE + n_complex * cspin),
          xs.load (x.GetSiteDataPtr col cb site) (IM + n_complex * cspin)⟩ : Cplx R) *
            alpha.getD col 0).im)
    (fun _ _ col _ v => v * alpha.getD col 0)
    (fun _ _ _ _ _ _ _ => rfl) x cb site col cspin h4 h5
  rw [if_pos ⟨⟨h1, h2⟩, h3, ⟨Nat.zero_le _, h4⟩, ⟨Nat.zero_le _, h5⟩⟩] at h
  rw [Cplx.mul_comm]
  exact h

/-- C20: for every field `x`, every subset and every scalar vector `alpha` with one scalar per
column, `ScaleVec(alpha, x, subset)` returns and leaves in each complex entry of column `c`
of `x` on the subset `alpha[c]` times the old entry: for the real overload the real and the
imaginary part are each multiplied by `alpha[c]`, for the complex overload the entry is
multiplied by `alpha[c]` as a complex number. -/
theorem ScaleVec_scales_columns (x : CoarseSpinor R) (subset : CBSubset) :
    (∀ (alpha : List R) (hlen : alpha.length = x.GetNCol),
      (ScaleVec alpha x subset).isFatal = false ∧
      ∀ cb site col cspin (hcol : col < x.GetNCol), subset.start ≤ cb → cb < subset.end_ →
        site < x.GetInfo.GetNumCBSites → cspin < x.GetNumColorSpin →
        (ScaleVec alpha x subset).state.load (x.GetSiteDataPtr col cb site)
            (RE + n_complex * cspin) =
          alpha.get ⟨col, hlen ▸ hcol⟩ *
            x.load (x.GetSiteDataPtr col cb site) (RE + n_complex * cspin) ∧
        (ScaleVec alpha x subset).state.load (x.GetSiteDataPtr col cb site)
            (IM + n_complex * cspin) =
          alpha.get ⟨col, hlen ▸ hcol⟩ *
            x.load (x.GetSiteDataPtr col cb site) (IM + n_complex * cspin)) ∧
    (∀ (alpha : List (Cplx R)) (hlen : alpha.length = x.GetNCol),
      (ScaleVecComplex alpha x subset).isFatal = false ∧
      ∀ cb site col cspin (hcol : col < x.GetNCol), subset.start ≤ cb → cb < subset.end_ →
        site < x.GetInfo.GetNumCBSites → cspin < x.GetNumColorSpin →
        (ScaleVecComplex alpha x subset).state.loadC (x.GetSiteDataPtr col cb site) cspin =
          alpha.get ⟨col, hlen ▸ hcol⟩ * x.loadC (x.GetSiteDataPtr col cb site) cspin) := by
  refine ⟨?_, ?_⟩
  · intro alpha hlen
    obtain ⟨h0, h⟩ := ScaleVec_entry alpha x subset hlen
    refine ⟨h0, ?_⟩
    intro cb site col cspin hcol h1 h2 h3 h5
    have hh := h cb site col cspin h1 h2 h3 hcol h5
    rw [getD_eq_get_of_lt alpha 0 col (hlen ▸ hcol)] at hh
    have hre := congrArg Cplx.re hh
    have him := congrArg Cplx.im hh
    simp only [Cplx.smulReal_re, Cplx.smulReal_im] at hre him
    exact ⟨hre.trans (mul_comm _ _), him.trans (mul_comm _ _)⟩
  · intro alpha hlen
    obtain ⟨h0, h⟩ := ScaleVecComplex_entry alpha x subset
    refine ⟨h0, ?_⟩
    intro cb site col cspin hcol h1 h2 h3 h5
    have hh := h cb site col cspin h1 h2 h3 hcol h5
    rw [getD_eq_get_of_lt alpha 0 col (hlen ▸ hcol)] at hh
    exact hh

/-- C17: for compatible fields `r`, `v`, `p` such that `p` has the columns of `r`, per-column
complex scalars `beta` and `omega` (a scalar for each column of `r`) and every subset,
`BiCGStabPUpdate(beta, r, omega, v, p, subset)` returns and leaves in every complex entry of
column `c` of `p` on the subset `r + beta[c] * (old_p - omega[c] * v)`.  The operands `r` and
`v` are `const`: they are not part of the mutated state. -/
theorem BiCGStabPUpdate_entries (beta omega : List (Cplx R)) (r v p : CoarseSpinor R)
    (subset : CBSubset) (hrp : AssertCompatible r.GetInfo p.GetInfo = true)
    (hvr : AssertCompatible v.GetInfo r.GetInfo = true) (hcols : r.GetNCol ≤ p.GetNCol)
    (hbeta : r.GetNCol ≤ beta.length) (homega : r.GetNCol ≤ omega.length) :
    (BiCGStabPUpdate beta r omega v p subset).isFatal = false ∧
    ∀ cb site col cspin (hcol : col < r.GetNCol), subset.start ≤ cb → cb < subset.end_ →
      site < p.GetInfo.GetNumCBSites → cspin < p.GetNumColorSpin →
      (BiCGStabPUpdate beta r omega v p subset).state.loadC (p.GetSiteDataPtr col cb site)
          cspin =
        r.loadC (r.GetSiteDataPtr col cb site) cspin +
          beta.get ⟨col, Nat.lt_of_lt_of_le hcol hbeta⟩ *
            (p.loadC (p.GetSiteDataPtr col cb site) cspin -
              omega.get ⟨col, Nat.lt_of_lt_of_le hcol homega⟩ *
                v.loadC (v.GetSiteDataPtr col cb site) cspin) := by
  refine ⟨?_, ?_⟩
  · unfold BiCGStabPUpdate
    simp only [hrp, hvr, Bool.not_true, Bool.false_eq_true, if_false, Run.isFatal]
  · intro cb site col cspin hcol h1 h2 h3 h5
    have h := pointwise_kernel_range p subset.start subset.end_ p.GetInfo.GetNumCBSites 0
      r.GetNCol 0 p.GetNumColorSpin hcols (Nat.le_refl _)
      (fun cb site col cspin (ps : CoarseSpinor R) =>
        (ps.store (p.GetSiteDataPtr col cb site) (RE + n_complex * cspin)
          (r.loadC (r.GetSiteDataPtr col cb site) cspin + beta.getD col 0 *
            (ps.loadC (p.GetSiteDataPtr col cb site) cspin - omega.getD col 0 *
              v.loadC (v.GetSiteDataPtr col cb site) cspin)).re).store
          (p.GetSiteDataPtr col cb site) (IM + n_complex * cspin)
          (r.loadC (r.GetSiteDataPtr col cb site) cspin + beta.getD col 0 *
            (ps.loadC (p.GetSiteDataPtr col cb site) cspin - omega.getD col 0 *
              v.loadC (v.GetSiteDataPtr col cb site) cspin)).im)
      (fun cb site col cspin c_p =>
        r.loadC (r.GetSiteDataPtr col cb site) cspin + beta.getD col 0 *
          (c_p - omega.getD col 0 * v.loadC (v.GetSiteDataPtr col cb site) cspin))
      (fun _ _ _ _ _ _ _ => rfl) p cb site col cspin (by omega) h5
    rw [if_pos ⟨⟨h1, h2⟩, h3, ⟨Nat.zero_le _, hcol⟩, ⟨Nat.zero_le _, h5⟩⟩] at h
    rw [← getD_eq_get_of_lt beta 0 col (Nat.lt_of_lt_of_le hcol hbeta),
      ← getD_eq_get_of_lt omega 0 col (Nat.lt_of_lt_of_le hcol homega)]
    unfold BiCGStabPUpdate
    simp only [hrp, hvr, Bool.not_true, Bool.false_eq_true, if_false, Run.state]
    exact h

/-- C18: for compatible fields `r`, `p`, `x`, per-column complex scalars `omega` and `alpha` (a
scalar for each column of `x`) and every subset, `BiCGStabXUpdate(omega, r, alpha, p, x,
subset)` returns and leaves in every complex entry of column `c` of `x` on the subset
`old_x + omega[c] * r + alpha[c] * p`.  The operands `r` and `p` are `const`: they are not
part of the mutated state. -/
theorem BiCGStabXUpdate_entries (omega alpha : List (Cplx R)) (r p x : CoarseSpinor R)
    (subset : CBSubset) (hrp : AssertCompatible r.GetInfo p.GetInfo = true)
    (hxr : AssertCompatible x.GetInfo r.GetInfo = true)
    (homega : x.GetNCol ≤ omega.length) (halpha : x.GetNCol ≤ alpha.length) :
    (BiCGStabXUpdate omega r alpha p x subset).isFatal = false ∧
    ∀ cb site col cspin (hcol : col < x.GetNCol), subset.start ≤ cb → cb < subset.end_ →
      site < x.GetInfo.GetNumCBSites → cspin < x.GetNumColorSpin →
      (BiCGStabXUpdate omega r alpha p x subset).state.loadC (x.GetSiteDataPtr col cb site)
          cspin =
        x.loadC (x.GetSiteDataPtr col cb site) cspin +
          omega.get ⟨col, Nat.lt_of_lt_of_le hcol homega⟩ *
            r.loadC (r.GetSiteDataPtr col cb site) cspin +
          alpha.get ⟨col, Nat.lt_of_lt_of_le hcol halpha⟩ *
            p.loadC (p.GetSiteDataPtr col cb site) cspin := by
  refine ⟨?_, ?_⟩
  · unfold BiCGStabXUpdate
    simp only [hrp, hxr, Bool.not_true, Bool.false_eq_true, if_false, Run.isFatal]
  · intro cb site col cspin hcol h1 h2 h3 h5
    have h := pointwise_kernel_range x subset.start subset.end_ x.GetInfo.GetNumCBSites 0
      x.GetNCol 0 x.GetNumColorSpin (Nat.le_refl _) (Nat.le_refl _)
      (fun cb site col cspin (xs : CoarseSpinor R) =>
        (xs.store (x.GetSiteDataPtr col cb site) (RE + n_complex * cspin)
          (xs.load (x.GetSiteDataPtr col cb site) (RE + n_complex * cspin) +
            (omega.getD col 0 * r.loadC (r.GetSiteDataPtr col cb site) cspin +
              alpha.getD col 0 * p.loadC (p.GetSiteDataPtr col cb site) cspin).re)).store
          (x.GetSiteDataPtr col cb site) (IM + n_complex * cspin)
          ((xs.store (x.GetSiteDataPtr col cb site) (RE + n_complex * cspin)
            (xs.load (x.GetSiteDataPtr col cb site) (RE + n_complex * cspin) +
              (omega.getD col 0 * r.loadC (r.GetSiteDataPtr col cb site) cspin +
                alpha.getD col 0 * p.loadC (p.GetSiteDataPtr col cb site) cspin).re)).load
            (x.GetSiteDataPtr col cb site) (IM + n_complex * cspin) +
            (omega.getD col 0 * r.loadC (r.GetSiteDataPtr col cb site) cspin +
              alpha.getD col 0 * p.loadC (p.GetSiteDataPtr col cb site) cspin).im))
      (fun cb site col cspin c_x =>
        c_x + (omega.getD col 0 * r.loadC (r.GetSiteDataPtr col cb site) cspin +
          alpha.getD col 0 * p.loadC (p.GetSiteDataPtr col cb site) cspin))
      (by
        intro cb site col cspin xs c a
        beta_reduce
        rw [CoarseSpinor.load_store_re_im]
        rfl) x cb site col cspin hcol h5
    rw [if_pos ⟨⟨h1, h2⟩, h3, ⟨Nat.zero_le _, hcol⟩, ⟨Nat.zero_le _, h5⟩⟩] at h
    rw [← getD_eq_get_of_lt omega 0 col (Nat.lt_of_lt_of_le hcol homega),
      ← getD_eq_get_of_lt alpha 0 col (Nat.lt_of_lt_of_le hcol halpha), add_assoc]
    unfold BiCGStabXUpdate
    simp only [hrp, hxr, Bool.not_true, Bool.false_eq_true, if_false, Run.state]
    exact h

end ElementWise

/-! ## Properties of the copying kernels -/

section Copying

variable {R : Type}

theorem CoarseSpinor.GetSiteDataPtrInt_natCast {S : Type} (x : CoarseSpinor S)
    (a col cb site : Nat) :
    x.GetSiteDataPtrInt ((a : Int) + (col : Int)) cb site =
      x.GetSiteDataPtr (a + col) cb site := by
  have h : ((site * x.GetNCol : Nat) : Int) + ((a : Int) + (col : Int)) =
      ((site * x.GetNCol + (a + col) : Nat) : Int) := by
    push_cast
    ring
  simp only [CoarseSpinor.GetSiteDataPtrInt, CoarseSpinor.GetSiteDataPtr, h, Int.toNat_ofNat]

/-- A loop over `a + i` for `i < n` is the loop over `[a, a + n)`. -/
theorem forLoop_shift {σ : Type} (a n : Nat) (body : Nat → σ → σ) (s : σ) :
    forLoop 0 n (fun i => body (a + i)) s = forLoop a (a + n) body s := by
  induction n with
  | zero => rw [forLoop_empty 0 0 (Nat.le_refl _), forLoop_empty a (a + 0) (Nat.le_refl _)]
  | succ n ih =>
    rw [forLoop_succ_right 0 n (Nat.zero_le _), ih]
    have e : a + (n + 1) = (a + n) + 1 := by omega
    rw [e, forLoop_succ_right a (a + n) (Nat.le_add_right _ _)]

/-- The final state of a `CopyVec` call whose assertions pass, for column arguments that are
not negative: the loops over the destination columns `[xcol0, xcol1)`. -/
theorem CopyVec_state (x y : CoarseSpinor R) (xcol0 xcol1 ycol0 : Nat) (subset : CBSubset)
    (hcompat : AssertCompatible x.GetInfo y.GetInfo = true) (h01 : xcol0 ≤ xcol1)
    (h1 : xcol1 ≤ x.GetNCol) (hy : ycol0 + (xcol1 - xcol0) ≤ y.GetNCol) :
    CopyVec x (xcol0 : Int) (xcol1 : Int) y (ycol0 : Int) subset =
      Run.ret (forLoop subset.start subset.end_ (fun cb =>
        forLoop 0 x.GetInfo.GetNumCBSites (fun site =>
          forLoop xcol0 xcol1 (fun col =>
            forLoop 0 x.GetNumColorSpin (fun cspin (xs : CoarseSpinor R) =>
              (xs.store (x.GetSiteDataPtr col cb site) (RE + n_complex * cspin)
                (y.load (y.GetSiteDataPtr (ycol0 + (col - xcol0)) cb site)
                  (RE + n_complex * cspin))).store
                (x.GetSiteDataPtr col cb site) (IM + n_complex * cspin)
                (y.load (y.GetSiteDataPtr (ycol0 + (col - xcol0)) cb site)
                  (IM + n_complex * cspin)))))) x) () := by
  have hmax : max (0 : Int) ((xcol1 : Int) - (xcol0 : Int)) = ((xcol1 - xcol0 : Nat) : Int) := by
    rw [Int.ofNat_sub h01]
    apply max_eq_right
    omega
  have ha1 : ((xcol1 : Int) ≤ (x.GetNCol : Int)) := by exact_mod_cast h1
  have ha2 : ((ycol0 : Int) + ((xcol1 - xcol0 : Nat) : Int) ≤ (y.GetNCol : Int)) := by
    exact_mod_cast hy
  unfold CopyVec
  simp only [hcompat, Bool.not_true, Bool.false_eq_true, if_false, hmax, ha1, ha2,
    not_true_eq_false, Int.toNat_ofNat]
  congr 1
  apply forLoop_congr
  intro cb _ _ st
  apply forLoop_congr
  intro site _ _ st
  have hshift := forLoop_shift xcol0 (xcol1 - xcol0) (fun col =>
    forLoop 0 x.GetNumColorSpin (fun cspin (xs : CoarseSpinor R) =>
      (xs.store (x.GetSiteDataPtr col cb site) (RE + n_complex * cspin)
        (y.load (y.GetSiteDataPtr (ycol0 + (col - xcol0)) cb site)
          (RE + n_complex * cspin))).store
        (x.GetSiteDataPtr col cb site) (IM + n_complex * cspin)
        (y.load (y.GetSiteDataPtr (ycol0 + (col - xcol0)) cb site)
          (IM + n_complex * cspin)))) st
  have e : xcol0 + (xcol1 - xcol0) = xcol1 := by omega
  rw [e] at hshift
  rw [← hshift]
  apply forLoop_congr
  intro col _ _ st
  simp only [CoarseSpinor.GetSiteDataPtrInt_natCast, Nat.add_sub_cancel_left]

/-- C14: for compatible fields `x` (destination) and `y` (source), a column range
`0 ≤ xcol0 ≤ xcol1 ≤ columns(x)`, a source base `ycol0 ≥ 0` with
`ycol0 + (xcol1 - xcol0) ≤ columns(y)` and every subset, `CopyVec(x, xcol0, xcol1, y, ycol0,
subset)` returns; for every `k < xcol1 - xcol0` every complex entry of column `xcol0 + k` of
`x` on the subset is the entry of column `ycol0 + k` of `y`; every entry of a column of `x`
outside `[xcol0, xcol1)` keeps its value.  The operand `y` is `const`: it is not part of the
mutated state. -/
theorem CopyVec_copies_columns (x y : CoarseSpinor R) (xcol0 xcol1 ycol0 : Nat)
    (subset : CBSubset) (hcompat : AssertCompatible x.GetInfo y.GetInfo = true)
    (h01 : xcol0 ≤ xcol1) (h1 : xcol1 ≤ x.GetNCol)
    (hy : ycol0 + (xcol1 - xcol0) ≤ y.GetNCol) :
    (CopyVec x (xcol0 : Int) (xcol1 : Int) y (ycol0 : Int) subset).isFatal = false ∧
    (∀ k cb site cspin, k < xcol1 - xcol0 → subset.start ≤ cb → cb < subset.end_ →
      site < x.GetInfo.GetNumCBSites → cspin < x.GetNumColorSpin →
      (CopyVec x (xcol0 : Int) (xcol1 : Int) y (ycol0 : Int) subset).state.loadC
          (x.GetSiteDataPtr (xcol0 + k) cb site) cspin =
        y.loadC (y.GetSiteDataPtr (ycol0 + k) cb site) cspin) ∧
    (∀ col cb site cspin, col < x.GetNCol → (col < xcol0 ∨ xcol1 ≤ col) →
      cspin < x.GetNumColorSpin →
      (CopyVec x (xcol0 : Int) (xcol1 : Int) y (ycol0 : Int) subset).state.loadC
          (x.GetSiteDataPtr col cb site) cspin =
        x.loadC (x.GetSiteDataPtr col cb site) cspin) := by
  rw [CopyVec_state x y xcol0 xcol1 ycol0 subset hcompat h01 h1 hy]
  have h := pointwise_kernel_range x subset.start subset.end_ x.GetInfo.GetNumCBSites xcol0
    xcol1 0 x.GetNumColorSpin h1 (Nat.le_refl _)
    (fun cb site col cspin (xs : CoarseSpinor R) =>
      (xs.store (x.GetSiteDataPtr col cb site) (RE + n_complex * cspin)
        (y.load (y.GetSiteDataPtr (ycol0 + (col - xcol0)) cb site)
          (RE + n_complex * cspin))).store
        (x.GetSiteDataPtr col cb site) (IM + n_complex * cspin)
        (y.load (y.GetSiteDataPtr (ycol0 + (col - xcol0)) cb site)
          (IM + n_complex * cspin)))
    (fun cb site col cspin _ =>
      y.loadC (y.GetSiteDataPtr (ycol0 + (col - xcol0)) cb site) cspin)
    (fun _ _ _ _ _ _ _ => rfl) x
  refine ⟨rfl, ?_, ?_⟩
  · intro k cb site cspin hk h2 h3 h4 h5
    have hh := h cb site (xcol0 + k) cspin (by omega) h5
    rw [if_pos ⟨⟨h2, h3⟩, h4, ⟨by omega, by omega⟩, ⟨Nat.zero_le _, h5⟩⟩] at hh
    simp only [Nat.add_sub_cancel_left] at hh
    exact hh
  · intro col cb site cspin hcol hout h5
    have hh := h cb site col cspin hcol h5
    rw [if_neg (fun hin => by omega)] at hh
    exact hh

/-- C15 (amended): for every call `CopyVec(x, xcol0, xcol1, y, ycol0, subset)` on compatible
fields whose clamped length `max(0, xcol1 - xcol0)` is `0`, `x` is left unchanged; the call
returns normally exactly when `xcol1 ≤ columns(x)` and `ycol0 ≤ columns(y)`, since the two
assertions are checked for an empty range too.  The operand `y` is `const`. -/
theorem CopyVec_empty_range (x y : CoarseSpinor R) (xcol0 xcol1 ycol0 : Int)
    (subset : CBSubset) (hcompat : AssertCompatible x.GetInfo y.GetInfo = true)
    (hlen : max 0 (xcol1 - xcol0) = 0) :
    (CopyVec x xcol0 xcol1 y ycol0 subset).state = x ∧
    ((CopyVec x xcol0 xcol1 y ycol0 subset).isFatal = false ↔
      (xcol1 ≤ (x.GetNCol : Int) ∧ ycol0 ≤ (y.GetNCol : Int))) := by
  unfold CopyVec
  simp only [hcompat, Bool.not_true, Bool.false_eq_true, if_false, hlen, add_zero,
    Int.toNat_zero]
  by_cases ha : xcol1 ≤ (x.GetNCol : Int)
  · by_cases hb : ycol0 ≤ (y.GetNCol : Int)
    · simp only [ha, hb, not_true_eq_false, if_false, Run.state, Run.isFatal, and_self,
        iff_true, and_true]
      apply forLoop_obs_frame (fun xs : CoarseSpinor R => xs)
      intro cb _ _ st
      apply forLoop_obs_frame (fun xs : CoarseSpinor R => xs)
      intro site _ _ st
      exact forLoop_empty 0 0 (Nat.le_refl _) _ st
    · simp [ha, hb, Run.state, Run.isFatal]
  · simp [ha, Run.state, Run.isFatal]

/-- C15 (as stated) fails: on the compatible two-column fields `xTwoCol`, `yTwoCol` the call
`CopyVec(x, 5, 3, y, 0, subset)` has the clamped length `max(0, 3 - 5) = 0` and stops at the
assertion `xcol1 <= xncol`. -/
theorem CopyVec_zero_length_fatal :
    AssertCompatible xTwoCol.GetInfo yTwoCol.GetInfo = true ∧
    max (0 : Int) (3 - 5) = 0 ∧
    (CopyVec xTwoCol 5 3 yTwoCol 0 SUBSET_ALL).isFatal = true := by
  decide

/-- C16 (amended): `CopyVec(x, xcol0, xcol1, y, ycol0, subset)` on compatible fields with a
non-empty range stops at a fatal assertion, with `x` unchanged, whenever the destination range
ends above the columns of `x` (`xcol1 > columns(x)`) or the source range ends above the
columns of `y` (`ycol0 + (xcol1 - xcol0) > columns(y)`). -/
theorem CopyVec_rejects_overrun (x y : CoarseSpinor R) (xcol0 xcol1 ycol0 : Int)
    (subset : CBSubset) (hcompat : AssertCompatible x.GetInfo y.GetInfo = true)
    (hne : xcol0 < xcol1)
    (hover : (x.GetNCol : Int) < xcol1 ∨ (y.GetNCol : Int) < ycol0 + (xcol1 - xcol0)) :
    (CopyVec x xcol0 xcol1 y ycol0 subset).isFatal = true ∧
    (CopyVec x xcol0 xcol1 y ycol0 subset).state = x := by
  have hmax : max 0 (xcol1 - xcol0) = xcol1 - xcol0 := max_eq_right (by omega)
  unfold CopyVec
  simp only [hcompat, Bool.not_true, Bool.false_eq_true, if_false, hmax]
  by_cases ha : xcol1 ≤ (x.GetNCol : Int)
  · have hb : ¬ (ycol0 + (xcol1 - xcol0) ≤ (y.GetNCol : Int)) := by omega
    simp [ha, hb, Run.state, Run.isFatal]
  · simp [ha, Run.state, Run.isFatal]

/-- C16 (as stated) fails: on the compatible two-column fields `xTwoCol`, `yTwoCol` the call
`CopyVec(x, -1, 1, y, 0, subset)` has the non-empty destination range `[-1, 1)`, which is not
contained in `[0, 2)`, and passes both assertions. -/
theorem CopyVec_negative_base_accepted :
    AssertCompatible xTwoCol.GetInfo yTwoCol.GetInfo = true ∧
    ((-1 : Int) < 1 ∧ (-1 : Int) < 0) ∧
    (CopyVec xTwoCol (-1) 1 yTwoCol 0 SUBSET_ALL).isFatal = false := by
  decide

end Copying

/-! ## Properties of `GetColumns` and `PutColumns` -/

section Columns

variable {R : Type}

/-- The buffer position of an in-range entry without the column term is below the bound
`2 * numColorSpin * numCBSites * (end - start)` on the leading dimension. -/
theorem columns_inner_lt (ncs ns w r cspin site d : Nat) (hr : r < 2) (hk : cspin < ncs)
    (hsite : site < ns) (hd : d < w) :
    r + 2 * cspin + (d * ns + site) * ncs * 2 < 2 * ncs * ns * w := by
  have h1 : (d * ns + site) + 1 ≤ w * ns := by
    have := Nat.mul_le_mul_right ns (show d + 1 ≤ w from hd)
    rw [Nat.add_mul, Nat.one_mul] at this
    omega
  have h2 : ((d * ns + site) + 1) * (ncs * 2) ≤ (w * ns) * (ncs * 2) :=
    Nat.mul_le_mul_right _ h1
  have h3 : (w * ns) * (ncs * 2) = 2 * ncs * ns * w := by ring
  have h4 : ((d * ns + site) + 1) * (ncs * 2) = (d * ns + site) * ncs * 2 + ncs * 2 := by ring
  omega

/-- With a leading dimension of at least `2 * numColorSpin * numCBSites * (end - start)` two
in-range entries have the same buffer position only if they are the same entry. -/
theorem columns_index_inj (ncs ns w ld : Nat) (hld : 2 * ncs * ns * w ≤ ld)
    (r cspin site d col r2 cspin2 site2 d2 col2 : Nat)
    (hr : r < 2) (hk : cspin < ncs) (hsite : site < ns) (hd : d < w)
    (hr2 : r2 < 2) (hk2 : cspin2 < ncs) (hsite2 : site2 < ns) (hd2 : d2 < w)
    (h : r + 2 * cspin + (d * ns + site) * ncs * 2 + ld * col =
      r2 + 2 * cspin2 + (d2 * ns + site2) * ncs * 2 + ld * col2) :
    d = d2 ∧ site = site2 ∧ col = col2 ∧ cspin = cspin2 ∧ r = r2 := by
  have b1 := columns_inner_lt ncs ns w r cspin site d hr hk hsite hd
  have b2 := columns_inner_lt ncs ns w r2 cspin2 site2 d2 hr2 hk2 hsite2 hd2
  have h1 : col * ld + (r + 2 * cspin + (d * ns + site) * ncs * 2) =
      col2 * ld + (r2 + 2 * cspin2 + (d2 * ns + site2) * ncs * 2) := by
    rw [Nat.mul_comm col, Nat.mul_comm col2]
    omega
  obtain ⟨hcol, hin⟩ := mul_add_lt_inj ld _ _ _ _ (by omega) (by omega) h1
  have h2 : (d * ns + site) * (ncs * 2) + (r + 2 * cspin) =
      (d2 * ns + site2) * (ncs * 2) + (r2 + 2 * cspin2) := by
    rw [← Nat.mul_assoc, ← Nat.mul_assoc]
    omega
  obtain ⟨hA, hrk⟩ := mul_add_lt_inj (ncs * 2) _ _ _ _ (by omega) (by omega) h2
  obtain ⟨hdd, hss⟩ := mul_add_lt_inj ns _ _ _ _ hsite hsite2 hA
  exact ⟨hdd, hss, hcol, by omega, by omega⟩

/-- The position formula of the specification is the index expression of the source. -/
theorem columnIndex_eq (ncs ns start ld r cspin site cb col : Nat) :
    columnIndex ncs ns start ld r cspin site cb col =
      r + n_complex * cspin + ((cb - start) * ns + site) * ncs * n_complex + ld * col := by
  simp only [columnIndex, n_complex]
  ring

theorem bufWrite_apply (y : Nat → R) (i : Nat) (v : R) (j : Nat) :
    bufWrite y i v j = if j = i then v else y j := rfl

/-- With a valid leading dimension, after `GetColumns` the buffer holds every in-range entry
of `x` at the position the source computes for it. -/
theorem GetColumns_buffer (x : CoarseSpinor R) (subset : CBSubset) (y : Nat → R) (ld : Nat)
    (hld : n_complex * x.GetNumColorSpin * x.GetInfo.GetNumCBSites *
      (subset.end_ - subset.start) ≤ ld)
    (r cspin site cb col : Nat) (hr : r < n_complex) (hk : cspin < x.GetNumColorSpin)
    (hsite : site < x.GetInfo.GetNumCBSites) (hcb1 : subset.start ≤ cb)
    (hcb2 : cb < subset.end_) (hcol : col < x.GetNCol) :
    (GetColumns x subset y ld).state
        (r + n_complex * cspin +
          ((cb - subset.start) * x.GetInfo.GetNumCBSites + site) * x.GetNumColorSpin *
            n_complex + ld * col) =
      x.load (x.GetSiteDataPtr col cb site) (r + n_complex * cspin) := by
  have hld2 : 2 * x.GetNumColorSpin * x.GetInfo.GetNumCBSites * (subset.end_ - subset.start) ≤
      ld := hld
  have h := kernelLoop_obs
    (fun b : Nat → R => b (r + n_complex * cspin +
      ((cb - subset.start) * x.GetInfo.GetNumCBSites + site) * x.GetNumColorSpin *
        n_complex + ld * col))
    (fun _ => x.load (x.GetSiteDataPtr col cb site) (r + n_complex * cspin))
    subset.start subset.end_ x.GetInfo.GetNumCBSites 0 x.GetNCol 0 x.GetNumColorSpin
    (fun cb2 site2 col2 cspin2 (ys : Nat → R) =>
      bufWrite (bufWrite ys
        (RE + n_complex * cspin2 +
          ((cb2 - subset.start) * x.GetInfo.GetNumCBSites + site2) * x.GetNumColorSpin *
            n_complex + ld * col2)
        (x.load (x.GetSiteDataPtr col2 cb2 site2) (RE + n_complex * cspin2)))
        (IM + n_complex * cspin2 +
          ((cb2 - subset.start) * x.GetInfo.GetNumCBSites + site2) * x.GetNumColorSpin *
            n_complex + ld * col2)
        (x.load (x.GetSiteDataPtr col2 cb2 site2) (IM + n_complex * cspin2)))
    cb site col cspin
    (by
      intro cb2 site2 col2 cspin2 g1 g2 g3 _ g5 _ g7 st
      have inj := fun r2 (hr2 : r2 < 2) hh =>
        columns_index_inj x.GetNumColorSpin x.GetInfo.GetNumCBSites
          (subset.end_ - subset.start) ld hld2 r cspin site (cb - subset.start) col
          r2 cspin2 site2 (cb2 - subset.start) col2 hr hk hsite (by omega) hr2 g7 g3
          (by omega) hh
      simp only [bufWrite_apply]
      simp only [n_complex, RE, IM] at inj hr ⊢
      by_cases hkey : cb2 = cb ∧ site2 = site ∧ col2 = col ∧ cspin2 = cspin
      · obtain ⟨rfl, rfl, rfl, rfl⟩ := hkey
        have hr01 : r = 0 ∨ r = 1 := by omega
        rcases hr01 with rfl | rfl
        · simp
        · simp
      · have n0 : ¬ (r + 2 * cspin +
              ((cb - subset.start) * x.GetInfo.GetNumCBSites + site) * x.GetNumColorSpin * 2 +
              ld * col =
            0 + 2 * cspin2 +
              ((cb2 - subset.start) * x.GetInfo.GetNumCBSites + site2) * x.GetNumColorSpin *
                2 + ld * col2) := by
          intro hh
          obtain ⟨e1, e2, e3, e4, _⟩ := inj 0 (by omega) hh
          exact hkey ⟨by omega, e2.symm, e3.symm, e4.symm⟩
        have n1 : ¬ (r + 2 * cspin +
              ((cb - subset.start) * x.GetInfo.GetNumCBSites + site) * x.GetNumColorSpin * 2 +
              ld * col =
            1 + 2 * cspin2 +
              ((cb2 - subset.start) * x.GetInfo.GetNumCBSites + site2) * x.GetNumColorSpin *
                2 + ld * col2) := by
          intro hh
          obtain ⟨e1, e2, e3, e4, _⟩ := inj 1 (by omega) hh
          exact hkey ⟨by omega, e2.symm, e3.symm, e4.symm⟩
        rw [if_neg n1, if_neg n0, if_neg hkey]) y
  rw [if_pos ⟨⟨hcb1, hcb2⟩, hsite, ⟨Nat.zero_le _, hcol⟩, ⟨Nat.zero_le _, hk⟩⟩] at h
  exact h

/-- On a range with `start ≤ end`, when its assertion passes, `PutColumns` returns and leaves
in every in-range complex entry of `x` the two buffer values at the positions the source
computes for it. -/
theorem PutColumns_entry (y : Nat → R) (ld : Nat) (x : CoarseSpinor R) (subset : CBSubset)
    (_ : subset.start ≤ subset.end_)
    (hld : n_complex * x.GetNumColorSpin * x.GetInfo.GetNumCBSites *
      (subset.end_ - subset.start) ≤ ld) :
    (PutColumns y ld x subset).isFatal = false ∧
    ∀ cb site col cspin, subset.start ≤ cb → cb < subset.end_ →
      site < x.GetInfo.GetNumCBSites → col < x.GetNCol → cspin < x.GetNumColorSpin →
      (PutColumns y ld x subset).state.loadC (x.GetSiteDataPtr col cb site) cspin =
        ⟨y (RE + n_complex * cspin +
            ((cb - subset.start) * x.GetInfo.GetNumCBSites + site) * x.GetNumColorSpin *
              n_complex + ld * col),
          y (IM + n_complex * cspin +
            ((cb - subset.start) * x.GetInfo.GetNumCBSites + site) * x.GetNumColorSpin *
              n_complex + ld * col)⟩ := by
  have hge : ld ≥ n_complex * x.GetNumColorSpin * x.GetInfo.GetNumCBSites *
      (subset.end_ - subset.start) := hld
  refine ⟨?_, ?_⟩
  · unfold PutColumns
    simp only [hge, not_true_eq_false, if_false, Run.isFatal]
  · intro cb site col cspin h1 h2 h3 h4 h5
    have h := pointwise_kernel_range x subset.start subset.end_ x.GetInfo.GetNumCBSites 0
      x.GetNCol 0 x.GetNumColorSpin (Nat.le_refl _) (Nat.le_refl _)
      (fun cb site col cspin (xs : CoarseSpinor R) =>
        (xs.store (x.GetSiteDataPtr col cb site) (RE + n_complex * cspin)
          (y (RE + n_complex * cspin +
            ((cb - subset.start) * x.GetInfo.GetNumCBSites + site) * x.GetNumColorSpin *
              n_complex + ld * col))).store
          (x.GetSiteDataPtr col cb site) (IM + n_complex * cspin)
          (y (IM + n_complex * cspin +
            ((cb - subset.start) * x.GetInfo.GetNumCBSites + site) * x.GetNumColorSpin *
              n_complex + ld * col)))
      (fun cb site col cspin _ =>
        ⟨y (RE + n_complex * cspin +
            ((cb - subset.start) * x.GetInfo.GetNumCBSites + site) * x.GetNumColorSpin *
              n_complex + ld * col),
          y (IM + n_complex * cspin +
            ((cb - subset.start) * x.GetInfo.GetNumCBSites + site) * x.GetNumColorSpin *
              n_complex + ld * col)⟩)
      (fun _ _ _ _ _ _ _ => rfl) x cb site col cspin h4 h5
    rw [if_pos ⟨⟨h1, h2⟩, h3, ⟨Nat.zero_le _, h4⟩, ⟨Nat.zero_le _, h5⟩⟩] at h
    unfold PutColumns
    simp only [hge, not_true_eq_false, if_false, Run.state]
    exact h

/-- The assertion of `PutColumns` on a range with `start ≤ end`: the call stops, with `x`
unchanged, exactly when `ld` is below `2 * numColorSpin * numCBSites * (end - start)`. -/
theorem PutColumns_fatal_iff (y : Nat → R) (ld : Nat) (x : CoarseSpinor R)
    (subset : CBSubset) (_ : subset.start ≤ subset.end_) :
    ((PutColumns y ld x subset).isFatal = true ↔
      ld < n_complex * x.GetNumColorSpin * x.GetInfo.GetNumCBSites *
        (subset.end_ - subset.start)) ∧
    ((PutColumns y ld x subset).isFatal = true → (PutColumns y ld x subset).state = x) := by
  unfold PutColumns
  by_cases hge : ld ≥ n_complex * x.GetNumColorSpin * x.GetInfo.GetNumCBSites *
      (subset.end_ - subset.start)
  · simp only [hge, not_true_eq_false, if_false, Run.isFatal, Bool.false_eq_true, false_iff,
      false_implies, and_true]
    omega
  · simp only [hge, not_false_eq_true, if_true, Run.isFatal, Run.state, true_iff,
      implies_true, and_true]
    omega

/-- C11: for every field `x`, every subset (a range with `start ≤ end`), every leading
dimension `ld ≥ 2 * numColorSpin * numCBSites * (end - start)` and every initial buffer,
running `GetColumns(x, subset, buffer, ld)` and then `PutColumns(buffer, ld, x2, subset)` on a
field `x2` of the same shape returns and makes every entry of `x2` on the checkerboards of the
subset (every site, column and colorspin, real and imaginary part) the entry of `x`. -/
theorem GetColumns_PutColumns_roundtrip (x x2 : CoarseSpinor R) (subset : CBSubset)
    (y : Nat → R) (ld : Nat) (hinfo : x2.GetInfo = x.GetInfo) (hncol : x2.GetNCol = x.GetNCol)
    (hse : subset.start ≤ subset.end_)
    (hld : n_complex * x.GetNumColorSpin * x.GetInfo.GetNumCBSites *
      (subset.end_ - subset.start) ≤ ld) :
    (GetColumns x subset y ld).isFatal = false ∧
    (PutColumns (GetColumns x subset y ld).state ld x2 subset).isFatal = false ∧
    ∀ cb site col cspin, subset.start ≤ cb → cb < subset.end_ →
      site < x.GetInfo.GetNumCBSites → col < x.GetNCol → cspin < x.GetNumColorSpin →
      (PutColumns (GetColumns x subset y ld).state ld x2 subset).state.loadC
          (x2.GetSiteDataPtr col cb site) cspin =
        x.loadC (x.GetSiteDataPtr col cb site) cspin := by
  have hcs : x2.GetNumColorSpin = x.GetNumColorSpin := by
    have : x2.info = x.info := hinfo
    simp only [CoarseSpinor.GetNumColorSpin, this]
  have hld2 : n_complex * x2.GetNumColorSpin * x2.GetInfo.GetNumCBSites *
      (subset.end_ - subset.start) ≤ ld := by
    rw [hcs, hinfo]; exact hld
  obtain ⟨h0, h⟩ := PutColumns_entry (GetColumns x subset y ld).state ld x2 subset hse hld2
  refine ⟨rfl, h0, ?_⟩
  intro cb site col cspin h1 h2 h3 h4 h5
  rw [h cb site col cspin h1 h2 (by rw [hinfo]; exact h3) (by rw [hncol]; exact h4)
    (by rw [hcs]; exact h5), hcs, hinfo]
  apply Cplx.ext
  · exact GetColumns_buffer x subset y ld hld RE cspin site cb col (by decide) h5 h3 h1 h2 h4
  · exact GetColumns_buffer x subset y ld hld IM cspin site cb col (by decide) h5 h3 h1 h2 h4

/-- C12: for every field `x`, subset, buffer and leading dimension, `GetColumns` is the loop
nest that writes the real (`RE = 0`) and the imaginary (`IM = 1`) part of colorspin `cspin` of
column `col` at site `cbsite` of checkerboard `cb` to the buffer position
`r + 2·cspin + ((cb − subset.start)·numCBSites + cbsite)·2·numColorSpin + ld·col`; with a
leading dimension of at least `2·numColorSpin·numCBSites·(end − start)` the buffer holds each
in-range entry at that position afterwards, and on a range with `start ≤ end` `PutColumns`
returns with every in-range entry of `x` read from that position of its buffer. -/
theorem Columns_positions (x : CoarseSpinor R) (subset : CBSubset) (y : Nat → R) (ld : Nat) :
    GetColumns x subset y ld =
      Run.ret (forLoop subset.start subset.end_ (fun cb =>
        forLoop 0 x.GetInfo.GetNumCBSites (fun cbsite =>
          forLoop 0 x.GetNCol (fun col =>
            forLoop 0 x.GetNumColorSpin (fun cspin (ys : Nat → R) =>
              bufWrite (bufWrite ys
                (columnIndex x.GetNumColorSpin x.GetInfo.GetNumCBSites subset.start ld
                  RE cspin cbsite cb col)
                (x.load (x.GetSiteDataPtr col cb cbsite) (RE + n_complex * cspin)))
                (columnIndex x.GetNumColorSpin x.GetInfo.GetNumCBSites subset.start ld
                  IM cspin cbsite cb col)
                (x.load (x.GetSiteDataPtr col cb cbsite) (IM + n_complex * cspin)))))) y) () ∧
    (subset.start ≤ subset.end_ →
      n_complex * x.GetNumColorSpin * x.GetInfo.GetNumCBSites *
        (subset.end_ - subset.start) ≤ ld →
      (∀ r cspin site cb col, r < n_complex → cspin < x.GetNumColorSpin →
        site < x.GetInfo.GetNumCBSites → subset.start ≤ cb → cb < subset.end_ →
        col < x.GetNCol →
        (GetColumns x subset y ld).state
            (columnIndex x.GetNumColorSpin x.GetInfo.GetNumCBSites subset.start ld
              r cspin site cb col) =
          x.load (x.GetSiteDataPtr col cb site) (r + n_complex * cspin)) ∧
      (PutColumns y ld x subset).isFatal = false ∧
      (∀ r cspin site cb col, r < n_complex → cspin < x.GetNumColorSpin →
        site < x.GetInfo.GetNumCBSites → subset.start ≤ cb → cb < subset.end_ →
        col < x.GetNCol →
        (PutColumns y ld x subset).state.load (x.GetSiteDataPtr col cb site)
            (r + n_complex * cspin) =
          y (columnIndex x.GetNumColorSpin x.GetInfo.GetNumCBSites subset.start ld
            r cspin site cb col))) := by
  refine ⟨?_, ?_⟩
  · simp only [columnIndex_eq]
    rfl
  · intro hse hld
    refine ⟨?_, (PutColumns_entry y ld x subset hse hld).1, ?_⟩
    · intro r cspin site cb col hr hk hsite hcb1 hcb2 hcol
      rw [columnIndex_eq]
      exact GetColumns_buffer x subset y ld hld r cspin site cb col hr hk hsite hcb1 hcb2 hcol
    · intro r cspin site cb col hr hk hsite hcb1 hcb2 hcol
      have h := (PutColumns_entry y ld x subset hse hld).2 cb site col cspin hcb1 hcb2 hsite hcol
        hk
      rw [columnIndex_eq]
      have hr01 : r = RE ∨ r = IM := by
        simp only [n_complex] at hr
        simp only [RE, IM]
        omega
      rcases hr01 with rfl | rfl
      · exact congrArg Cplx.re h
      · exact congrArg Cplx.im h

/-- C13: on the two-column field `xTwoCol` (one colorspin, one site per checkerboard) with both
checkerboards the required leading dimension is `4`; `GetColumns` with `ld = 0` does not stop
at an assertion, and it has copied values: buffer position 0 holds the real part of column 1,
written over the one of column 0. -/
theorem GetColumns_accepts_small_ld :
    (0 : Nat) < n_complex * xTwoCol.GetNumColorSpin * xTwoCol.GetInfo.GetNumCBSites *
      (SUBSET_ALL.end_ - SUBSET_ALL.start) ∧
    (GetColumns xTwoCol SUBSET_ALL (fun _ => 0) 0).isFatal = false ∧
    (GetColumns xTwoCol SUBSET_ALL (fun _ => 0) 0).state 0 = 2 := by
  decide

end Columns

/-! ## Instances of the theorems on concrete fields -/

section Instances

/-- An instance of the theorem for C11: `xTwoCol` is packed with `ld = 4` and unpacked into
`zTwoCol`. -/
theorem GetColumns_PutColumns_roundtrip_witness :
    zTwoCol.GetInfo = xTwoCol.GetInfo ∧ zTwoCol.GetNCol = xTwoCol.GetNCol ∧
    SUBSET_ALL.start ≤ SUBSET_ALL.end_ ∧
    n_complex * xTwoCol.GetNumColorSpin * xTwoCol.GetInfo.GetNumCBSites *
      (SUBSET_ALL.end_ - SUBSET_ALL.start) ≤ 4 ∧
    (PutColumns (GetColumns xTwoCol SUBSET_ALL bufZero 4).state 4 zTwoCol SUBSET_ALL).isFatal =
      false ∧
    (PutColumns (GetColumns xTwoCol SUBSET_ALL bufZero 4).state 4 zTwoCol SUBSET_ALL).state.loadC
      (zTwoCol.GetSiteDataPtr 1 1 0) 0 = ⟨2, 0⟩ :=
  ⟨by decide, by decide, by decide, by decide,
    (GetColumns_PutColumns_roundtrip xTwoCol zTwoCol SUBSET_ALL bufZero 4 (by decide)
      (by decide) (by decide) (by decide)).2.1,
    ((GetColumns_PutColumns_roundtrip xTwoCol zTwoCol SUBSET_ALL bufZero 4 (by decide)
      (by decide) (by decide) (by decide)).2.2 1 0 1 0 (by decide) (by decide) (by decide) (by decide)
      (by decide)).trans (by decide)⟩

/-- An instance of the theorem for C12: with `ld = 4` the real part of column 1 at the site
of checkerboard 1 is at buffer position `0 + 2·0 + ((1 − 0)·1 + 0)·2·1 + 4·1 = 6`. -/
theorem Columns_positions_witness :
    SUBSET_ALL.start ≤ SUBSET_ALL.end_ ∧
    n_complex * xTwoCol.GetNumColorSpin * xTwoCol.GetInfo.GetNumCBSites *
      (SUBSET_ALL.end_ - SUBSET_ALL.start) ≤ 4 ∧
    columnIndex xTwoCol.GetNumColorSpin xTwoCol.GetInfo.GetNumCBSites SUBSET_ALL.start 4
      0 0 0 1 1 = 6 ∧
    (GetColumns xTwoCol SUBSET_ALL bufZero 4).state 6 = 2 ∧
    (PutColumns (fun i => (i : Int)) 4 xTwoCol SUBSET_ALL).state.load
      (xTwoCol.GetSiteDataPtr 1 1 0) (0 + n_complex * 0) = 6 :=
  ⟨by decide, by decide, by decide,
    (((Columns_positions xTwoCol SUBSET_ALL bufZero 4).2 (by decide) (by decide)).1 0 0 0 1 1
      (by decide) (by decide) (by decide) (by decide) (by decide) (by decide)).trans
      (by decide),
    (((Columns_positions xTwoCol SUBSET_ALL (fun i => (i : Int)) 4).2 (by decide)
      (by decide)).2.2 0 0 0 1 1
      (by decide) (by decide) (by decide) (by decide) (by decide) (by decide)).trans
      (by decide)⟩

/-- An instance of the theorem for C14: column 0 of `xTwoCol` is copied into column 1 of
`zTwoCol`, column 0 of `zTwoCol` keeps `3 + 4i`. -/
theorem CopyVec_copies_columns_witness :
    AssertCompatible zTwoCol.GetInfo xTwoCol.GetInfo = true ∧
    (1 ≤ 2 ∧ 2 ≤ zTwoCol.GetNCol ∧ 0 + (2 - 1) ≤ xTwoCol.GetNCol) ∧
    (CopyVec zTwoCol 1 2 xTwoCol 0 SUBSET_ALL).isFatal = false ∧
    (CopyVec zTwoCol 1 2 xTwoCol 0 SUBSET_ALL).state.loadC (zTwoCol.GetSiteDataPtr 1 0 0) 0 =
      ⟨1, 0⟩ ∧
    (CopyVec zTwoCol 1 2 xTwoCol 0 SUBSET_ALL).state.loadC (zTwoCol.GetSiteDataPtr 0 0 0) 0 =
      ⟨3, 4⟩ :=
  ⟨by decide, by decide,
    (CopyVec_copies_columns zTwoCol xTwoCol 1 2 0 SUBSET_ALL (by decide) (by decide)
      (by decide) (by decide)).1,
    ((CopyVec_copies_columns zTwoCol xTwoCol 1 2 0 SUBSET_ALL (by decide) (by decide)
      (by decide) (by decide)).2.1 0 0 0 0 (by decide) (by decide) (by decide) (by decide)
      (by decide)).trans (by decide),
    ((CopyVec_copies_columns zTwoCol xTwoCol 1 2 0 SUBSET_ALL (by decide) (by decide)
      (by decide) (by decide)).2.2 0 0 0 0 (by decide) (by decide) (by decide)).trans
      (by decide)⟩

/-- An instance of the theorem for C15 (amended): the empty range `[2, 1)` with
`xcol1 = 1 ≤ 2` and `ycol0 = 0 ≤ 2` is a no-op that returns. -/
theorem CopyVec_empty_range_witness :
    AssertCompatible xTwoCol.GetInfo yTwoCol.GetInfo = true ∧
    max (0 : Int) (1 - 2) = 0 ∧
    (CopyVec xTwoCol 2 1 yTwoCol 0 SUBSET_ALL).state = xTwoCol ∧
    (CopyVec xTwoCol 2 1 yTwoCol 0 SUBSET_ALL).isFatal = false :=
  ⟨by decide, by decide,
    (CopyVec_empty_range xTwoCol yTwoCol 2 1 0 SUBSET_ALL (by decide) (by decide)).1,
    (CopyVec_empty_range xTwoCol yTwoCol 2 1 0 SUBSET_ALL (by decide) (by decide)).2.mpr
      (by decide)⟩

/-- An instance of the theorem for C16 (amended): the destination range `[1, 3)` ends above
the two columns of `xTwoCol`. -/
theorem CopyVec_rejects_overrun_witness :
    AssertCompatible xTwoCol.GetInfo yTwoCol.GetInfo = true ∧
    (1 : Int) < 3 ∧ ((xTwoCol.GetNCol : Int) < 3) ∧
    (CopyVec xTwoCol 1 3 yTwoCol 0 SUBSET_ALL).isFatal = true ∧
    (CopyVec xTwoCol 1 3 yTwoCol 0 SUBSET_ALL).state = xTwoCol :=
  ⟨by decide, by decide, by decide,
    CopyVec_rejects_overrun xTwoCol yTwoCol 1 3 0 SUBSET_ALL (by decide) (by decide)
      (Or.inl (by decide))⟩

/-- An instance of the theorem for C17: `1 + i·((3 + 4i) − 1·i) = −2 + 3i` in column 0. -/
theorem BiCGStabPUpdate_entries_witness :
    AssertCompatible xTwoCol.GetInfo zTwoCol.GetInfo = true ∧
    AssertCompatible yTwoCol.GetInfo xTwoCol.GetInfo = true ∧
    xTwoCol.GetNCol ≤ zTwoCol.GetNCol ∧
    (BiCGStabPUpdate scalarsA xTwoCol scalarsB yTwoCol zTwoCol SUBSET_ALL).isFatal = false ∧
    (BiCGStabPUpdate scalarsA xTwoCol scalarsB yTwoCol zTwoCol SUBSET_ALL).state.loadC
      (zTwoCol.GetSiteDataPtr 0 1 0) 0 = ⟨-2, 3⟩ :=
  ⟨by decide, by decide, by decide,
    (BiCGStabPUpdate_entries scalarsA scalarsB xTwoCol yTwoCol zTwoCol SUBSET_ALL (by decide)
      (by decide) (by decide) (by decide) (by decide)).1,
    ((BiCGStabPUpdate_entries scalarsA scalarsB xTwoCol yTwoCol zTwoCol SUBSET_ALL (by decide)
      (by decide) (by decide) (by decide) (by decide)).2 1 0 0 0 (by decide) (by decide)
      (by decide) (by decide) (by decide)).trans (by decide)⟩

/-- An instance of the theorem for C18: `(5 + 6i) + 2·2 + (1 + i)·1 = 10 + 7i` in column 1. -/
theorem BiCGStabXUpdate_entries_witness :
    AssertCompatible xTwoCol.GetInfo yTwoCol.GetInfo = true ∧
    AssertCompatible zTwoCol.GetInfo xTwoCol.GetInfo = true ∧
    (BiCGStabXUpdate scalarsB xTwoCol scalarsA yTwoCol zTwoCol SUBSET_ALL).isFatal = false ∧
    (BiCGStabXUpdate scalarsB xTwoCol scalarsA yTwoCol zTwoCol SUBSET_ALL).state.loadC
      (zTwoCol.GetSiteDataPtr 1 0 0) 0 = ⟨10, 7⟩ :=
  ⟨by decide, by decide,
    (BiCGStabXUpdate_entries scalarsB scalarsA xTwoCol yTwoCol zTwoCol SUBSET_ALL (by decide)
      (by decide) (by decide) (by decide)).1,
    ((BiCGStabXUpdate_entries scalarsB scalarsA xTwoCol yTwoCol zTwoCol SUBSET_ALL (by decide)
      (by decide) (by decide) (by decide)).2 0 0 1 0 (by decide) (by decide) (by decide)
      (by decide) (by decide)).trans (by decide)⟩

/-- An instance of the theorem for C19: `(1 + 0i) − (0 + 1i) = 1 − 1i` in column 0. -/
theorem XmyzVec_writes_difference_witness :
    AssertCompatible xTwoCol.GetInfo yTwoCol.GetInfo = true ∧
    AssertCompatible zTwoCol.GetInfo xTwoCol.GetInfo = true ∧
    xTwoCol.GetNCol ≤ zTwoCol.GetNCol ∧
    (XmyzVec xTwoCol yTwoCol zTwoCol SUBSET_ALL).isFatal = false ∧
    (XmyzVec xTwoCol yTwoCol zTwoCol SUBSET_ALL).state.loadC (zTwoCol.GetSiteDataPtr 0 1 0) 0 =
      ⟨1, -1⟩ :=
  ⟨by decide, by decide, by decide,
    (XmyzVec_writes_difference xTwoCol yTwoCol zTwoCol SUBSET_ALL (by decide) (by decide)
      (by decide)).1,
    ((XmyzVec_writes_difference xTwoCol yTwoCol zTwoCol SUBSET_ALL (by decide) (by decide)
      (by decide)).2 1 0 0 0 (by decide) (by decide) (by decide) (by decide)
      (by decide)).trans (by decide)⟩

/-- An instance of the theorem for C20: the real scalars `(3, 5)` turn column 1 of `xTwoCol`
into `10 + 0i`, the complex scalars `(i, 1 + i)` turn column 0 of `yTwoCol` into `−1 + 0i`. -/
theorem ScaleVec_scales_columns_witness :
    (ScaleVec [(3 : Int), 5] xTwoCol SUBSET_ALL).isFatal = false ∧
    (ScaleVec [(3 : Int), 5] xTwoCol SUBSET_ALL).state.load (xTwoCol.GetSiteDataPtr 1 0 0)
      (RE + n_complex * 0) = 10 ∧
    (ScaleVecComplex scalarsA yTwoCol SUBSET_ALL).state.loadC (yTwoCol.GetSiteDataPtr 0 0 0) 0 =
      ⟨-1, 0⟩ :=
  ⟨((ScaleVec_scales_columns xTwoCol SUBSET_ALL).1 [3, 5] (by decide)).1,
    ((((ScaleVec_scales_columns xTwoCol SUBSET_ALL).1 [3, 5] (by decide)).2 0 0 1 0
      (by decide) (by decide) (by decide) (by decide) (by decide)).1).trans (by decide),
    (((ScaleVec_scales_columns yTwoCol SUBSET_ALL).2 scalarsA (by decide)).2 0 0 0 0
      (by decide) (by decide) (by decide) (by decide) (by decide)).trans (by decide)⟩

end Instances

/-! ## Zeroing, chirality flip and the frame of the element-wise kernels -/

section ZeroAndGamma5

variable {R : Type} [CommRing R]

/-- The loops of a kernel whose bodies write only to their own checkerboard leave the storage
of every checkerboard outside `[s, e)` untouched. -/
theorem kernelLoop_frame_cb {S : Type} (s e ns c0 c1 k0 k1 : Nat)
    (upd : Nat → Nat → Nat → Nat → CoarseSpinor S → CoarseSpinor S)
    (hupd : ∀ cb site col cspin (xs : CoarseSpinor S) c a, c ≠ cb →
      (upd cb site col cspin xs).data c a = xs.data c a)
    (x0 : CoarseSpinor S) (c a : Nat) (hc : c < s ∨ e ≤ c) :
    (forLoop s e (fun cb => forLoop 0 ns (fun site => forLoop c0 c1 (fun col =>
        forLoop k0 k1 (fun cspin => upd cb site col cspin)))) x0).data c a = x0.data c a := by
  have h := kernelLoop_obs (fun xs : CoarseSpinor S => xs.data c a) id s e ns c0 c1 k0 k1 upd
    0 0 0 0
    (by
      intro cb site col cspin h1 h2 _ _ _ _ _ st
      show (upd cb site col cspin st).data c a = _
      rw [hupd cb site col cspin st c a (by omega)]
      simp) x0
  simp only [id, ite_self] at h
  exact h

/-- Two stores through a pointer of checkerboard `cb` leave the other checkerboards alone. -/
theorem store_store_data_ne {S : Type} (xs : CoarseSpinor S) (p : Ptr) (i j : Nat) (v w : S)
    (c a : Nat) (hc : c ≠ p.cb) : ((xs.store p i v).store p j w).data c a = xs.data c a := by
  simp [CoarseSpinor.data_store, hc]

/-- The entry-wise description of `ZeroVec`. -/
theorem ZeroVec_entry (x : CoarseSpinor R) (subset : CBSubset) (cb site col cspin : Nat)
    (h1 : subset.start ≤ cb) (h2 : cb < subset.end_) (h3 : site < x.GetInfo.GetNumCBSites)
    (h4 : col < x.GetNCol) (h5 : cspin < x.GetNumColorSpin) :
    (ZeroVec x subset).loadC (x.GetSiteDataPtr col cb site) cspin = 0 := by
  have h := pointwise_kernel_range x subset.start subset.end_ x.GetInfo.GetNumCBSites 0
    x.GetNCol 0 x.GetNumColorSpin (Nat.le_refl _) (Nat.le_refl _)
    (fun cb site col cspin (xs : CoarseSpinor R) =>
      (xs.store (x.GetSiteDataPtr col cb site) (RE + n_complex * cspin) 0).store
        (x.GetSiteDataPtr col cb site) (IM + n_complex * cspin) 0)
    (fun _ _ _ _ _ => 0)
    (fun _ _ _ _ _ _ _ => rfl) x cb site col cspin h4 h5
  rw [if_pos ⟨⟨h1, h2⟩, h3, ⟨Nat.zero_le _, h4⟩, ⟨Nat.zero_le _, h5⟩⟩] at h
  exact h

/-- The field `ZeroVec` returns has the geometry and the column count of its argument. -/
theorem ZeroVec_shape (x : CoarseSpinor R) (subset : CBSubset) :
    (ZeroVec x subset).info = x.info ∧ (ZeroVec x subset)._n_col = x._n_col :=
  kernelLoop_shape subset.start subset.end_ x.GetInfo.GetNumCBSites 0 x.GetNCol 0
    x.GetNumColorSpin
    (fun cb site col cspin (xs : CoarseSpinor R) =>
      (xs.store (x.GetSiteDataPtr col cb site) (RE + n_complex * cspin) 0).store
        (x.GetSiteDataPtr col cb site) (IM + n_complex * cspin) 0)
    (fun _ _ _ _ _ => ⟨rfl, rfl⟩) x

/-- C23: for every field `x` and every subset, after `ZeroVec(x, subset)` the real and the
imaginary part of every colorspin component of every column at every site of every
checkerboard in the subset is `0`. -/
theorem ZeroVec_zeroes_subset (x : CoarseSpinor R) (subset : CBSubset) :
    ∀ cb site col cspin, subset.start ≤ cb → cb < subset.end_ →
      site < x.GetInfo.GetNumCBSites → col < x.GetNCol → cspin < x.GetNumColorSpin →
      (ZeroVec x subset).load (x.GetSiteDataPtr col cb site) (RE + n_complex * cspin) = 0 ∧
      (ZeroVec x subset).load (x.GetSiteDataPtr col cb site) (IM + n_complex * cspin) = 0 := by
  intro cb site col cspin h1 h2 h3 h4 h5
  have h := ZeroVec_entry x subset cb site col cspin h1 h2 h3 h4 h5
  exact ⟨congrArg Cplx.re h, congrArg Cplx.im h⟩

/-- Pointers are computed from the geometry and the column count alone. -/
theorem CoarseSpinor.GetSiteDataPtr_congr {S : Type} (y x : CoarseSpinor S)
    (hi : y.info = x.info) (hn : y._n_col = x._n_col) (col cb site : Nat) :
    y.GetSiteDataPtr col cb site = x.GetSiteDataPtr col cb site := by
  simp only [CoarseSpinor.GetSiteDataPtr, CoarseSpinor.GetNCol, CoarseSpinor.GetNumColorSpin,
    hi, hn]

/-- C21: for every field `x`, every subset and every scalar vector with one scalar per column
(real or complex), `ZeroVec(x, subset)` followed by `ScaleVec(alpha, x, subset)` returns and
leaves every complex entry of `x` on the subset equal to `0`. -/
theorem ZeroVec_then_ScaleVec_zero (x : CoarseSpinor R) (subset : CBSubset) (alpha : List R)
    (calpha : List (Cplx R)) (hlen : alpha.length = x.GetNCol)
    (_ : calpha.length = x.GetNCol) :
    (ScaleVec alpha (ZeroVec x subset) subset).isFatal = false ∧
    (ScaleVecComplex calpha (ZeroVec x subset) subset).isFatal = false ∧
    ∀ cb site col cspin, subset.start ≤ cb → cb < subset.end_ →
      site < x.GetInfo.GetNumCBSites → col < x.GetNCol → cspin < x.GetNumColorSpin →
      (ScaleVec alpha (ZeroVec x subset) subset).state.loadC
        (x.GetSiteDataPtr col cb site) cspin = 0 ∧
      (ScaleVecComplex calpha (ZeroVec x subset) subset).state.loadC
        (x.GetSiteDataPtr col cb site) cspin = 0 := by
  obtain ⟨hi, hn⟩ := ZeroVec_shape x subset
  have hncol : (ZeroVec x subset).GetNCol = x.GetNCol := hn
  have hncs : (ZeroVec x subset).GetNumColorSpin = x.GetNumColorSpin := by
    simp only [CoarseSpinor.GetNumColorSpin, hi]
  have hinfo : (ZeroVec x subset).GetInfo = x.GetInfo := hi
  have hptr := CoarseSpinor.GetSiteDataPtr_congr (ZeroVec x subset) x hi hn
  obtain ⟨hr0, hr⟩ := ScaleVec_entry alpha (ZeroVec x subset) subset (hlen.trans hncol.symm)
  obtain ⟨hc0, hc⟩ := ScaleVecComplex_entry calpha (ZeroVec x subset) subset
  refine ⟨hr0, hc0, ?_⟩
  intro cb site col cspin h1 h2 h3 h4 h5
  have hz := ZeroVec_entry x subset cb site col cspin h1 h2 h3 h4 h5
  have hr1 := hr cb site col cspin h1 h2 (hinfo ▸ h3) (hncol ▸ h4) (hncs ▸ h5)
  have hc1 := hc cb site col cspin h1 h2 (hinfo ▸ h3) (hncol ▸ h4) (hncs ▸ h5)
  rw [hptr, hz] at hr1 hc1
  refine ⟨hr1.trans ?_, hc1.trans ?_⟩
  · ext <;> simp
  · ext <;> simp

/-- The entry-wise description of `Gamma5Vec` on the shape of the field. -/
theorem Gamma5Vec_entry (x : CoarseSpinor R) (subset : CBSubset) (cb site col cspin : Nat)
    (h4 : col < x.GetNCol) (h5 : cspin < x.GetNumColorSpin) :
    (Gamma5Vec x subset).loadC (x.GetSiteDataPtr col cb site) cspin =
      if (subset.start ≤ cb ∧ cb < subset.end_) ∧ site < x.GetInfo.GetNumCBSites ∧
          x.GetNumColorSpin / 2 ≤ cspin then
        (x.loadC (x.GetSiteDataPtr col cb site) cspin).smulReal (-1)
      else x.loadC (x.GetSiteDataPtr col cb site) cspin := by
  have h := pointwise_kernel_range x subset.start subset.end_ x.GetInfo.GetNumCBSites 0
    x.GetNCol (x.GetNumColorSpin / 2) x.GetNumColorSpin (Nat.le_refl _) (Nat.le_refl _)
    (fun cb site col cspin (xs : CoarseSpinor R) =>
      (xs.store (x.GetSiteDataPtr col cb site) (RE + n_complex * cspin)
        (xs.load (x.GetSiteDataPtr col cb site) (RE + n_complex * cspin) * (-1))).store
        (x.GetSiteDataPtr col cb site) (IM + n_complex * cspin)
        ((xs.store (x.GetSiteDataPtr col cb site) (RE + n_complex * cspin)
          (xs.load (x.GetSiteDataPtr col cb site) (RE + n_complex * cspin) * (-1))).load
            (x.GetSiteDataPtr col cb site) (IM + n_complex * cspin) * (-1)))
    (fun _ _ _ _ v => v.smulReal (-1))
    (by
      intro cb site col cspin xs c a
      beta_reduce
      rw [CoarseSpinor.load_store_re_im]
      rfl) x cb site col cspin h4 h5
  have hiff : ((subset.start ≤ cb ∧ cb < subset.end_) ∧ site < x.GetInfo.GetNumCBSites ∧
      (0 ≤ col ∧ col < x.GetNCol) ∧
      (x.GetNumColorSpin / 2 ≤ cspin ∧ cspin < x.GetNumColorSpin)) ↔
      ((subset.start ≤ cb ∧ cb < subset.end_) ∧ site < x.GetInfo.GetNumCBSites ∧
        x.GetNumColorSpin / 2 ≤ cspin) := by
    constructor
    · rintro ⟨a, b, _, c, _⟩
      exact ⟨a, b, c⟩
    · rintro ⟨a, b, c⟩
      exact ⟨a, b, ⟨Nat.zero_le _, h4⟩, c, h5⟩
  simp only [hiff] at h
  exact h

/-- The field `Gamma5Vec` returns has the geometry and the column count of its argument. -/
theorem Gamma5Vec_shape (x : CoarseSpinor R) (subset : CBSubset) :
    (Gamma5Vec x subset).info = x.info ∧ (Gamma5Vec x subset)._n_col = x._n_col :=
  kernelLoop_shape subset.start subset.end_ x.GetInfo.GetNumCBSites 0 x.GetNCol
    (x.GetNumColorSpin / 2) x.GetNumColorSpin
    (fun cb site col cspin (xs : CoarseSpinor R) =>
      (xs.store (x.GetSiteDataPtr col cb site) (RE + n_complex * cspin)
        (xs.load (x.GetSiteDataPtr col cb site) (RE + n_complex * cspin) * (-1))).store
        (x.GetSiteDataPtr col cb site) (IM + n_complex * cspin)
        ((xs.store (x.GetSiteDataPtr col cb site) (RE + n_complex * cspin)
          (xs.load (x.GetSiteDataPtr col cb site) (RE + n_complex * cspin) * (-1))).load
            (x.GetSiteDataPtr col cb site) (IM + n_complex * cspin) * (-1)))
    (fun _ _ _ _ _ => ⟨rfl, rfl⟩) x

/-- C24: for every field `x` and every subset, `Gamma5Vec(x, subset)` multiplies by `−1` the
real and the imaginary part of every colorspin component with index at least
`numColorSpin / 2` (integer division) at every site and column of the subset, and leaves
every component with a smaller index unchanged. -/
theorem Gamma5Vec_flips_upper_half (x : CoarseSpinor R) (subset : CBSubset) :
    ∀ cb site col cspin, subset.start ≤ cb → cb < subset.end_ →
      site < x.GetInfo.GetNumCBSites → col < x.GetNCol → cspin < x.GetNumColorSpin →
      (x.GetNumColorSpin / 2 ≤ cspin →
        (Gamma5Vec x subset).load (x.GetSiteDataPtr col cb site) (RE + n_complex * cspin) =
          -1 * x.load (x.GetSiteDataPtr col cb site) (RE + n_complex * cspin) ∧
        (Gamma5Vec x subset).load (x.GetSiteDataPtr col cb site) (IM + n_complex * cspin) =
          -1 * x.load (x.GetSiteDataPtr col cb site) (IM + n_complex * cspin)) ∧
      (cspin < x.GetNumColorSpin / 2 →
        (Gamma5Vec x subset).load (x.GetSiteDataPtr col cb site) (RE + n_complex * cspin) =
          x.load (x.GetSiteDataPtr col cb site) (RE + n_complex * cspin) ∧
        (Gamma5Vec x subset).load (x.GetSiteDataPtr col cb site) (IM + n_complex * cspin) =
          x.load (x.GetSiteDataPtr col cb site) (IM + n_complex * cspin)) := by
  intro cb site col cspin h1 h2 h3 h4 h5
  have h := Gamma5Vec_entry x subset cb site col cspin h4 h5
  refine ⟨?_, ?_⟩
  · intro h6
    rw [if_pos ⟨⟨h1, h2⟩, h3, h6⟩] at h
    have hre := congrArg Cplx.re h
    have him := congrArg Cplx.im h
    simp only [Cplx.smulReal_re, Cplx.smulReal_im] at hre him
    exact ⟨hre.trans (mul_comm _ _), him.trans (mul_comm _ _)⟩
  · intro h6
    rw [if_neg (by omega)] at h
    exact ⟨congrArg Cplx.re h, congrArg Cplx.im h⟩

/-- Every offset of a checkerboard is the real or the imaginary part of one complex entry of
the shape of a field with at least one column and one colorspin component. -/
theorem CoarseSpinor.offset_decode {S : Type} (z : CoarseSpinor S) (hc : 0 < z.GetNCol)
    (hk : 0 < z.GetNumColorSpin) (cb a : Nat) :
    ∃ site col cspin r, col < z.GetNCol ∧ cspin < z.GetNumColorSpin ∧ r < n_complex ∧
      a = (z.GetSiteDataPtr col cb site).off + (r + n_complex * cspin) := by
  have hP : 0 < n_complex * z.GetNumColorSpin := Nat.mul_pos (by decide) hk
  refine ⟨a / (n_complex * z.GetNumColorSpin) / z.GetNCol,
    a / (n_complex * z.GetNumColorSpin) % z.GetNCol,
    a % (n_complex * z.GetNumColorSpin) / n_complex,
    a % (n_complex * z.GetNumColorSpin) % n_complex,
    Nat.mod_lt _ hc, ?_, Nat.mod_lt _ (by decide), ?_⟩
  · rw [Nat.div_lt_iff_lt_mul (by decide)]
    exact lt_of_lt_of_eq (Nat.mod_lt _ hP) (Nat.mul_comm _ _)
  · simp only [CoarseSpinor.GetSiteDataPtr]
    rw [Nat.mod_add_div, Nat.mul_comm _ z.GetNCol, Nat.div_add_mod, Nat.div_add_mod']

/-- Two fields of the same geometry and column count whose complex entries agree on the whole
shape are equal. -/
theorem CoarseSpinor.eq_of_loadC_eq {S : Type} (y x : CoarseSpinor S)
    (hi : y.info = x.info) (hn : y._n_col = x._n_col) (hc : 0 < x.GetNCol)
    (hk : 0 < x.GetNumColorSpin)
    (h : ∀ cb site col cspin, col < x.GetNCol → cspin < x.GetNumColorSpin →
      y.loadC (x.GetSiteDataPtr col cb site) cspin =
        x.loadC (x.GetSiteDataPtr col cb site) cspin) : y = x := by
  refine CoarseSpinor.ext hi hn ?_
  funext cb a
  obtain ⟨site, col, cspin, r, h1, h2, h3, rfl⟩ := CoarseSpinor.offset_decode x hc hk cb a
  have hh := h cb site col cspin h1 h2
  have hr : r = RE ∨ r = IM := by
    simp only [n_complex] at h3
    simp only [RE, IM]
    omega
  rcases hr with rfl | rfl
  · exact congrArg Cplx.re hh
  · exact congrArg Cplx.im hh

/-- C25: for every field `x` (whatever the parity of its colorspin count) and every subset,
applying `Gamma5Vec(x, subset)` twice restores `x` exactly. -/
theorem Gamma5Vec_involution (x : CoarseSpinor R) (subset : CBSubset) :
    Gamma5Vec (Gamma5Vec x subset) subset = x := by
  obtain ⟨hi, hn⟩ := Gamma5Vec_shape x subset
  obtain ⟨hi2, hn2⟩ := Gamma5Vec_shape (Gamma5Vec x subset) subset
  have hncol : (Gamma5Vec x subset).GetNCol = x.GetNCol := hn
  have hncs : (Gamma5Vec x subset).GetNumColorSpin = x.GetNumColorSpin := by
    simp only [CoarseSpinor.GetNumColorSpin, hi]
  have hinfo : (Gamma5Vec x subset).GetInfo = x.GetInfo := hi
  have hptr := CoarseSpinor.GetSiteDataPtr_congr (Gamma5Vec x subset) x hi hn
  by_cases hpos : 0 < x.GetNCol ∧ 0 < x.GetNumColorSpin
  · refine CoarseSpinor.eq_of_loadC_eq _ x (hi2.trans hi) (hn2.trans hn) hpos.1 hpos.2 ?_
    intro cb site col cspin h4 h5
    have h2 := Gamma5Vec_entry (Gamma5Vec x subset) subset cb site col cspin (hncol ▸ h4)
      (hncs ▸ h5)
    have h1 := Gamma5Vec_entry x subset cb site col cspin h4 h5
    rw [hptr, hinfo, hncs, h1] at h2
    rw [h2]
    split
    · ext <;> simp
    · rfl
  · have hempty : ∀ (y : CoarseSpinor R), ¬ (0 < y.GetNCol ∧ 0 < y.GetNumColorSpin) →
        Gamma5Vec y subset = y := by
      intro y hy
      have h := kernelLoop_obs (fun xs : CoarseSpinor R => xs) id subset.start subset.end_
        y.GetInfo.GetNumCBSites 0 y.GetNCol (y.GetNumColorSpin / 2) y.GetNumColorSpin
        (fun cb site col cspin (xs : CoarseSpinor R) =>
          (xs.store (y.GetSiteDataPtr col cb site) (RE + n_complex * cspin)
            (xs.load (y.GetSiteDataPtr col cb site) (RE + n_complex * cspin) * (-1))).store
            (y.GetSiteDataPtr col cb site) (IM + n_complex * cspin)
            ((xs.store (y.GetSiteDataPtr col cb site) (RE + n_complex * cspin)
              (xs.load (y.GetSiteDataPtr col cb site) (RE + n_complex * cspin) * (-1))).load
                (y.GetSiteDataPtr col cb site) (IM + n_complex * cspin) * (-1)))
        0 0 0 0
        (by
          intro cb site col cspin _ _ _ _ h5 _ h7 st
          exact absurd ⟨by omega, by omega⟩ hy) y
      simp only [id, ite_self] at h
      exact h
    rw [hempty (Gamma5Vec x subset) (by rw [hncol, hncs]; exact hpos), hempty x hpos]

end ZeroAndGamma5

/-! ## Cross-process reduction in the single-process configuration -/

section Collective

variable {R : Type}

/-- C27: in the single-process configuration (the build without QMP) `GlobalSum(v)` leaves
`v` unchanged, with the same length and the same elements in the same order, for every real
vector and for every complex vector. -/
theorem GlobalSum_identity (v : List R) (w : List (Cplx R)) :
    GlobalSum v = v ∧ GlobalSum w = w ∧ (GlobalSum v).length = v.length ∧
      (GlobalSum w).length = w.length ∧
      (∀ i, (GlobalSum v).get? i = v.get? i) ∧ (∀ i, (GlobalSum w).get? i = w.get? i) :=
  ⟨rfl, rfl, rfl, rfl, fun _ => rfl, fun _ => rfl⟩

end Collective

/-! ## Checkerboards outside the subset -/

section Frame

variable {R : Type} [CommRing R]

/-- The call of `CopyVec` leaves the storage of every checkerboard outside the subset as it
was, whether it returns or stops at an assertion. -/
theorem CopyVec_frame {S : Type} (x y : CoarseSpinor S) (xcol0 xcol1 ycol0 : Int)
    (subset : CBSubset) (c a : Nat) (hc : c < subset.start ∨ subset.end_ ≤ c) :
    (CopyVec x xcol0 xcol1 y ycol0 subset).state.data c a = x.data c a := by
  unfold CopyVec
  dsimp only
  split
  · rfl
  · split
    · rfl
    · split
      · rfl
      · refine kernelLoop_frame_cb _ _ _ _ _ _ _ _ ?_ x c a hc
        intro cb site col cspin xs c a h
        exact store_store_data_ne _ _ _ _ _ _ c a h

/-- The call of `PutColumns` leaves the storage of every checkerboard outside the subset as it
was, whether it returns or stops at an assertion. -/
theorem PutColumns_frame {S : Type} (y : Nat → S) (ld : Nat) (x : CoarseSpinor S)
    (subset : CBSubset) (c a : Nat) (hc : c < subset.start ∨ subset.end_ ≤ c) :
    (PutColumns y ld x subset).state.data c a = x.data c a := by
  unfold PutColumns
  dsimp only
  split
  · rfl
  · refine kernelLoop_frame_cb _ _ _ _ _ _ _ _ ?_ x c a hc
    intro cb site col cspin xs c a h
    exact store_store_data_ne _ _ _ _ _ _ c a h

/-- The call of `ZeroVec` leaves the storage of every checkerboard outside the subset as it
was. -/
theorem ZeroVec_frame (x : CoarseSpinor R) (subset : CBSubset) (c a : Nat)
    (hc : c < subset.start ∨ subset.end_ ≤ c) : (ZeroVec x subset).data c a = x.data c a := by
  unfold ZeroVec
  refine kernelLoop_frame_cb _ _ _ _ _ _ _ _ ?_ x c a hc
  intro cb site col cspin xs c a h
  exact store_store_data_ne _ _ _ _ _ _ c a h

/-- The call of `Gamma5Vec` leaves the storage of every checkerboard outside the subset as it
was. -/
theorem Gamma5Vec_frame (x : CoarseSpinor R) (subset : CBSubset) (c a : Nat)
    (hc : c < subset.start ∨ subset.end_ ≤ c) : (Gamma5Vec x subset).data c a = x.data c a := by
  unfold Gamma5Vec
  refine kernelLoop_frame_cb _ _ _ _ _ _ _ _ ?_ x c a hc
  intro cb site col cspin xs c a h
  exact store_store_data_ne _ _ _ _ _ _ c a h

/-- The call of `ScaleVec` with real scalars leaves the storage of every checkerboard outside the subset as it
was, whether it returns or stops at an assertion. -/
theorem ScaleVec_frame (alpha : List R) (x : CoarseSpinor R) (subset : CBSubset) (c a : Nat)
    (hc : c < subset.start ∨ subset.end_ ≤ c) :
    (ScaleVec alpha x subset).state.data c a = x.data c a := by
  unfold ScaleVec
  dsimp only
  split
  · rfl
  · refine kernelLoop_frame_cb _ _ _ _ _ _ _ _ ?_ x c a hc
    intro cb site col cspin xs c a h
    exact store_store_data_ne _ _ _ _ _ _ c a h

/-- The call of `ScaleVec` with complex scalars leaves the storage of every checkerboard outside the subset as it
was, whether it returns or stops at an assertion. -/
theorem ScaleVecComplex_frame (alpha : List (Cplx R)) (x : CoarseSpinor R) (subset : CBSubset)
    (c a : Nat) (hc : c < subset.start ∨ subset.end_ ≤ c) :
    (ScaleVecComplex alpha x subset).state.data c a = x.data c a := by
  unfold ScaleVecComplex
  dsimp only
  refine kernelLoop_frame_cb _ _ _ _ _ _ _ _ ?_ x c a hc
  intro cb site col cspin xs c a h
  exact store_store_data_ne _ _ _ _ _ _ c a h

/-- The call of `AxpyVecT` leaves the storage of every checkerboard outside the subset as it
was, whether it returns or stops at an assertion. -/
theorem AxpyVecT_frame {T : Type} [Zero T] [AxpyScalar T R] (alpha : List T)
    (x y : CoarseSpinor R) (subset : CBSubset) (c a : Nat)
    (hc : c < subset.start ∨ subset.end_ ≤ c) :
    (AxpyVecT alpha x y subset).state.data c a = y.data c a := by
  unfold AxpyVecT
  dsimp only
  split
  · rfl
  · refine kernelLoop_frame_cb _ _ _ _ _ _ _ _ ?_ y c a hc
    intro cb site col cspin xs c a h
    exact store_store_data_ne _ _ _ _ _ _ c a h

/-- The call of `YpeqxVec` leaves the storage of every checkerboard outside the subset as it
was, whether it returns or stops at an assertion. -/
theorem YpeqxVec_frame (x y : CoarseSpinor R) (subset : CBSubset) (c a : Nat)
    (hc : c < subset.start ∨ subset.end_ ≤ c) :
    (YpeqxVec x y subset).state.data c a = y.data c a := by
  unfold YpeqxVec
  dsimp only
  split
  · rfl
  · refine kernelLoop_frame_cb _ _ _ _ _ _ _ _ ?_ y c a hc
    intro cb site col cspin xs c a h
    exact store_store_data_ne _ _ _ _ _ _ c a h

/-- The call of `YmeqxVec` leaves the storage of every checkerboard outside the subset as it
was, whether it returns or stops at an assertion. -/
theorem YmeqxVec_frame (x y : CoarseSpinor R) (subset : CBSubset) (c a : Nat)
    (hc : c < subset.start ∨ subset.end_ ≤ c) :
    (YmeqxVec x y subset).state.data c a = y.data c a := by
  unfold YmeqxVec
  dsimp only
  split
  · rfl
  · refine kernelLoop_frame_cb _ _ _ _ _ _ _ _ ?_ y c a hc
    intro cb site col cspin xs c a h
    exact store_store_data_ne _ _ _ _ _ _ c a h

/-- The call of `BiCGStabPUpdate` leaves the storage of every checkerboard outside the subset as it
was, whether it returns or stops at an assertion. -/
theorem BiCGStabPUpdate_frame (beta omega : List (Cplx R)) (r v p : CoarseSpinor R)
    (subset : CBSubset) (c a : Nat) (hc : c < subset.start ∨ subset.end_ ≤ c) :
    (BiCGStabPUpdate beta r omega v p subset).state.data c a = p.data c a := by
  unfold BiCGStabPUpdate
  dsimp only
  split
  · rfl
  · split
    · rfl
    · refine kernelLoop_frame_cb _ _ _ _ _ _ _ _ ?_ p c a hc
      intro cb site col cspin xs c a h
      exact store_store_data_ne _ _ _ _ _ _ c a h

/-- The call of `BiCGStabXUpdate` leaves the storage of every checkerboard outside the subset as it
was, whether it returns or stops at an assertion. -/
theorem BiCGStabXUpdate_frame (omega alpha : List (Cplx R)) (r p x : CoarseSpinor R)
    (subset : CBSubset) (c a : Nat) (hc : c < subset.start ∨ subset.end_ ≤ c) :
    (BiCGStabXUpdate omega r alpha p x subset).state.data c a = x.data c a := by
  unfold BiCGStabXUpdate
  dsimp only
  split
  · rfl
  · split
    · rfl
    · refine kernelLoop_frame_cb _ _ _ _ _ _ _ _ ?_ x c a hc
      intro cb site col cspin xs c a h
      exact store_store_data_ne _ _ _ _ _ _ c a h

/-- The call of `XmyzVec` leaves the storage of every checkerboard outside the subset as it
was, whether it returns or stops at an assertion. -/
theorem XmyzVec_frame (x y z : CoarseSpinor R) (subset : CBSubset) (c a : Nat)
    (hc : c < subset.start ∨ subset.end_ ≤ c) :
    (XmyzVec x y z subset).state.data c a = z.data c a := by
  unfold XmyzVec
  dsimp only
  split
  · rfl
  · split
    · rfl
    · refine kernelLoop_frame_cb _ _ _ _ _ _ _ _ ?_ z c a hc
      intro cb site col cspin xs c a h
      exact store_store_data_ne _ _ _ _ _ _ c a h

/-- The call of `XmyNorm2Vec` leaves the storage of every checkerboard outside the subset as it
was, whether it returns or stops at an assertion. -/
theorem XmyNorm2Vec_frame (env : OmpEnv) (x y : CoarseSpinor R) (subset : CBSubset)
    (c a : Nat) (hc : c < subset.start ∨ subset.end_ ≤ c) :
    (XmyNorm2Vec env x y subset).state.data c a = x.data c a := by
  by_cases hcompat : AssertCompatible x.GetInfo y.GetInfo = true
  · rw [XmyNorm2Vec_state env x y subset hcompat]
    refine kernelLoop_frame_cb _ _ _ _ _ _ _ _ ?_ x c a hc
    intro cb site col cspin xs c a h
    exact store_store_data_ne _ _ _ _ _ _ c a h
  · unfold XmyNorm2Vec
    simp [hcompat, Run.state]

/-- C30: for every element-wise mutating kernel (`ZeroVec`, `CopyVec`, both overloads of
`ScaleVec`, `AxpyVec` with real and with complex scalars, `YpeqxVec`, `YmeqxVec`,
`BiCGStabPUpdate`, `BiCGStabXUpdate`, `XmyzVec`, `PutColumns`, `Gamma5Vec`, and the in-place
update of `XmyNorm2Vec`) and every subset, every stored real of the mutated field on a
checkerboard `c` outside `[subset.start, subset.end)` is unchanged by the call, whatever the
arguments and whether the call returns or stops at an assertion. -/
theorem outside_subset_unchanged (subset : CBSubset) (c : Nat)
    (hc : c < subset.start ∨ subset.end_ ≤ c) (env : OmpEnv) (x y z : CoarseSpinor R)
    (alpha : List R) (calpha cbeta : List (Cplx R)) (xcol0 xcol1 ycol0 : Int)
    (buf : Nat → R) (ld : Nat) (a : Nat) :
    (ZeroVec x subset).data c a = x.data c a ∧
    (CopyVec x xcol0 xcol1 y ycol0 subset).state.data c a = x.data c a ∧
    (CopyVecAllColumns x y subset).state.data c a = x.data c a ∧
    (ScaleVec alpha x subset).state.data c a = x.data c a ∧
    (ScaleVecComplex calpha x subset).state.data c a = x.data c a ∧
    (AxpyVec alpha x y subset).state.data c a = y.data c a ∧
    (AxpyVec calpha x y subset).state.data c a = y.data c a ∧
    (YpeqxVec x y subset).state.data c a = y.data c a ∧
    (YmeqxVec x y subset).state.data c a = y.data c a ∧
    (BiCGStabPUpdate calpha x cbeta y z subset).state.data c a = z.data c a ∧
    (BiCGStabXUpdate calpha x cbeta y z subset).state.data c a = z.data c a ∧
    (XmyzVec x y z subset).state.data c a = z.data c a ∧
    (PutColumns buf ld x subset).state.data c a = x.data c a ∧
    (Gamma5Vec x subset).data c a = x.data c a ∧
    (XmyNorm2Vec env x y subset).state.data c a = x.data c a :=
  ⟨ZeroVec_frame x subset c a hc, CopyVec_frame x y xcol0 xcol1 ycol0 subset c a hc,
    CopyVec_frame x y 0 _ 0 subset c a hc,
    ScaleVec_frame alpha x subset c a hc, ScaleVecComplex_frame calpha x subset c a hc,
    AxpyVecT_frame alpha x y subset c a hc, AxpyVecT_frame calpha x y subset c a hc,
    YpeqxVec_frame x y subset c a hc, YmeqxVec_frame x y subset c a hc,
    BiCGStabPUpdate_frame calpha cbeta x y z subset c a hc,
    BiCGStabXUpdate_frame calpha cbeta x y z subset c a hc,
    XmyzVec_frame x y z subset c a hc, PutColumns_frame buf ld x subset c a hc,
    Gamma5Vec_frame x subset c a hc, XmyNorm2Vec_frame env x y subset c a hc⟩

end Frame

/-! ## Geometry checks and column counts -/

section Guards

variable {R : Type} [CommRing R]

/-- The geometry check fails for two fields that disagree on the checkerboard-site count or on
the colorspin count. -/
theorem AssertCompatible_of_disagree {S : Type} (x y : CoarseSpinor S)
    (h : x.GetInfo.GetNumCBSites ≠ y.GetInfo.GetNumCBSites ∨
      x.GetNumColorSpin ≠ y.GetNumColorSpin) :
    AssertCompatible x.GetInfo y.GetInfo = false := by
  rw [← Bool.not_eq_true]
  intro hc
  simp only [AssertCompatible, Bool.and_eq_true, beq_iff_eq] at hc
  rcases h with h | h
  · exact h hc.1
  · exact h hc.2

/-- When two of three fields disagree on the geometry, one of the two checks `(x, y)`,
`(z, x)` that a three-field kernel makes fails. -/
theorem AssertCompatible_of_disagree_three {S : Type} (x y z : CoarseSpinor S)
    (h : (x.GetInfo.GetNumCBSites ≠ y.GetInfo.GetNumCBSites ∨
        x.GetNumColorSpin ≠ y.GetNumColorSpin) ∨
      (x.GetInfo.GetNumCBSites ≠ z.GetInfo.GetNumCBSites ∨
        x.GetNumColorSpin ≠ z.GetNumColorSpin) ∨
      (y.GetInfo.GetNumCBSites ≠ z.GetInfo.GetNumCBSites ∨
        y.GetNumColorSpin ≠ z.GetNumColorSpin)) :
    AssertCompatible x.GetInfo y.GetInfo = false ∨
      AssertCompatible z.GetInfo x.GetInfo = false := by
  by_cases hxy : AssertCompatible x.GetInfo y.GetInfo = true
  · by_cases hzx : AssertCompatible z.GetInfo x.GetInfo = true
    · exfalso
      simp only [AssertCompatible, Bool.and_eq_true, beq_iff_eq] at hxy hzx
      simp only [CoarseSpinor.GetNumColorSpin, CoarseSpinor.GetInfo] at h hxy hzx
      rcases h with h | h | h
      · rcases h with h | h
        · exact h hxy.1
        · exact h hxy.2
      · rcases h with h | h
        · exact h hzx.1.symm
        · exact h hzx.2.symm
      · rcases h with h | h
        · exact h (hxy.1.symm.trans hzx.1.symm)
        · exact h (hxy.2.symm.trans hzx.2.symm)
    · right
      simpa using hzx
  · left
    simpa using hxy

/-- C28: every kernel that takes two or more fields checks the compatibility of its field
operands first.  When the operands `x`, `y` of a two-field kernel disagree on the
checkerboard-site count or on the colorspin count, and when any two of the operands `x`, `y`,
`z` of a three-field kernel do, the call stops at the check and the field the kernel would
mutate is left as it was (`InnerProductVec` and `InnerProductMat` mutate no field). -/
theorem incompatible_operands_rejected (env : OmpEnv) (x y z : CoarseSpinor R)
    (subset : CBSubset) (alpha : List R) (calpha cbeta ip : List (Cplx R))
    (xcol0 xcol1 ycol0 : Int) :
    ((x.GetInfo.GetNumCBSites ≠ y.GetInfo.GetNumCBSites ∨
        x.GetNumColorSpin ≠ y.GetNumColorSpin) →
      ((XmyNorm2Vec env x y subset).isFatal = true ∧ (XmyNorm2Vec env x y subset).state = x) ∧
      (InnerProductVec env x y subset).isFatal = true ∧
      (InnerProductMat env x y subset).isFatal = true ∧
      ((UpdateVecs x ip y subset).isFatal = true ∧ (UpdateVecs x ip y subset).state = y) ∧
      ((CopyVec x xcol0 xcol1 y ycol0 subset).isFatal = true ∧
        (CopyVec x xcol0 xcol1 y ycol0 subset).state = x) ∧
      ((CopyVecAllColumns x y subset).isFatal = true ∧
        (CopyVecAllColumns x y subset).state = x) ∧
      ((AxpyVec alpha x y subset).isFatal = true ∧ (AxpyVec alpha x y subset).state = y) ∧
      ((AxpyVec calpha x y subset).isFatal = true ∧ (AxpyVec calpha x y subset).state = y) ∧
      ((YpeqxVec x y subset).isFatal = true ∧ (YpeqxVec x y subset).state = y) ∧
      ((YmeqxVec x y subset).isFatal = true ∧ (YmeqxVec x y subset).state = y)) ∧
    (((x.GetInfo.GetNumCBSites ≠ y.GetInfo.GetNumCBSites ∨
          x.GetNumColorSpin ≠ y.GetNumColorSpin) ∨
        (x.GetInfo.GetNumCBSites ≠ z.GetInfo.GetNumCBSites ∨
          x.GetNumColorSpin ≠ z.GetNumColorSpin) ∨
        (y.GetInfo.GetNumCBSites ≠ z.GetInfo.GetNumCBSites ∨
          y.GetNumColorSpin ≠ z.GetNumColorSpin)) →
      ((BiCGStabPUpdate calpha x cbeta y z subset).isFatal = true ∧
        (BiCGStabPUpdate calpha x cbeta y z subset).state = z) ∧
      ((BiCGStabXUpdate calpha x cbeta y z subset).isFatal = true ∧
        (BiCGStabXUpdate calpha x cbeta y z subset).state = z) ∧
      ((XmyzVec x y z subset).isFatal = true ∧ (XmyzVec x y z subset).state = z)) := by
  refine ⟨?_, ?_⟩
  · intro h
    have hc := AssertCompatible_of_disagree x y h
    refine ⟨?_, ?_, ?_, ?_, ?_, ?_, ?_, ?_, ?_, ?_⟩
    · simp [XmyNorm2Vec, hc, Run.isFatal, Run.state]
    · simp [InnerProductVec, hc, Run.isFatal]
    · simp [InnerProductMat, hc, Run.isFatal]
    · simp [UpdateVecs, hc, Run.isFatal, Run.state]
    · simp [CopyVec, hc, Run.isFatal, Run.state]
    · simp [CopyVecAllColumns, CopyVec, hc, Run.isFatal, Run.state]
    · simp [AxpyVec, AxpyVecT, hc, Run.isFatal, Run.state]
    · simp [AxpyVec, AxpyVecT, hc, Run.isFatal, Run.state]
    · simp [YpeqxVec, hc, Run.isFatal, Run.state]
    · simp [YmeqxVec, hc, Run.isFatal, Run.state]
  · intro h
    have hxyz := AssertCompatible_of_disagree_three x y z h
    have hxzy := AssertCompatible_of_disagree_three x z y (by tauto)
    refine ⟨?_, ?_, ?_⟩
    · unfold BiCGStabPUpdate
      rcases hxzy with h1 | h1
      · simp [h1, Run.isFatal, Run.state]
      · cases h2 : AssertCompatible x.GetInfo z.GetInfo <;>
          simp [h1, h2, Run.isFatal, Run.state]
    · unfold BiCGStabXUpdate
      rcases hxyz with h1 | h1
      · simp [h1, Run.isFatal, Run.state]
      · cases h2 : AssertCompatible x.GetInfo y.GetInfo <;>
          simp [h1, h2, Run.isFatal, Run.state]
    · unfold XmyzVec
      rcases hxyz with h1 | h1
      · simp [h1, Run.isFatal, Run.state]
      · cases h2 : AssertCompatible x.GetInfo y.GetInfo <;>
          simp [h1, h2, Run.isFatal, Run.state]

/-- C29, as amended: none of the kernels that pair columns of several operands validates a
column count or the length of a scalar vector.  Each of them stops exactly when its geometry
check fails, whatever the column counts of its operands and the lengths of its scalar
vectors. -/
theorem column_counts_not_validated (env : OmpEnv) (x y z : CoarseSpinor R)
    (subset : CBSubset) (alpha : List R) (calpha cbeta : List (Cplx R)) :
    (XmyNorm2Vec env x y subset).isFatal = (!AssertCompatible x.GetInfo y.GetInfo) ∧
    (InnerProductVec env x y subset).isFatal = (!AssertCompatible x.GetInfo y.GetInfo) ∧
    (AxpyVec alpha x y subset).isFatal = (!AssertCompatible x.GetInfo y.GetInfo) ∧
    (AxpyVec calpha x y subset).isFatal = (!AssertCompatible x.GetInfo y.GetInfo) ∧
    (YpeqxVec x y subset).isFatal = (!AssertCompatible x.GetInfo y.GetInfo) ∧
    (YmeqxVec x y subset).isFatal = (!AssertCompatible x.GetInfo y.GetInfo) ∧
    (XmyzVec x y z subset).isFatal =
      (!AssertCompatible x.GetInfo y.GetInfo || !AssertCompatible z.GetInfo x.GetInfo) ∧
    (BiCGStabPUpdate calpha x cbeta y z subset).isFatal =
      (!AssertCompatible x.GetInfo z.GetInfo || !AssertCompatible y.GetInfo x.GetInfo) ∧
    (BiCGStabXUpdate calpha x cbeta y z subset).isFatal =
      (!AssertCompatible x.GetInfo y.GetInfo || !AssertCompatible z.GetInfo x.GetInfo) := by
  refine ⟨?_, ?_, ?_, ?_, ?_, ?_, ?_, ?_, ?_⟩
  · unfold XmyNorm2Vec
    cases hc : AssertCompatible x.GetInfo y.GetInfo <;> simp [hc, Run.isFatal]
  · unfold InnerProductVec
    cases hc : AssertCompatible x.GetInfo y.GetInfo <;> simp [hc, Run.isFatal]
  · unfold AxpyVec AxpyVecT
    cases hc : AssertCompatible x.GetInfo y.GetInfo <;> simp [hc, Run.isFatal]
  · unfold AxpyVec AxpyVecT
    cases hc : AssertCompatible x.GetInfo y.GetInfo <;> simp [hc, Run.isFatal]
  · unfold YpeqxVec
    cases hc : AssertCompatible x.GetInfo y.GetInfo <;> simp [hc, Run.isFatal]
  · unfold YmeqxVec
    cases hc : AssertCompatible x.GetInfo y.GetInfo <;> simp [hc, Run.isFatal]
  · unfold XmyzVec
    cases hc : AssertCompatible x.GetInfo y.GetInfo <;>
      cases hd : AssertCompatible z.GetInfo x.GetInfo <;> simp [hc, hd, Run.isFatal]
  · unfold BiCGStabPUpdate
    cases hc : AssertCompatible x.GetInfo z.GetInfo <;>
      cases hd : AssertCompatible y.GetInfo x.GetInfo <;> simp [hc, hd, Run.isFatal]
  · unfold BiCGStabXUpdate
    cases hc : AssertCompatible x.GetInfo y.GetInfo <;>
      cases hd : AssertCompatible z.GetInfo x.GetInfo <;> simp [hc, hd, Run.isFatal]

end Guards

/-! ## Reductions of one-column fields -/

section ReductionBuffer

/-- The accumulator update `v[idx] += s` commutes with an additive map of the accumulators. -/
theorem multivector.addAt_map {T : Type} [Zero T] [Add T] (f : T → T) (h0 : f 0 = 0)
    (hadd : ∀ a b, f (a + b) = f a + f b) (m : multivector T) (idx : Nat) (s : T) :
    (⟨m.n, m.threads, m.v.map f⟩ : multivector T).addAt idx (f s) =
      ⟨(m.addAt idx s).n, (m.addAt idx s).threads, (m.addAt idx s).v.map f⟩ := by
  simp only [multivector.addAt, multivector.writeAt, multivector.readAt, List.map_set, hadd]
  congr 3
  rw [← h0, List.getD_map, h0]

/-- The method `reduce` commutes with an additive map of the accumulators. -/
theorem multivector.reduce_map {T : Type} [Zero T] [Add T] (f : T → T) (h0 : f 0 = 0)
    (hadd : ∀ a b, f (a + b) = f a + f b) (m : multivector T) :
    (⟨m.n, m.threads, m.v.map f⟩ : multivector T).reduce = m.reduce.map (List.map f) := by
  unfold multivector.reduce
  dsimp only
  have key : ∀ r0 : Option (List T),
      forLoop 0 m.n (fun i =>
        forLoop 0 m.threads (fun j r =>
          match r with
          | none => none
          | some r =>
            match r[j]?, (m.v.map f)[i * m.threads + j]? with
            | some rj, some vij => some (r.set j (rj + vij))
            | _, _ => none)) (r0.map (List.map f)) =
      (forLoop 0 m.n (fun i =>
        forLoop 0 m.threads (fun j r =>
          match r with
          | none => none
          | some r =>
            match r[j]?, m.v[i * m.threads + j]? with
            | some rj, some vij => some (r.set j (rj + vij))
            | _, _ => none)) r0).map (List.map f) := by
    intro r0
    symm
    apply forLoop_map (Option.map (List.map f))
    intro i _ _ r
    apply forLoop_map (Option.map (List.map f))
    intro j _ _ r
    cases r with
    | none => rfl
    | some r =>
      simp only [Option.map_some', List.getElem?_map]
      cases hr : r[j]? with
      | none => simp
      | some rj =>
        cases hv : m.v[i * m.threads + j]? with
        | none => simp
        | some vij => simp [List.map_set, hadd]
  have h := key (some (List.replicate m.n 0))
  simp only [Option.map_some', List.map_replicate, h0] at h
  exact h

/-- The cross-process sum of the single-process configuration does not change a result. -/
theorem map_GlobalSum {T : Type} (o : Option (List T)) : o.map GlobalSum = o := by
  cases o <;> rfl

/-- The reduction of a one-entry accumulator on one thread returns that entry. -/
theorem multivector.reduce_one {T : Type} [Zero T] [Add T] (m : multivector T)
    (hn : m.n = 1) (ht : m.threads = 1) (hv : m.v.length = 1) :
    ∃ v0, m.reduce = some [0 + v0] := by
  obtain ⟨n, threads, v⟩ := m
  simp only at hn ht hv
  subst hn ht
  match v, hv with
  | [v0], _ => exact ⟨v0, rfl⟩

/-- The accumulator update keeps the shape of the reduction buffer. -/
theorem multivector.addAt_shape {T : Type} [Zero T] [Add T] (m : multivector T) (idx : Nat)
    (s : T) : ((m.addAt idx s).n, (m.addAt idx s).threads, (m.addAt idx s).v.length) =
      (m.n, m.threads, m.v.length) := by
  simp [multivector.addAt, multivector.writeAt]

/-- A loop of one iteration runs its body once. -/
theorem forLoop_one {σ : Type} (body : Nat → σ → σ) (s : σ) : forLoop 0 1 body s = body 0 s :=
  rfl

end ReductionBuffer

section Reductions

variable {R : Type} [CommRing R]

/-- The squared norms of a field `x2` whose entries on the subset are those of `x` times the
real `a` are `a * a` times those of `x`, when `Norm2Vec` returns them. -/
theorem Norm2Vec_scaled_field (env : OmpEnv) (x x2 : CoarseSpinor R) (a : R)
    (subset : CBSubset) (hi : x2.info = x.info) (hn : x2._n_col = x._n_col)
    (hload : ∀ cb site col cspin, subset.start ≤ cb → cb < subset.end_ →
      site < x.GetInfo.GetNumCBSites → col < x.GetNCol → cspin < x.GetNumColorSpin →
      x2.loadC (x.GetSiteDataPtr col cb site) cspin =
        (x.loadC (x.GetSiteDataPtr col cb site) cspin).smulReal a) :
    Norm2Vec env x2 subset = (Norm2Vec env x subset).map (List.map (fun v => a * a * v)) := by
  have hncol : x2.GetNCol = x.GetNCol := hn
  have hncs : x2.GetNumColorSpin = x.GetNumColorSpin := by
    simp only [CoarseSpinor.GetNumColorSpin, hi]
  have hinfo : x2.GetInfo = x.GetInfo := hi
  have hptr : ∀ col cb site, x2.GetSiteDataPtr col cb site = x.GetSiteDataPtr col cb site :=
    CoarseSpinor.GetSiteDataPtr_congr x2 x hi hn
  have h0 : (fun v : R => a * a * v) 0 = 0 := by simp
  have hadd : ∀ u w : R, (fun v : R => a * a * v) (u + w) =
      (fun v : R => a * a * v) u + (fun v : R => a * a * v) w := by
    intro u w
    simp only
    ring
  simp only [Norm2Vec, map_GlobalSum, hncol, hncs, hinfo, hptr]
  rw [← multivector.reduce_map _ h0 hadd]
  congr 1
  have hcreate : (multivector.create env x.GetNCol : multivector R) =
      ⟨(multivector.create env x.GetNCol : multivector R).n,
        (multivector.create env x.GetNCol : multivector R).threads,
        (multivector.create env x.GetNCol : multivector R).v.map (fun v => a * a * v)⟩ := by
    simp [multivector.create]
  conv_lhs => rw [hcreate]
  symm
  apply forLoop_map (fun m : multivector R =>
    (⟨m.n, m.threads, m.v.map (fun v => a * a * v)⟩ : multivector R))
  intro cb h1 h2 m
  apply forLoop_map (fun m : multivector R =>
    (⟨m.n, m.threads, m.v.map (fun v => a * a * v)⟩ : multivector R))
  intro site _ h3 m
  apply forLoop_map (fun m : multivector R =>
    (⟨m.n, m.threads, m.v.map (fun v => a * a * v)⟩ : multivector R))
  intro col _ h4 m
  have hsum : forLoop 0 x.GetNumColorSpin (fun cspin cspin_sum =>
        cspin_sum +
          (x2.load (x.GetSiteDataPtr col cb site) (RE + n_complex * cspin) *
              x2.load (x.GetSiteDataPtr col cb site) (RE + n_complex * cspin) +
            x2.load (x.GetSiteDataPtr col cb site) (IM + n_complex * cspin) *
              x2.load (x.GetSiteDataPtr col cb site) (IM + n_complex * cspin))) (0 : R) =
      (fun v : R => a * a * v) (forLoop 0 x.GetNumColorSpin (fun cspin cspin_sum =>
        cspin_sum +
          (x.load (x.GetSiteDataPtr col cb site) (RE + n_complex * cspin) *
              x.load (x.GetSiteDataPtr col cb site) (RE + n_complex * cspin) +
            x.load (x.GetSiteDataPtr col cb site) (IM + n_complex * cspin) *
              x.load (x.GetSiteDataPtr col cb site) (IM + n_complex * cspin))) (0 : R)) := by
    symm
    refine (forLoop_map (fun v : R => a * a * v) 0 x.GetNumColorSpin _
      (fun cspin cspin_sum =>
        cspin_sum +
          (x2.load (x.GetSiteDataPtr col cb site) (RE + n_complex * cspin) *
              x2.load (x.GetSiteDataPtr col cb site) (RE + n_complex * cspin) +
            x2.load (x.GetSiteDataPtr col cb site) (IM + n_complex * cspin) *
              x2.load (x.GetSiteDataPtr col cb site) (IM + n_complex * cspin))) ?_ 0).trans ?_
    · intro cspin _ h5 acc
      have h := hload cb site col cspin h1 h2 h3 h4 h5
      have hre := congrArg Cplx.re h
      have him := congrArg Cplx.im h
      simp only [Cplx.smulReal_re, Cplx.smulReal_im, CoarseSpinor.loadC] at hre him
      beta_reduce
      rw [hre, him]
      ring
    · simp only [mul_zero]
  rw [hsum]
  exact (multivector.addAt_map (fun v : R => a * a * v) h0 hadd m _ _).symm

/-- The field `ScaleVec` leaves has the geometry and the column count of its argument. -/
theorem ScaleVec_shape (alpha : List R) (x : CoarseSpinor R) (subset : CBSubset) :
    (ScaleVec alpha x subset).state.info = x.info ∧
      (ScaleVec alpha x subset).state._n_col = x._n_col := by
  unfold ScaleVec
  dsimp only
  split
  · exact ⟨rfl, rfl⟩
  · simp only [Run.state]
    refine kernelLoop_shape _ _ _ _ _ _ _ _ ?_ x
    intro _ _ _ _ _
    exact ⟨rfl, rfl⟩

/-- The squared norm of a one-column field after `ScaleVec([a], x, subset)` is `a * a` times
the one before, in every environment in which `Norm2Vec` returns. -/
theorem Norm2Vec_after_ScaleVec (env : OmpEnv) (x : CoarseSpinor R) (a : R)
    (subset : CBSubset) (hcol : x.GetNCol = 1) :
    Norm2Vec env (ScaleVec [a] x subset).state subset =
      (Norm2Vec env x subset).map (List.map (fun v => a * a * v)) := by
  obtain ⟨hi, hn⟩ := ScaleVec_shape [a] x subset
  apply Norm2Vec_scaled_field env x _ a subset hi hn
  intro cb site col cspin h1 h2 h3 h4 h5
  have h := (ScaleVec_entry [a] x subset (by rw [hcol]; rfl)).2 cb site col cspin h1 h2 h3 h4 h5
  have hc0 : col = 0 := by omega
  rw [h, hc0]
  rfl

/-- On one OpenMP thread `Norm2Vec` returns a one-entry vector for a one-column field. -/
theorem Norm2Vec_one_column_returns (env : OmpEnv) (hopen : env.openmp = true)
    (hthreads : env.max_threads = 1) (x : CoarseSpinor R) (subset : CBSubset)
    (hcol : x.GetNCol = 1) : ∃ v, Norm2Vec env x subset = some [v] := by
  simp only [Norm2Vec, map_GlobalSum]
  have hshape := cellLoop_obs_frame
    (fun m : multivector R => (m.n, m.threads, m.v.length)) subset.start subset.end_
    x.GetInfo.GetNumCBSites x.GetNCol
    (fun cb cbsite col (norm_sqm : multivector R) =>
      norm_sqm.addAt (norm_sqm.mine env (env.thread_num cb cbsite col) + col)
        (forLoop 0 x.GetNumColorSpin (fun cspin cspin_sum =>
          cspin_sum +
            (x.load (x.GetSiteDataPtr col cb cbsite) (RE + n_complex * cspin) *
                x.load (x.GetSiteDataPtr col cb cbsite) (RE + n_complex * cspin) +
              x.load (x.GetSiteDataPtr col cb cbsite) (IM + n_complex * cspin) *
                x.load (x.GetSiteDataPtr col cb cbsite) (IM + n_complex * cspin))) (0 : R)))
    (fun _ _ _ _ _ _ _ st => multivector.addAt_shape st _ _)
    (multivector.create env x.GetNCol)
  simp only [multivector.create, hopen, hthreads, hcol, if_true, List.length_replicate,
    Prod.mk.injEq] at hshape
  obtain ⟨v0, h⟩ := multivector.reduce_one _ hshape.1 hshape.2.1 hshape.2.2
  simp only [multivector.create, hopen, hthreads, hcol, if_true]
  exact ⟨0 + v0, h⟩

/-- For one-column fields `InnerProductMat` and `InnerProductVec` run the same accumulation:
the calls end the same way and return the same value, in every environment. -/
theorem InnerProductMat_eq_InnerProductVec (env : OmpEnv) (x y : CoarseSpinor R)
    (subset : CBSubset) (hx : x.GetNCol = 1) (hy : y.GetNCol = 1) :
    InnerProductMat env x y subset = InnerProductVec env x y subset := by
  unfold InnerProductMat InnerProductVec
  dsimp only
  split
  · rfl
  · have hmap : ∀ o : Option (List (Cplx R)), o.map (fun l => l.map toDoubleC) = o := by
      intro o
      cases o with
      | none => rfl
      | some l => exact congrArg some (List.map_id l)
    rw [hmap, hx, hy]
    congr 3
    apply forLoop_congr
    intro cb _ _ m
    apply forLoop_congr
    intro site _ _ m
    rw [forLoop_one]
    unfold XGEMM
    rw [forLoop_one, forLoop_one]
    have htemp : forLoop 0 x.GetNumColorSpin (fun l temp =>
          temp + opEntry Trans.C (x.loadC (x.GetSiteDataPtr 0 cb site)) x.GetNumColorSpin 0 l *
            opEntry Trans.N (y.loadC (y.GetSiteDataPtr 0 cb site)) x.GetNumColorSpin l 0)
          (0 : Cplx R) =
        (fun acc : R × R => (⟨acc.1, acc.2⟩ : Cplx R))
          (forLoop 0 x.GetNumColorSpin (fun cspin (acc : R × R) =>
            (acc.1 + (x.load (x.GetSiteDataPtr 0 cb site) (RE + n_complex * cspin) *
                        y.load (y.GetSiteDataPtr 0 cb site) (RE + n_complex * cspin) +
                      x.load (x.GetSiteDataPtr 0 cb site) (IM + n_complex * cspin) *
                        y.load (y.GetSiteDataPtr 0 cb site) (IM + n_complex * cspin)),
             acc.2 + (x.load (x.GetSiteDataPtr 0 cb site) (RE + n_complex * cspin) *
                        y.load (y.GetSiteDataPtr 0 cb site) (IM + n_complex * cspin) -
                      x.load (x.GetSiteDataPtr 0 cb site) (IM + n_complex * cspin) *
                        y.load (y.GetSiteDataPtr 0 cb site) (RE + n_complex * cspin))))
            ((0 : R), (0 : R))) := by
      symm
      refine (forLoop_map (fun acc : R × R => (⟨acc.1, acc.2⟩ : Cplx R)) 0 x.GetNumColorSpin _
        (fun l temp =>
          temp + opEntry Trans.C (x.loadC (x.GetSiteDataPtr 0 cb site)) x.GetNumColorSpin 0 l *
            opEntry Trans.N (y.loadC (y.GetSiteDataPtr 0 cb site)) x.GetNumColorSpin l 0)
        ?_ ((0 : R), (0 : R))).trans rfl
      intro l _ _ acc
      apply Cplx.ext
      · simp only [opEntry, Cplx.add_re, Cplx.mul_re, Cplx.conj_re, Cplx.conj_im,
          CoarseSpinor.loadC, Nat.mul_zero, Nat.add_zero]
        ring
      · simp only [opEntry, Cplx.add_im, Cplx.mul_im, Cplx.conj_re, Cplx.conj_im,
          CoarseSpinor.loadC, Nat.mul_zero, Nat.add_zero]
        ring
    rw [htemp]
    simp only [multivector.addAt, Nat.mul_zero, Nat.add_zero]
    congr 1
    apply Cplx.ext
    · simp only [Cplx.add_re, Cplx.mul_re, Cplx.one_re, Cplx.one_im]
      ring
    · simp only [Cplx.add_im, Cplx.mul_im, Cplx.one_re, Cplx.one_im]
      ring

/-- On one OpenMP thread, for a one-column field `x`, `Norm2Vec` returns a one-entry vector
before and after `ScaleVec([a], x, subset)`, and the entry after is `a * a` times the entry
before. -/
theorem Norm2Vec_scaling_one_thread (env : OmpEnv) (hopen : env.openmp = true)
    (hthreads : env.max_threads = 1) (x : CoarseSpinor R) (a : R) (subset : CBSubset)
    (hcol : x.GetNCol = 1) :
    ∃ v, Norm2Vec env x subset = some [v] ∧
      Norm2Vec env (ScaleVec [a] x subset).state subset = some [a * a * v] := by
  obtain ⟨v, hv⟩ := Norm2Vec_one_column_returns env hopen hthreads x subset hcol
  refine ⟨v, hv, ?_⟩
  rw [Norm2Vec_after_ScaleVec env x a subset hcol, hv]
  rfl

/-- On one OpenMP thread `InnerProductVec` returns a one-entry vector for compatible
one-column fields. -/
theorem InnerProductVec_one_column_returns (env : OmpEnv) (hopen : env.openmp = true)
    (hthreads : env.max_threads = 1) (x y : CoarseSpinor R) (subset : CBSubset)
    (hcompat : AssertCompatible x.GetInfo y.GetInfo = true) (hcol : x.GetNCol = 1) :
    ∃ v, InnerProductVec env x y subset = Run.ret () (some [v]) := by
  simp only [InnerProductVec, hcompat, Bool.not_true, Bool.false_eq_true, if_false,
    map_GlobalSum]
  have hshape := cellLoop_obs_frame
    (fun m : multivector (Cplx R) => (m.n, m.threads, m.v.length)) subset.start subset.end_
    x.GetInfo.GetNumCBSites x.GetNCol
    (fun cb cbsite col (ipprodm : multivector (Cplx R)) =>
      ipprodm.addAt (ipprodm.mine env (env.thread_num cb cbsite col) + col)
        ⟨(forLoop 0 x.GetNumColorSpin (fun cspin (acc : R × R) =>
          (acc.1 + (x.load (x.GetSiteDataPtr col cb cbsite) (RE + n_complex * cspin) *
                      y.load (y.GetSiteDataPtr col cb cbsite) (RE + n_complex * cspin) +
                    x.load (x.GetSiteDataPtr col cb cbsite) (IM + n_complex * cspin) *
                      y.load (y.GetSiteDataPtr col cb cbsite) (IM + n_complex * cspin)),
           acc.2 + (x.load (x.GetSiteDataPtr col cb cbsite) (RE + n_complex * cspin) *
                      y.load (y.GetSiteDataPtr col cb cbsite) (IM + n_complex * cspin) -
                    x.load (x.GetSiteDataPtr col cb cbsite) (IM + n_complex * cspin) *
                      y.load (y.GetSiteDataPtr col cb cbsite) (RE + n_complex * cspin))))
          ((0 : R), (0 : R))).1,
         (forLoop 0 x.GetNumColorSpin (fun cspin (acc : R × R) =>
          (acc.1 + (x.load (x.GetSiteDataPtr col cb cbsite) (RE + n_complex * cspin) *
                      y.load (y.GetSiteDataPtr col cb cbsite) (RE + n_complex * cspin) +
                    x.load (x.GetSiteDataPtr col cb cbsite) (IM + n_complex * cspin) *
                      y.load (y.GetSiteDataPtr col cb cbsite) (IM + n_complex * cspin)),
           acc.2 + (x.load (x.GetSiteDataPtr col cb cbsite) (RE + n_complex * cspin) *
                      y.load (y.GetSiteDataPtr col cb cbsite) (IM + n_complex * cspin) -
                    x.load (x.GetSiteDataPtr col cb cbsite) (IM + n_complex * cspin) *
                      y.load (y.GetSiteDataPtr col cb cbsite) (RE + n_complex * cspin))))
          ((0 : R), (0 : R))).2⟩)
    (fun _ _ _ _ _ _ _ st => multivector.addAt_shape st _ _)
    (multivector.create env x.GetNCol)
  simp only [multivector.create, hopen, hthreads, hcol, if_true, List.length_replicate,
    Prod.mk.injEq] at hshape
  obtain ⟨v0, h⟩ := multivector.reduce_one _ hshape.1 hshape.2.1 hshape.2.2
  simp only [multivector.create, hopen, hthreads, hcol, if_true]
  exact ⟨0 + v0, congrArg (Run.ret ()) h⟩

/-- On one OpenMP thread, for compatible one-column fields, `InnerProductMat` and
`InnerProductVec` both return a one-entry result, and the two entries are equal. -/
theorem InnerProduct_consistency_one_thread (env : OmpEnv) (hopen : env.openmp = true)
    (hthreads : env.max_threads = 1) (x y : CoarseSpinor R) (subset : CBSubset)
    (hcompat : AssertCompatible x.GetInfo y.GetInfo = true) (hx : x.GetNCol = 1)
    (hy : y.GetNCol = 1) :
    ∃ v, (InnerProductMat env x y subset).value = some (some [v]) ∧
      (InnerProductVec env x y subset).value = some (some [v]) := by
  obtain ⟨v, hv⟩ := InnerProductVec_one_column_returns env hopen hthreads x y subset hcompat hx
  refine ⟨v, ?_, ?_⟩
  · rw [InnerProductMat_eq_InnerProductVec env x y subset hx hy, hv]
    rfl
  · rw [hv]
    rfl

end Reductions

/-! ## Instances for the kernels above -/

section MoreInstances

/-- An instance of the theorem for C21: column 1 of `xTwoCol` on checkerboard 1 after
`ZeroVec` and a scaling by `(3, 5)`, respectively by `(i, 1 + i)`. -/
theorem ZeroVec_then_ScaleVec_zero_witness :
    [(3 : Int), 5].length = xTwoCol.GetNCol ∧ scalarsA.length = xTwoCol.GetNCol ∧
    (ScaleVec [(3 : Int), 5] (ZeroVec xTwoCol SUBSET_ALL) SUBSET_ALL).isFatal = false ∧
    (ScaleVec [(3 : Int), 5] (ZeroVec xTwoCol SUBSET_ALL) SUBSET_ALL).state.loadC
      (xTwoCol.GetSiteDataPtr 1 1 0) 0 = 0 ∧
    (ScaleVecComplex scalarsA (ZeroVec xTwoCol SUBSET_ALL) SUBSET_ALL).state.loadC
      (xTwoCol.GetSiteDataPtr 1 1 0) 0 = 0 :=
  ⟨by decide, by decide,
    (ZeroVec_then_ScaleVec_zero xTwoCol SUBSET_ALL [3, 5] scalarsA (by decide) (by decide)).1,
    ((ZeroVec_then_ScaleVec_zero xTwoCol SUBSET_ALL [3, 5] scalarsA (by decide)
      (by decide)).2.2 1 0 1 0 (by decide) (by decide) (by decide) (by decide) (by decide)).1,
    ((ZeroVec_then_ScaleVec_zero xTwoCol SUBSET_ALL [3, 5] scalarsA (by decide)
      (by decide)).2.2 1 0 1 0 (by decide) (by decide) (by decide) (by decide) (by decide)).2⟩

/-- An instance of the theorem for C23: column 1 of `xTwoCol` (which holds `2 + 0i`) on
checkerboard 0 after `ZeroVec` on the even checkerboard. -/
theorem ZeroVec_zeroes_subset_witness :
    SUBSET_EVEN.start ≤ 0 ∧ 0 < SUBSET_EVEN.end_ ∧ 0 < xTwoCol.GetInfo.GetNumCBSites ∧
    1 < xTwoCol.GetNCol ∧ 0 < xTwoCol.GetNumColorSpin ∧
    xTwoCol.load (xTwoCol.GetSiteDataPtr 1 0 0) (RE + n_complex * 0) = 2 ∧
    (ZeroVec xTwoCol SUBSET_EVEN).load (xTwoCol.GetSiteDataPtr 1 0 0) (RE + n_complex * 0) = 0 ∧
    (ZeroVec xTwoCol SUBSET_EVEN).load (xTwoCol.GetSiteDataPtr 1 0 0) (IM + n_complex * 0) = 0 :=
  ⟨by decide, by decide, by decide, by decide, by decide, by decide,
    ZeroVec_zeroes_subset xTwoCol SUBSET_EVEN 0 0 1 0 (by decide) (by decide) (by decide)
      (by decide) (by decide)⟩

/-- An instance of the theorem for C24 on a field with three colorspin components
(`3 / 2 = 1`): component 1, which holds `3 + 4i`, becomes `−3 − 4i`, and component 0, which
holds `1 + 2i`, is kept. -/
theorem Gamma5Vec_flips_upper_half_witness :
    xOddCs.GetNumColorSpin = 3 ∧
    (Gamma5Vec xOddCs SUBSET_ALL).load (xOddCs.GetSiteDataPtr 0 1 0) (RE + n_complex * 1) = -3 ∧
    (Gamma5Vec xOddCs SUBSET_ALL).load (xOddCs.GetSiteDataPtr 0 1 0) (IM + n_complex * 1) = -4 ∧
    (Gamma5Vec xOddCs SUBSET_ALL).load (xOddCs.GetSiteDataPtr 0 1 0) (RE + n_complex * 0) = 1 ∧
    (Gamma5Vec xOddCs SUBSET_ALL).load (xOddCs.GetSiteDataPtr 0 1 0) (IM + n_complex * 0) = 2 :=
  ⟨by decide,
    (((Gamma5Vec_flips_upper_half xOddCs SUBSET_ALL 1 0 0 1 (by decide) (by decide) (by decide)
      (by decide) (by decide)).1 (by decide)).1).trans (by decide),
    (((Gamma5Vec_flips_upper_half xOddCs SUBSET_ALL 1 0 0 1 (by decide) (by decide) (by decide)
      (by decide) (by decide)).1 (by decide)).2).trans (by decide),
    (((Gamma5Vec_flips_upper_half xOddCs SUBSET_ALL 1 0 0 0 (by decide) (by decide) (by decide)
      (by decide) (by decide)).2 (by decide)).1).trans (by decide),
    (((Gamma5Vec_flips_upper_half xOddCs SUBSET_ALL 1 0 0 0 (by decide) (by decide) (by decide)
      (by decide) (by decide)).2 (by decide)).2).trans (by decide)⟩

/-- An instance of the theorem for C28: `xTwoCol` has one site per checkerboard and `xConst`
four, so `AxpyVec` on the pair and `XmyzVec` on a triple that contains the pair stop at the
geometry check. -/
theorem incompatible_operands_rejected_witness :
    (xTwoCol.GetInfo.GetNumCBSites ≠ xConst.GetInfo.GetNumCBSites ∨
      xTwoCol.GetNumColorSpin ≠ xConst.GetNumColorSpin) ∧
    (AxpyVec scalarsB xTwoCol xConst SUBSET_ALL).isFatal = true ∧
    (AxpyVec scalarsB xTwoCol xConst SUBSET_ALL).state = xConst ∧
    (XmyzVec xTwoCol yTwoCol xConst SUBSET_ALL).isFatal = true :=
  ⟨by decide,
    ((incompatible_operands_rejected env1 xTwoCol xConst xConst SUBSET_ALL [] scalarsB scalarsA
      [] 0 0 0).1 (by decide)).2.2.2.2.2.2.2.1.1,
    ((incompatible_operands_rejected env1 xTwoCol xConst xConst SUBSET_ALL [] scalarsB scalarsA
      [] 0 0 0).1 (by decide)).2.2.2.2.2.2.2.1.2,
    ((incompatible_operands_rejected env1 xTwoCol yTwoCol xConst SUBSET_ALL [] scalarsB scalarsA
      [] 0 0 0).2 (by decide)).2.2.1⟩

/-- A call the claim C29 says is rejected and the kernels accept: `y` has one column where `x`
has two (`YpeqxVec`, `XmyNorm2Vec`, `InnerProductVec`), and the scalar vectors are empty for
a two-column `x` (`AxpyVec`, `BiCGStabPUpdate`). -/
theorem column_mismatch_accepted :
    yOneCol.GetNCol < xTwoCol.GetNCol ∧
    (YpeqxVec xTwoCol yOneCol SUBSET_ALL).isFatal = false ∧
    (XmyNorm2Vec env1 xTwoCol yOneCol SUBSET_ALL).isFatal = false ∧
    (InnerProductVec env1 xTwoCol yOneCol SUBSET_ALL).isFatal = false ∧
    ([] : List Int).length < xTwoCol.GetNCol ∧
    (AxpyVec ([] : List Int) xTwoCol yTwoCol SUBSET_ALL).isFatal = false ∧
    (BiCGStabPUpdate ([] : List (Cplx Int)) xTwoCol [] yTwoCol zTwoCol SUBSET_ALL).isFatal =
      false := by
  decide

/-- An instance of the theorem for C30: with the even subset, the stored reals of
checkerboard 1 are those of the argument after `ZeroVec`, `Gamma5Vec` and `YpeqxVec`. -/
theorem outside_subset_unchanged_witness :
    (1 < SUBSET_EVEN.start ∨ SUBSET_EVEN.end_ ≤ 1) ∧
    (ZeroVec xTwoCol SUBSET_EVEN).data 1 2 = 2 ∧
    (Gamma5Vec xTwoCol SUBSET_EVEN).data 1 2 = 2 ∧
    (YpeqxVec xTwoCol yTwoCol SUBSET_EVEN).state.data 1 2 = 1 :=
  ⟨by decide,
    ((outside_subset_unchanged SUBSET_EVEN 1 (by decide) env1 xTwoCol yTwoCol zTwoCol [3, 5]
      scalarsA scalarsB 0 2 0 bufZero 4 2).1).trans (by decide),
    ((outside_subset_unchanged SUBSET_EVEN 1 (by decide) env1 xTwoCol yTwoCol zTwoCol [3, 5]
      scalarsA scalarsB 0 2 0 bufZero 4 2).2.2.2.2.2.2.2.2.2.2.2.2.2.1).trans (by decide),
    ((outside_subset_unchanged SUBSET_EVEN 1 (by decide) env1 xTwoCol yTwoCol zTwoCol [3, 5]
      scalarsA scalarsB 0 2 0 bufZero 4 2).2.2.2.2.2.2.2.1).trans (by decide)⟩

/-- C22 at two OpenMP threads, for the one-column field `xTen` of the scenario: `Norm2Vec`
returns no vector, before and after `ScaleVec([2], x)`, because the reduction of the
one-entry accumulator indexes `r[1]` in a result vector of length 1. -/
theorem Norm2Vec_one_column_two_threads :
    xTen.GetNCol = 1 ∧
    Norm2Vec env2 xTen SUBSET_EVEN = none ∧
    Norm2Vec env2 (ScaleVec [(2 : Int)] xTen SUBSET_EVEN).state SUBSET_EVEN = none := by
  decide

/-- The scenario of C22 at one OpenMP thread: `c = 1 + 2i` on ten sites of the even
checkerboard gives `[10·|c|²] = [50]`, and `[40·|c|²] = [200]` after the scaling by 2. -/
theorem Norm2Vec_scenario_one_thread :
    Norm2Vec env1 xTen SUBSET_EVEN = some [50] ∧
    Norm2Vec env1 (ScaleVec [(2 : Int)] xTen SUBSET_EVEN).state SUBSET_EVEN = some [200] := by
  decide

/-- C26 at two OpenMP threads, for the compatible one-column fields `xConst` and `yConst`:
neither `InnerProductMat` nor `InnerProductVec` returns a vector, because the reduction of
the one-entry accumulator indexes `r[1]` in a result vector of length 1. -/
theorem InnerProduct_one_column_two_threads :
    xConst.GetNCol = 1 ∧ yConst.GetNCol = 1 ∧
    AssertCompatible xConst.GetInfo yConst.GetInfo = true ∧
    (InnerProductMat env2 xConst yConst SUBSET_EVEN).value = some none ∧
    (InnerProductVec env2 xConst yConst SUBSET_EVEN).value = some none := by
  decide

/-- The same calls at one OpenMP thread: both kernels return `[0 + 4i]`. -/
theorem InnerProduct_one_column_one_thread :
    (InnerProductMat env1 xConst yConst SUBSET_EVEN).value = some (some [⟨0, 4⟩]) ∧
    (InnerProductVec env1 xConst yConst SUBSET_EVEN).value = some (some [⟨0, 4⟩]) := by
  decide

end MoreInstances

/-! ## Loop invariants -/

section LoopInvariants

/-- A property of the state that every iteration preserves holds after the loop. -/
theorem forLoop_inv {σ : Type} (P : σ → Prop) (lo hi : Nat) (body : Nat → σ → σ)
    (h : ∀ i, lo ≤ i → i < hi → ∀ s, P s → P (body i s)) (s : σ) (hs : P s) :
    P (forLoop lo hi body s) := by
  by_cases hle : hi ≤ lo
  · rw [forLoop_empty lo hi hle]
    exact hs
  · obtain ⟨d, rfl⟩ : ∃ d, hi = lo + d := ⟨hi - lo, by omega⟩
    clear hle
    induction d generalizing lo s with
    | zero =>
      rw [forLoop_empty lo (lo + 0) (by omega)]
      exact hs
    | succ d ih =>
      rw [forLoop_step lo (lo + (d + 1)) (by omega)]
      have e : lo + (d + 1) = (lo + 1) + d := by omega
      rw [e]
      exact ih (lo + 1) (body lo s) (h lo (Nat.le_refl _) (by omega) s hs)
        (fun i h1 h2 => h i (by omega) (by omega))

/-- A property that every iteration preserves and the iteration `i0` establishes holds after
the loop. -/
theorem forLoop_establish {σ : Type} (P : σ → Prop) (lo hi i0 : Nat) (hlo : lo ≤ i0)
    (hhi : i0 < hi) (body : Nat → σ → σ)
    (hpres : ∀ i, lo ≤ i → i < hi → ∀ s, P s → P (body i s))
    (hhit : ∀ s, P (body i0 s)) (s : σ) : P (forLoop lo hi body s) := by
  rw [forLoop_split lo i0 hi hlo (by omega), forLoop_step i0 hi hhi]
  exact forLoop_inv P (i0 + 1) hi body (fun i h1 h2 => hpres i (by omega) h2) _ (hhit _)

/-- A loop of two iterations. -/
theorem forLoop_two {σ : Type} (body : Nat → σ → σ) (s : σ) :
    forLoop 0 2 body s = body 1 (body 0 s) := rfl

/-- A loop of three iterations. -/
theorem forLoop_three {σ : Type} (body : Nat → σ → σ) (s : σ) :
    forLoop 0 3 body s = body 2 (body 1 (body 0 s)) := rfl

/-- Under `_OPENMP` the method `mine` returns the start of the buffer for every thread. -/
theorem multivector.mine_openmp {T : Type} (m : multivector T) (env : OmpEnv)
    (h : env.openmp = true) (t : Nat) : m.mine env t = 0 := by
  simp [multivector.mine, h]

/-- Without `_OPENMP` the method `mine` returns the offset `t * n`. -/
theorem multivector.mine_serial {T : Type} (m : multivector T) (env : OmpEnv)
    (h : env.openmp = false) (t : Nat) : m.mine env t = t * m.n := by
  simp [multivector.mine, h]

end LoopInvariants

/-! ## Gauge-field zeroing -/

section GaugeZeroing

variable {R : Type} [Zero R]

/-- A store of zero keeps a zero at every address. -/
theorem CoarseGauge.write_zero_keeps (g : CoarseGauge R) (data j A : Nat)
    (h : g.mem A = 0) : (g.write data j 0).mem A = 0 := by
  simp only [CoarseGauge.write, bufWrite]
  split
  · rfl
  · exact h

/-- A store of zero leaves a zero at its address. -/
theorem CoarseGauge.write_zero_hit (g : CoarseGauge R) (data j : Nat) :
    (g.write data j 0).mem (data + j) = 0 := by
  simp [CoarseGauge.write, bufWrite]

/-- One loop nest of `ZeroGauge` preserves every property that a store of zero preserves. -/
theorem regionLoop_inv (P : CoarseGauge R → Prop)
    (hP : ∀ (g : CoarseGauge R) data j, P g → P (g.write data j 0))
    (ncb ns cnt : Nat) (ptr : Nat → Nat → Nat) (g : CoarseGauge R) (h : P g) :
    P (forLoop 0 ncb (fun cb => forLoop 0 ns (fun cbsite =>
      forLoop 0 cnt (fun j (g : CoarseGauge R) => g.write (ptr cb cbsite) j 0))) g) := by
  apply forLoop_inv P _ _ _ _ _ h
  intro cb _ _ g hg
  apply forLoop_inv P _ _ _ _ _ hg
  intro site _ _ g hg
  apply forLoop_inv P _ _ _ _ _ hg
  intro j _ _ g hg
  exact hP g _ _ hg

/-- One loop nest of `ZeroGauge` keeps a zero at every address. -/
theorem regionLoop_keeps (ncb ns cnt : Nat) (ptr : Nat → Nat → Nat) (A : Nat)
    (g : CoarseGauge R) (h : g.mem A = 0) :
    (forLoop 0 ncb (fun cb => forLoop 0 ns (fun cbsite =>
      forLoop 0 cnt (fun j (g : CoarseGauge R) => g.write (ptr cb cbsite) j 0))) g).mem A =
      0 :=
  regionLoop_inv (fun g : CoarseGauge R => g.mem A = 0)
    (fun g data j hg => CoarseGauge.write_zero_keeps g data j A hg) ncb ns cnt ptr g h

/-- One loop nest of `ZeroGauge` leaves a zero at each of the `cnt` addresses after the
pointer of every site of every checkerboard it visits. -/
theorem regionLoop_zero (ncb ns cnt : Nat) (ptr : Nat → Nat → Nat) (cb0 site0 j0 : Nat)
    (hcb : cb0 < ncb) (hsite : site0 < ns) (hj : j0 < cnt) (g : CoarseGauge R) :
    (forLoop 0 ncb (fun cb => forLoop 0 ns (fun cbsite =>
      forLoop 0 cnt (fun j (g : CoarseGauge R) => g.write (ptr cb cbsite) j 0))) g).mem
        (ptr cb0 site0 + j0) = 0 := by
  apply forLoop_establish (fun g : CoarseGauge R => g.mem (ptr cb0 site0 + j0) = 0) 0 ncb cb0
    (Nat.zero_le _) hcb
  · intro cb _ _ g hg
    apply forLoop_inv (fun g : CoarseGauge R => g.mem (ptr cb0 site0 + j0) = 0) _ _ _ _ _ hg
    intro site _ _ g hg
    apply forLoop_inv (fun g : CoarseGauge R => g.mem (ptr cb0 site0 + j0) = 0) _ _ _ _ _ hg
    intro j _ _ g hg
    exact CoarseGauge.write_zero_keeps g _ _ _ hg
  · intro g
    apply forLoop_establish (fun g : CoarseGauge R => g.mem (ptr cb0 site0 + j0) = 0) 0 ns
      site0 (Nat.zero_le _) hsite
    · intro site _ _ g hg
      apply forLoop_inv (fun g : CoarseGauge R => g.mem (ptr cb0 site0 + j0) = 0) _ _ _ _ _ hg
      intro j _ _ g hg
      exact CoarseGauge.write_zero_keeps g _ _ _ hg
    · intro g
      apply forLoop_establish (fun g : CoarseGauge R => g.mem (ptr cb0 site0 + j0) = 0) 0 cnt
        j0 (Nat.zero_le _) hj
      · intro j _ _ g hg
        exact CoarseGauge.write_zero_keeps g _ _ _ hg
      · intro g
        exact CoarseGauge.write_zero_hit g _ _

/-- The function `ZeroGauge` changes only the memory: the geometry, the two offsets and the
five pointer accessors of the container are kept. -/
theorem ZeroGauge_layout (gauge : CoarseGauge R) :
    (ZeroGauge gauge).info = gauge.info ∧ (ZeroGauge gauge).link_offset = gauge.link_offset ∧
    (ZeroGauge gauge).site_offset = gauge.site_offset ∧
    (ZeroGauge gauge).diag_ptr = gauge.diag_ptr ∧ (ZeroGauge gauge).dir_ptr = gauge.dir_ptr ∧
    (ZeroGauge gauge).invdiag_ptr = gauge.invdiag_ptr ∧
    (ZeroGauge gauge).dirAD_ptr = gauge.dirAD_ptr ∧
    (ZeroGauge gauge).dirDA_ptr = gauge.dirDA_ptr := by
  have hP : ∀ (g : CoarseGauge R) (data j : Nat),
      (g.info = gauge.info ∧ g.link_offset = gauge.link_offset ∧
        g.site_offset = gauge.site_offset ∧ g.diag_ptr = gauge.diag_ptr ∧
        g.dir_ptr = gauge.dir_ptr ∧ g.invdiag_ptr = gauge.invdiag_ptr ∧
        g.dirAD_ptr = gauge.dirAD_ptr ∧ g.dirDA_ptr = gauge.dirDA_ptr) →
      ((g.write data j 0).info = gauge.info ∧
        (g.write data j 0).link_offset = gauge.link_offset ∧
        (g.write data j 0).site_offset = gauge.site_offset ∧
        (g.write data j 0).diag_ptr = gauge.diag_ptr ∧
        (g.write data j 0).dir_ptr = gauge.dir_ptr ∧
        (g.write data j 0).invdiag_ptr = gauge.invdiag_ptr ∧
        (g.write data j 0).dirAD_ptr = gauge.dirAD_ptr ∧
        (g.write data j 0).dirDA_ptr = gauge.dirDA_ptr) := fun _ _ _ h => h
  unfold ZeroGauge
  dsimp only
  apply regionLoop_inv _ hP
  apply regionLoop_inv _ hP
  apply regionLoop_inv _ hP
  apply regionLoop_inv _ hP
  apply regionLoop_inv _ hP
  exact ⟨rfl, rfl, rfl, rfl, rfl, rfl, rfl, rfl⟩

/-- C33: after `ZeroGauge(gauge)`, for both checkerboards and every checkerboard site, every
value of all five storage regions is `0`: the `GetLinkOffset()` values after the pointer of
the diagonal block and of the inverse-diagonal block, and the `GetSiteOffset()` values after
the pointer of the off-diagonal block and of the two triangular-factor (AD and DA) blocks. -/
theorem ZeroGauge_clears_regions (gauge : CoarseGauge R) :
    ∀ cb site, cb < n_checkerboard → site < (ZeroGauge gauge).GetInfo.GetNumCBSites →
      (∀ j, j < (ZeroGauge gauge).GetLinkOffset →
        (ZeroGauge gauge).read ((ZeroGauge gauge).GetSiteDiagDataPtr cb site) j = 0 ∧
        (ZeroGauge gauge).read ((ZeroGauge gauge).GetSiteInvDiagDataPtr cb site) j = 0) ∧
      (∀ j, j < (ZeroGauge gauge).GetSiteOffset →
        (ZeroGauge gauge).read ((ZeroGauge gauge).GetSiteDirDataPtr cb site 0) j = 0 ∧
        (ZeroGauge gauge).read ((ZeroGauge gauge).GetSiteDirADDataPtr cb site 0) j = 0 ∧
        (ZeroGauge gauge).read ((ZeroGauge gauge).GetSiteDirDADataPtr cb site 0) j = 0) := by
  obtain ⟨h1, h2, h3, h4, h5, h6, h7, h8⟩ := ZeroGauge_layout gauge
  intro cb site hcb hsite
  simp only [CoarseGauge.GetInfo, CoarseGauge.GetLinkOffset, CoarseGauge.GetSiteOffset,
    CoarseGauge.GetSiteDiagDataPtr, CoarseGauge.GetSiteInvDiagDataPtr,
    CoarseGauge.GetSiteDirDataPtr, CoarseGauge.GetSiteDirADDataPtr,
    CoarseGauge.GetSiteDirDADataPtr, CoarseGauge.read, h1, h2, h3, h4, h5, h6, h7, h8]
    at hsite ⊢
  refine ⟨?_, ?_⟩
  · intro j hj
    refine ⟨?_, ?_⟩
    · unfold ZeroGauge
      dsimp only
      apply regionLoop_keeps
      apply regionLoop_keeps
      apply regionLoop_keeps
      apply regionLoop_keeps
      exact regionLoop_zero n_checkerboard gauge.info.GetNumCBSites gauge.link_offset
        (fun cb site => gauge.GetSiteDiagDataPtr cb site) cb site j hcb hsite hj gauge
    · unfold ZeroGauge
      dsimp only
      apply regionLoop_keeps
      apply regionLoop_keeps
      exact regionLoop_zero n_checkerboard gauge.info.GetNumCBSites gauge.link_offset
        (fun cb site => gauge.GetSiteInvDiagDataPtr cb site) cb site j hcb hsite hj _
  · intro j hj
    refine ⟨?_, ?_, ?_⟩
    · unfold ZeroGauge
      dsimp only
      apply regionLoop_keeps
      apply regionLoop_keeps
      apply regionLoop_keeps
      exact regionLoop_zero n_checkerboard gauge.info.GetNumCBSites gauge.site_offset
        (fun cb site => gauge.GetSiteDirDataPtr cb site 0) cb site j hcb hsite hj _
    · unfold ZeroGauge
      dsimp only
      apply regionLoop_keeps
      exact regionLoop_zero n_checkerboard gauge.info.GetNumCBSites gauge.site_offset
        (fun cb site => gauge.GetSiteDirADDataPtr cb site 0) cb site j hcb hsite hj _
    · unfold ZeroGauge
      dsimp only
      exact regionLoop_zero n_checkerboard gauge.info.GetNumCBSites gauge.site_offset
        (fun cb site => gauge.GetSiteDirDADataPtr cb site 0) cb site j hcb hsite hj _

end GaugeZeroing

/-! ## Link matrix times half spinor -/

section HalfSpinorProducts

variable {R : Type} [CommRing R]

/-- The entries that `mult_u_halfspinor` writes. -/
theorem mult_u_halfspinor_sum (gauge_in : Nat → Nat → Nat → Nat → Cplx R)
    (v_in v_out : Nat → Nat → Cplx R) (i dir row spin : Nat) (hrow : row < 3)
    (hspin : spin < 2) :
    mult_u_halfspinor gauge_in v_in v_out i dir row spin =
      ∑ col in Finset.range 3, gauge_in i dir row col * v_in col spin := by
  simp only [Finset.sum_range_succ, Finset.sum_range_zero, zero_add]
  interval_cases row <;> interval_cases spin <;>
    simp [mult_u_halfspinor, forLoop_two, forLoop_three, siteWrite, ComplexZero, ComplexCMadd]

/-- C35: for every site `i`, direction `dir`, link field `gauge_in` and half spinor `v_in`,
`mult_u_halfspinor` sets `v_out(row, spin)` to the sum over `col < 3` of
`gauge_in(i, dir, row, col) * v_in(col, spin)` for every `row < 3` and `spin < 2`, whatever
`v_out` held before. -/
theorem mult_u_halfspinor_entries (gauge_in : Nat → Nat → Nat → Nat → Cplx R)
    (v_in v_out : Nat → Nat → Cplx R) (i dir : Nat) :
    ∀ row spin, row < 3 → spin < 2 →
      mult_u_halfspinor gauge_in v_in v_out i dir row spin =
        ∑ col in Finset.range 3, gauge_in i dir row col * v_in col spin :=
  fun row spin hrow hspin => mult_u_halfspinor_sum gauge_in v_in v_out i dir row spin hrow hspin

/-- Outside the 3 × 2 entries of a site view both products leave `v_out` as it was. -/
theorem mult_halfspinor_outside (gauge_in : Nat → Nat → Nat → Nat → Cplx R)
    (v_in v_out : Nat → Nat → Cplx R) (i dir row spin : Nat) (h : ¬ (row < 3 ∧ spin < 2)) :
    mult_u_halfspinor gauge_in v_in v_out i dir row spin = v_out row spin ∧
    mult_adj_u_halfspinor gauge_in v_in v_out i dir row spin = v_out row spin := by
  by_cases hrow : row < 3
  · have h0 : spin ≠ 0 := by omega
    have h1 : spin ≠ 1 := by omega
    constructor <;>
      simp [mult_u_halfspinor, mult_adj_u_halfspinor, forLoop_two, forLoop_three, siteWrite,
        h0, h1]
  · have h0 : row ≠ 0 := by omega
    have h1 : row ≠ 1 := by omega
    have h2 : row ≠ 2 := by omega
    constructor <;>
      simp [mult_u_halfspinor, mult_adj_u_halfspinor, forLoop_two, forLoop_three, siteWrite,
        h0, h1, h2]

/-- C36: for every site `i`, direction `dir`, link field `gauge_in` and half spinor `v_in`,
`mult_adj_u_halfspinor` sets `v_out(row, spin)` to the sum over `col < 3` of
`conj(gauge_in(i, dir, col, row)) * v_in(col, spin)` for every `row < 3` and `spin < 2`, and
its result is the result of `mult_u_halfspinor` on the conjugate-transposed link field. -/
theorem mult_adj_u_halfspinor_entries (gauge_in : Nat → Nat → Nat → Nat → Cplx R)
    (v_in v_out : Nat → Nat → Cplx R) (i dir : Nat) :
    (∀ row spin, row < 3 → spin < 2 →
      mult_adj_u_halfspinor gauge_in v_in v_out i dir row spin =
        ∑ col in Finset.range 3, (gauge_in i dir col row).conj * v_in col spin) ∧
    mult_adj_u_halfspinor gauge_in v_in v_out i dir =
      mult_u_halfspinor (fun i dir row col => (gauge_in i dir col row).conj) v_in v_out
        i dir := by
  have hent : ∀ row spin, row < 3 → spin < 2 →
      mult_adj_u_halfspinor gauge_in v_in v_out i dir row spin =
        ∑ col in Finset.range 3, (gauge_in i dir col row).conj * v_in col spin := by
    intro row spin hrow hspin
    simp only [Finset.sum_range_succ, Finset.sum_range_zero, zero_add]
    interval_cases row <;> interval_cases spin <;>
      simp [mult_adj_u_halfspinor, forLoop_two, forLoop_three, siteWrite, ComplexZero,
        ComplexConjMadd]
  refine ⟨hent, ?_⟩
  funext row spin
  by_cases h : row < 3 ∧ spin < 2
  · rw [hent row spin h.1 h.2, mult_u_halfspinor_sum _ v_in v_out i dir row spin h.1 h.2]
  · rw [(mult_halfspinor_outside gauge_in v_in v_out i dir row spin h).2,
      (mult_halfspinor_outside _ v_in v_out i dir row spin h).1]

end HalfSpinorProducts

/-! ## Random fill -/

section RandomFillLemmas

variable {R G : Type}

/-- No draw. -/
theorem drawState_zero (draw : G → R × G) (g : G) : drawState draw g 0 = g := rfl

/-- Drawing `a` times and then `b` times is drawing `a + b` times. -/
theorem drawState_add (draw : G → R × G) (g : G) (a b : Nat) :
    drawState draw (drawState draw g a) b = drawState draw g (a + b) := by
  simp only [drawState]
  rw [Nat.add_comm, Function.iterate_add_apply]

/-- One more draw. -/
theorem drawState_succ (draw : G → R × G) (g : G) (k : Nat) :
    drawState draw g (k + 1) = (draw (drawState draw g k)).2 :=
  Function.iterate_succ_apply' _ _ _

/-- The two draws of one colorspin iteration. -/
theorem drawState_two (draw : G → R × G) (g : G) :
    (draw (draw g).2).2 = drawState draw g 2 := rfl

/-- A loop whose every iteration makes `c` draws makes `c * (hi - lo)` draws. -/
theorem forLoop_draws {σ : Type} (draw : G → R × G) (gen : σ → G) (c lo hi : Nat)
    (body : Nat → σ → σ)
    (h : ∀ i, lo ≤ i → i < hi → ∀ s, gen (body i s) = drawState draw (gen s) c) (s : σ) :
    gen (forLoop lo hi body s) = drawState draw (gen s) (c * (hi - lo)) := by
  by_cases hle : hi ≤ lo
  · rw [forLoop_empty lo hi hle, Nat.sub_eq_zero_of_le hle, Nat.mul_zero]
    rfl
  · obtain ⟨d, rfl⟩ : ∃ d, hi = lo + d := ⟨hi - lo, by omega⟩
    clear hle
    induction d generalizing s with
    | zero =>
      rw [forLoop_empty lo (lo + 0) (by omega), Nat.add_sub_cancel_left, Nat.mul_zero]
      rfl
    | succ d ih =>
      have e : lo + (d + 1) = (lo + d) + 1 := by omega
      rw [e, forLoop_succ_right lo (lo + d) (by omega),
        h (lo + d) (by omega) (by omega),
        ih s (fun i h1 h2 => h i h1 (by omega)), drawState_add]
      congr 1
      have e1 : lo + d + 1 - lo = d + 1 := by omega
      have e2 : lo + d - lo = d := by omega
      rw [e1, e2, Nat.mul_succ]

/-- A loop whose every iteration makes `c` draws, and in which only the iteration `i0`
changes the observed value, to a value `val` of the state of the random source at that
iteration: the observed value after the loop is `val` of the state after the
`c * (i0 - lo)` draws of the earlier iterations. -/
theorem forLoop_obs_draw {σ V : Type} (draw : G → R × G) (obs : σ → V) (gen : σ → G)
    (val : G → V) (c lo hi i0 : Nat) (hlo : lo ≤ i0) (hhi : i0 < hi) (body : Nat → σ → σ)
    (hother : ∀ i, lo ≤ i → i < hi → i ≠ i0 → ∀ s, obs (body i s) = obs s)
    (hgen : ∀ i, lo ≤ i → i < hi → ∀ s, gen (body i s) = drawState draw (gen s) c)
    (hhit : ∀ s, obs (body i0 s) = val (gen s)) (s : σ) :
    obs (forLoop lo hi body s) = val (drawState draw (gen s) (c * (i0 - lo))) := by
  rw [forLoop_split lo i0 hi hlo (by omega), forLoop_step i0 hi hhi,
    forLoop_obs_frame obs (i0 + 1) hi body (fun i h1 h2 => hother i (by omega) h2 (by omega)),
    hhit, forLoop_draws draw gen c lo i0 body (fun i h1 h2 => hgen i h1 (by omega))]

/-- The effect of one colorspin iteration of `Gaussian` on a complex entry of the shape. -/
theorem Gaussian_body_entry (draw : G → R × G) (x : CoarseSpinor R)
    (cb site col cspin : Nat) (hc : col < x.GetNCol) (hk : cspin < x.GetNumColorSpin)
    (cb0 site0 col0 cspin0 : Nat) (hc0 : col0 < x.GetNCol) (hk0 : cspin0 < x.GetNumColorSpin)
    (st : CoarseSpinor R × G) :
    (((st.1.store (x.GetSiteDataPtr col cb site) (RE + n_complex * cspin) (draw st.2).1).store
      (x.GetSiteDataPtr col cb site) (IM + n_complex * cspin) (draw (draw st.2).2).1).loadC
        (x.GetSiteDataPtr col0 cb0 site0) cspin0) =
      if cb = cb0 ∧ site = site0 ∧ col = col0 ∧ cspin = cspin0 then
        ⟨(draw st.2).1, (draw (draw st.2).2).1⟩
      else st.1.loadC (x.GetSiteDataPtr col0 cb0 site0) cspin0 :=
  entry_update_loadC x
    (fun xs => (xs.store (x.GetSiteDataPtr col cb site) (RE + n_complex * cspin)
      (draw st.2).1).store (x.GetSiteDataPtr col cb site) (IM + n_complex * cspin)
      (draw (draw st.2).2).1)
    (fun _ => ⟨(draw st.2).1, (draw (draw st.2).2).1⟩) cb site col cspin
    (fun _ _ _ => rfl) hc hk cb0 site0 col0 cspin0 hc0 hk0 st.1

/-- The random source after `Gaussian(x, subset)` has made two draws for every complex entry
of the subset. -/
theorem Gaussian_source (draw : G → R × G) (x : CoarseSpinor R) (subset : CBSubset) (g : G) :
    (Gaussian draw x subset g).2 =
      drawState draw g (2 * x.GetNumColorSpin * x.GetNCol * x.GetInfo.GetNumCBSites *
        (subset.end_ - subset.start)) := by
  unfold Gaussian
  dsimp only
  have h := forLoop_draws draw (Prod.snd : CoarseSpinor R × G → G)
    (2 * (x.GetNumColorSpin - 0) * (x.GetNCol - 0) * (x.GetInfo.GetNumCBSites - 0))
    subset.start subset.end_
    (fun cb => forLoop 0 x.GetInfo.GetNumCBSites (fun cbsite =>
      forLoop 0 x.GetNCol (fun col =>
        forLoop 0 x.GetNumColorSpin (fun cspin (st : CoarseSpinor R × G) =>
          ((st.1.store (x.GetSiteDataPtr col cb cbsite) (RE + n_complex * cspin)
            (draw st.2).1).store (x.GetSiteDataPtr col cb cbsite) (IM + n_complex * cspin)
            (draw (draw st.2).2).1, (draw (draw st.2).2).2)))))
    (by
      intro cb _ _ st
      apply forLoop_draws draw (Prod.snd : CoarseSpinor R × G → G)
      intro site _ _ st
      apply forLoop_draws draw (Prod.snd : CoarseSpinor R × G → G)
      intro col _ _ st
      apply forLoop_draws draw (Prod.snd : CoarseSpinor R × G → G)
      intro cspin _ _ st
      rfl) (x, g)
  simp only [Nat.sub_zero] at h
  exact h

/-- The complex entry `(cb0, site0, col0, cspin0)` of the subset after `Gaussian(x, subset)`
holds the two draws whose numbers are twice the position of the entry in the loop order, and
twice that position plus one. -/
theorem Gaussian_entry (draw : G → R × G) (x : CoarseSpinor R) (subset : CBSubset) (g : G)
    (cb0 site0 col0 cspin0 : Nat) (h1 : subset.start ≤ cb0) (h2 : cb0 < subset.end_)
    (h3 : site0 < x.GetInfo.GetNumCBSites) (h4 : col0 < x.GetNCol)
    (h5 : cspin0 < x.GetNumColorSpin) :
    (Gaussian draw x subset g).1.loadC (x.GetSiteDataPtr col0 cb0 site0) cspin0 =
      ⟨drawValue draw g (2 * ((((cb0 - subset.start) * x.GetInfo.GetNumCBSites + site0) *
          x.GetNCol + col0) * x.GetNumColorSpin + cspin0)),
        drawValue draw g (2 * ((((cb0 - subset.start) * x.GetInfo.GetNumCBSites + site0) *
          x.GetNCol + col0) * x.GetNumColorSpin + cspin0) + 1)⟩ := by
  unfold Gaussian
  dsimp only
  -- the colorspin loop of the cell `(cb, site, col)`
  have L4other : ∀ cb site col, col < x.GetNCol → ¬ (cb = cb0 ∧ site = site0 ∧ col = col0) →
      ∀ st : CoarseSpinor R × G,
      (forLoop 0 x.GetNumColorSpin (fun cspin (st : CoarseSpinor R × G) =>
        ((st.1.store (x.GetSiteDataPtr col cb site) (RE + n_complex * cspin)
          (draw st.2).1).store (x.GetSiteDataPtr col cb site) (IM + n_complex * cspin)
          (draw (draw st.2).2).1, (draw (draw st.2).2).2)) st).1.loadC
            (x.GetSiteDataPtr col0 cb0 site0) cspin0 =
        st.1.loadC (x.GetSiteDataPtr col0 cb0 site0) cspin0 := by
    intro cb site col hc hne st
    apply forLoop_obs_frame
      (fun st : CoarseSpinor R × G => st.1.loadC (x.GetSiteDataPtr col0 cb0 site0) cspin0)
    intro cspin _ hk st
    show ((st.1.store _ _ _).store _ _ _).loadC _ _ = _
    rw [Gaussian_body_entry draw x cb site col cspin hc hk cb0 site0 col0 cspin0 h4 h5 st,
      if_neg (fun hh => hne ⟨hh.1, hh.2.1, hh.2.2.1⟩)]
  have L4gen : ∀ cb site col, ∀ st : CoarseSpinor R × G,
      (forLoop 0 x.GetNumColorSpin (fun cspin (st : CoarseSpinor R × G) =>
        ((st.1.store (x.GetSiteDataPtr col cb site) (RE + n_complex * cspin)
          (draw st.2).1).store (x.GetSiteDataPtr col cb site) (IM + n_complex * cspin)
          (draw (draw st.2).2).1, (draw (draw st.2).2).2)) st).2 =
        drawState draw st.2 (2 * (x.GetNumColorSpin - 0)) := by
    intro cb site col st
    apply forLoop_draws draw (Prod.snd : CoarseSpinor R × G → G)
    intro cspin _ _ st
    rfl
  have L4hit : ∀ st : CoarseSpinor R × G,
      (forLoop 0 x.GetNumColorSpin (fun cspin (st : CoarseSpinor R × G) =>
        ((st.1.store (x.GetSiteDataPtr col0 cb0 site0) (RE + n_complex * cspin)
          (draw st.2).1).store (x.GetSiteDataPtr col0 cb0 site0) (IM + n_complex * cspin)
          (draw (draw st.2).2).1, (draw (draw st.2).2).2)) st).1.loadC
            (x.GetSiteDataPtr col0 cb0 site0) cspin0 =
        (fun g4 : G => (⟨(draw g4).1, (draw (draw g4).2).1⟩ : Cplx R))
          (drawState draw st.2 (2 * (cspin0 - 0))) := by
    intro st
    apply forLoop_obs_draw draw
      (fun st : CoarseSpinor R × G => st.1.loadC (x.GetSiteDataPtr col0 cb0 site0) cspin0)
      (Prod.snd : CoarseSpinor R × G → G)
      (fun g4 : G => (⟨(draw g4).1, (draw (draw g4).2).1⟩ : Cplx R)) 2 0 x.GetNumColorSpin
      cspin0 (Nat.zero_le _) h5
    · intro cspin _ hk hne st
      show ((st.1.store _ _ _).store _ _ _).loadC _ _ = _
      rw [Gaussian_body_entry draw x cb0 site0 col0 cspin h4 hk cb0 site0 col0 cspin0 h4 h5 st,
        if_neg (fun hh => hne hh.2.2.2)]
    · intro cspin _ _ st
      rfl
    · intro st
      show ((st.1.store _ _ _).store _ _ _).loadC _ _ = _
      rw [Gaussian_body_entry draw x cb0 site0 col0 cspin0 h4 h5 cb0 site0 col0 cspin0 h4 h5 st,
        if_pos ⟨rfl, rfl, rfl, rfl⟩]
  -- the column loop of the site `(cb, site)`
  have L3gen : ∀ cb site, ∀ st : CoarseSpinor R × G,
      (forLoop 0 x.GetNCol (fun col =>
        forLoop 0 x.GetNumColorSpin (fun cspin (st : CoarseSpinor R × G) =>
        ((st.1.store (x.GetSiteDataPtr col cb site) (RE + n_complex * cspin)
          (draw st.2).1).store (x.GetSiteDataPtr col cb site) (IM + n_complex * cspin)
          (draw (draw st.2).2).1, (draw (draw st.2).2).2))) st).2 =
        drawState draw st.2 (2 * (x.GetNumColorSpin - 0) * (x.GetNCol - 0)) := by
    intro cb site st
    apply forLoop_draws draw (Prod.snd : CoarseSpinor R × G → G)
    intro col _ _ st
    exact L4gen cb site col st
  have L3other : ∀ cb site, ¬ (cb = cb0 ∧ site = site0) → ∀ st : CoarseSpinor R × G,
      (forLoop 0 x.GetNCol (fun col =>
        forLoop 0 x.GetNumColorSpin (fun cspin (st : CoarseSpinor R × G) =>
        ((st.1.store (x.GetSiteDataPtr col cb site) (RE + n_complex * cspin)
          (draw st.2).1).store (x.GetSiteDataPtr col cb site) (IM + n_complex * cspin)
          (draw (draw st.2).2).1, (draw (draw st.2).2).2))) st).1.loadC
            (x.GetSiteDataPtr col0 cb0 site0) cspin0 =
        st.1.loadC (x.GetSiteDataPtr col0 cb0 site0) cspin0 := by
    intro cb site hne st
    apply forLoop_obs_frame
      (fun st : CoarseSpinor R × G => st.1.loadC (x.GetSiteDataPtr col0 cb0 site0) cspin0)
    intro col _ hc st
    exact L4other cb site col hc (fun hh => hne ⟨hh.1, hh.2.1⟩) st
  have L3hit : ∀ st : CoarseSpinor R × G,
      (forLoop 0 x.GetNCol (fun col =>
        forLoop 0 x.GetNumColorSpin (fun cspin (st : CoarseSpinor R × G) =>
        ((st.1.store (x.GetSiteDataPtr col cb0 site0) (RE + n_complex * cspin)
          (draw st.2).1).store (x.GetSiteDataPtr col cb0 site0) (IM + n_complex * cspin)
          (draw (draw st.2).2).1, (draw (draw st.2).2).2))) st).1.loadC
            (x.GetSiteDataPtr col0 cb0 site0) cspin0 =
        (fun g3 : G => (fun g4 : G => (⟨(draw g4).1, (draw (draw g4).2).1⟩ : Cplx R))
          (drawState draw g3 (2 * (cspin0 - 0))))
          (drawState draw st.2 (2 * (x.GetNumColorSpin - 0) * (col0 - 0))) := by
    intro st
    apply forLoop_obs_draw draw
      (fun st : CoarseSpinor R × G => st.1.loadC (x.GetSiteDataPtr col0 cb0 site0) cspin0)
      (Prod.snd : CoarseSpinor R × G → G)
      (fun g3 : G => (fun g4 : G => (⟨(draw g4).1, (draw (draw g4).2).1⟩ : Cplx R))
          (drawState draw g3 (2 * (cspin0 - 0))))
      (2 * (x.GetNumColorSpin - 0)) 0 x.GetNCol col0 (Nat.zero_le _) h4
    · intro col _ hc hne st
      exact L4other cb0 site0 col hc (fun hh => hne hh.2.2) st
    · intro col _ _ st
      exact L4gen cb0 site0 col st
    · intro st
      exact L4hit st
  -- the site loop of the checkerboard `cb`
  have L2gen : ∀ cb, ∀ st : CoarseSpinor R × G,
      (forLoop 0 x.GetInfo.GetNumCBSites (fun site => forLoop 0 x.GetNCol (fun col =>
        forLoop 0 x.GetNumColorSpin (fun cspin (st : CoarseSpinor R × G) =>
        ((st.1.store (x.GetSiteDataPtr col cb site) (RE + n_complex * cspin)
          (draw st.2).1).store (x.GetSiteDataPtr col cb site) (IM + n_complex * cspin)
          (draw (draw st.2).2).1, (draw (draw st.2).2).2)))) st).2 =
        drawState draw st.2 (2 * (x.GetNumColorSpin - 0) * (x.GetNCol - 0) *
          (x.GetInfo.GetNumCBSites - 0)) := by
    intro cb st
    apply forLoop_draws draw (Prod.snd : CoarseSpinor R × G → G)
    intro site _ _ st
    exact L3gen cb site st
  have L2other : ∀ cb, cb ≠ cb0 → ∀ st : CoarseSpinor R × G,
      (forLoop 0 x.GetInfo.GetNumCBSites (fun site => forLoop 0 x.GetNCol (fun col =>
        forLoop 0 x.GetNumColorSpin (fun cspin (st : CoarseSpinor R × G) =>
        ((st.1.store (x.GetSiteDataPtr col cb site) (RE + n_complex * cspin)
          (draw st.2).1).store (x.GetSiteDataPtr col cb site) (IM + n_complex * cspin)
          (draw (draw st.2).2).1, (draw (draw st.2).2).2)))) st).1.loadC
            (x.GetSiteDataPtr col0 cb0 site0) cspin0 =
        st.1.loadC (x.GetSiteDataPtr col0 cb0 site0) cspin0 := by
    intro cb hne st
    apply forLoop_obs_frame
      (fun st : CoarseSpinor R × G => st.1.loadC (x.GetSiteDataPtr col0 cb0 site0) cspin0)
    intro site _ _ st
    exact L3other cb site (fun hh => hne hh.1) st
  have L2hit : ∀ st : CoarseSpinor R × G,
      (forLoop 0 x.GetInfo.GetNumCBSites (fun site => forLoop 0 x.GetNCol (fun col =>
        forLoop 0 x.GetNumColorSpin (fun cspin (st : CoarseSpinor R × G) =>
        ((st.1.store (x.GetSiteDataPtr col cb0 site) (RE + n_complex * cspin)
          (draw st.2).1).store (x.GetSiteDataPtr col cb0 site) (IM + n_complex * cspin)
          (draw (draw st.2).2).1, (draw (draw st.2).2).2)))) st).1.loadC
            (x.GetSiteDataPtr col0 cb0 site0) cspin0 =
        (fun g2 : G => (fun g3 : G =>
          (fun g4 : G => (⟨(draw g4).1, (draw (draw g4).2).1⟩ : Cplx R))
            (drawState draw g3 (2 * (cspin0 - 0))))
          (drawState draw g2 (2 * (x.GetNumColorSpin - 0) * (col0 - 0))))
          (drawState draw st.2 (2 * (x.GetNumColorSpin - 0) * (x.GetNCol - 0) *
            (site0 - 0))) := by
    intro st
    apply forLoop_obs_draw draw
      (fun st : CoarseSpinor R × G => st.1.loadC (x.GetSiteDataPtr col0 cb0 site0) cspin0)
      (Prod.snd : CoarseSpinor R × G → G)
      (fun g2 : G => (fun g3 : G =>
          (fun g4 : G => (⟨(draw g4).1, (draw (draw g4).2).1⟩ : Cplx R))
            (drawState draw g3 (2 * (cspin0 - 0))))
          (drawState draw g2 (2 * (x.GetNumColorSpin - 0) * (col0 - 0))))
      (2 * (x.GetNumColorSpin - 0) * (x.GetNCol - 0)) 0 x.GetInfo.GetNumCBSites site0
      (Nat.zero_le _) h3
    · intro site _ _ hne st
      exact L3other cb0 site (fun hh => hne hh.2) st
    · intro site _ _ st
      exact L3gen cb0 site st
    · intro st
      exact L3hit st
  -- the checkerboard loop
  have L1 := forLoop_obs_draw draw
    (fun st : CoarseSpinor R × G => st.1.loadC (x.GetSiteDataPtr col0 cb0 site0) cspin0)
    (Prod.snd : CoarseSpinor R × G → G)
    (fun g1 : G => (fun g2 : G => (fun g3 : G =>
          (fun g4 : G => (⟨(draw g4).1, (draw (draw g4).2).1⟩ : Cplx R))
            (drawState draw g3 (2 * (cspin0 - 0))))
          (drawState draw g2 (2 * (x.GetNumColorSpin - 0) * (col0 - 0))))
          (drawState draw g1 (2 * (x.GetNumColorSpin - 0) * (x.GetNCol - 0) *
            (site0 - 0))))
    (2 * (x.GetNumColorSpin - 0) * (x.GetNCol - 0) * (x.GetInfo.GetNumCBSites - 0))
    subset.start subset.end_ cb0 h1 h2
    (fun cb => forLoop 0 x.GetInfo.GetNumCBSites (fun site => forLoop 0 x.GetNCol (fun col =>
        forLoop 0 x.GetNumColorSpin (fun cspin (st : CoarseSpinor R × G) =>
        ((st.1.store (x.GetSiteDataPtr col cb site) (RE + n_complex * cspin)
          (draw st.2).1).store (x.GetSiteDataPtr col cb site) (IM + n_complex * cspin)
          (draw (draw st.2).2).1, (draw (draw st.2).2).2)))))
    (fun cb _ _ hne st => L2other cb hne st)
    (fun cb _ _ st => L2gen cb st)
    (fun st => L2hit st) (x, g)
  refine L1.trans ?_
  simp only [Nat.sub_zero, drawState_add, drawValue]
  have e1 : 2 * x.GetNumColorSpin * x.GetNCol * x.GetInfo.GetNumCBSites *
      (cb0 - subset.start) + 2 * x.GetNumColorSpin * x.GetNCol * site0 +
      2 * x.GetNumColorSpin * col0 + 2 * cspin0 =
      2 * ((((cb0 - subset.start) * x.GetInfo.GetNumCBSites + site0) * x.GetNCol + col0) *
        x.GetNumColorSpin + cspin0) := by ring
  rw [e1, drawState_succ]

/-- The call `Gaussian(x, subset)` leaves the storage of every checkerboard outside the
subset as it was. -/
theorem Gaussian_frame (draw : G → R × G) (x : CoarseSpinor R) (subset : CBSubset) (g : G)
    (c a : Nat) (hc : c < subset.start ∨ subset.end_ ≤ c) :
    (Gaussian draw x subset g).1.data c a = x.data c a := by
  unfold Gaussian
  dsimp only
  apply forLoop_obs_frame (fun st : CoarseSpinor R × G => st.1.data c a)
  intro cb hs he st
  apply forLoop_obs_frame (fun st : CoarseSpinor R × G => st.1.data c a)
  intro site _ _ st
  apply forLoop_obs_frame (fun st : CoarseSpinor R × G => st.1.data c a)
  intro col _ _ st
  apply forLoop_obs_frame (fun st : CoarseSpinor R × G => st.1.data c a)
  intro cspin _ _ st
  exact store_store_data_ne st.1 (x.GetSiteDataPtr col cb site) _ _ _ _ c a
    (by show c ≠ cb; omega)

/-- C34: `Gaussian(x, subset)` is a deterministic function of the state of the random source.
It makes exactly `2·numColorSpin·columns·numCBSites·(subset.end − subset.start)` consecutive
draws and assigns them in the order checkerboard, site, column, colorspin, real then
imaginary: the real part of the entry at position `k` of that order is draw `2k`, its
imaginary part draw `2k + 1`.  Two runs from the same state `g` on fields of the same shape
leave the source in the same state and the same values in every entry of the subset, and
the storage of the checkerboards outside the subset is untouched. -/
theorem Gaussian_draw_sequence (draw : G → R × G) (x : CoarseSpinor R) (subset : CBSubset)
    (g : G) :
    (Gaussian draw x subset g).2 =
      drawState draw g (2 * x.GetNumColorSpin * x.GetNCol * x.GetInfo.GetNumCBSites *
        (subset.end_ - subset.start)) ∧
    (∀ cb site col cspin, subset.start ≤ cb → cb < subset.end_ →
      site < x.GetInfo.GetNumCBSites → col < x.GetNCol → cspin < x.GetNumColorSpin →
      (Gaussian draw x subset g).1.load (x.GetSiteDataPtr col cb site)
          (RE + n_complex * cspin) =
        drawValue draw g (2 * ((((cb - subset.start) * x.GetInfo.GetNumCBSites + site) *
          x.GetNCol + col) * x.GetNumColorSpin + cspin)) ∧
      (Gaussian draw x subset g).1.load (x.GetSiteDataPtr col cb site)
          (IM + n_complex * cspin) =
        drawValue draw g (2 * ((((cb - subset.start) * x.GetInfo.GetNumCBSites + site) *
          x.GetNCol + col) * x.GetNumColorSpin + cspin) + 1)) ∧
    (∀ x2 : CoarseSpinor R, x2.GetInfo = x.GetInfo → x2.GetNCol = x.GetNCol →
      (Gaussian draw x2 subset g).2 = (Gaussian draw x subset g).2 ∧
      ∀ cb site col cspin, subset.start ≤ cb → cb < subset.end_ →
        site < x.GetInfo.GetNumCBSites → col < x.GetNCol → cspin < x.GetNumColorSpin →
        (Gaussian draw x2 subset g).1.loadC (x2.GetSiteDataPtr col cb site) cspin =
          (Gaussian draw x subset g).1.loadC (x.GetSiteDataPtr col cb site) cspin) ∧
    (∀ c a, c < subset.start ∨ subset.end_ ≤ c →
      (Gaussian draw x subset g).1.data c a = x.data c a) := by
  refine ⟨Gaussian_source draw x subset g, ?_, ?_, ?_⟩
  · intro cb site col cspin h1 h2 h3 h4 h5
    have h := Gaussian_entry draw x subset g cb site col cspin h1 h2 h3 h4 h5
    exact ⟨congrArg Cplx.re h, congrArg Cplx.im h⟩
  · intro x2 hinfo hncol
    have hi : x2.info = x.info := hinfo
    have hn : x2._n_col = x._n_col := hncol
    have hncs : x2.GetNumColorSpin = x.GetNumColorSpin := by
      simp only [CoarseSpinor.GetNumColorSpin, hi]
    refine ⟨?_, ?_⟩
    · rw [Gaussian_source, Gaussian_source, hinfo, hncol, hncs]
    · intro cb site col cspin h1 h2 h3 h4 h5
      rw [Gaussian_entry draw x subset g cb site col cspin h1 h2 h3 h4 h5,
        Gaussian_entry draw x2 subset g cb site col cspin h1 h2 (hinfo ▸ h3) (hncol ▸ h4)
          (hncs ▸ h5), hinfo, hncol, hncs]
  · intro c a hc
    exact Gaussian_frame draw x subset g c a hc

end RandomFillLemmas

/-! ## The buffer index map of the column kernels -/

section ColumnIndex

/-- C38: the buffer index map of `GetColumns` and `PutColumns` (`columnIndex`, which is the
index expression of the source).  When `ld ≥ 2·numColorSpin·numCBSites·(end − start)`, two
in-range tuples (real/imaginary, colorspin, site, checkerboard of the subset, column) with
the same buffer position are the same tuple, and every position used is below `ld·columns`;
and for a smaller `ld` (`ld = 2` where the bound is `4`) two different entries collide. -/
theorem columnIndex_injective (ncs ns ncol ld : Nat) (subset : CBSubset) :
    (∀ r cspin site cb col, columnIndex ncs ns subset.start ld r cspin site cb col =
      r + n_complex * cspin + ((cb - subset.start) * ns + site) * ncs * n_complex + ld * col) ∧
    (n_complex * ncs * ns * (subset.end_ - subset.start) ≤ ld →
      (∀ r cspin site cb col r2 cspin2 site2 cb2 col2,
        r < n_complex → cspin < ncs → site < ns → subset.start ≤ cb → cb < subset.end_ →
        col < ncol →
        r2 < n_complex → cspin2 < ncs → site2 < ns → subset.start ≤ cb2 → cb2 < subset.end_ →
        col2 < ncol →
        columnIndex ncs ns subset.start ld r cspin site cb col =
          columnIndex ncs ns subset.start ld r2 cspin2 site2 cb2 col2 →
        col = col2 ∧ cb = cb2 ∧ site = site2 ∧ cspin = cspin2 ∧ r = r2) ∧
      (∀ r cspin site cb col,
        r < n_complex → cspin < ncs → site < ns → subset.start ≤ cb → cb < subset.end_ →
        col < ncol →
        columnIndex ncs ns subset.start ld r cspin site cb col < ld * ncol)) ∧
    (∃ r cspin site cb col r2 cspin2 site2 cb2 col2 : Nat,
      (2 : Nat) < n_complex * 1 * 1 * (SUBSET_ALL.end_ - SUBSET_ALL.start) ∧
      r < n_complex ∧ cspin < 1 ∧ site < 1 ∧ SUBSET_ALL.start ≤ cb ∧ cb < SUBSET_ALL.end_ ∧
      col < 2 ∧
      r2 < n_complex ∧ cspin2 < 1 ∧ site2 < 1 ∧ SUBSET_ALL.start ≤ cb2 ∧
      cb2 < SUBSET_ALL.end_ ∧ col2 < 2 ∧
      (col, cb, site, cspin, r) ≠ (col2, cb2, site2, cspin2, r2) ∧
      columnIndex 1 1 SUBSET_ALL.start 2 r cspin site cb col =
        columnIndex 1 1 SUBSET_ALL.start 2 r2 cspin2 site2 cb2 col2) := by
  refine ⟨fun r cspin site cb col => columnIndex_eq _ _ _ _ _ _ _ _ _, ?_, ?_⟩
  · intro hld
    have hld2 : 2 * ncs * ns * (subset.end_ - subset.start) ≤ ld := hld
    refine ⟨?_, ?_⟩
    · intro r cspin site cb col r2 cspin2 site2 cb2 col2 hr hk hs h1 h2 _ hr2 hk2 hs2 h12 h22 _
        h
      rw [columnIndex_eq, columnIndex_eq] at h
      simp only [n_complex] at h hr hr2
      have hh := columns_index_inj ncs ns (subset.end_ - subset.start) ld hld2
        r cspin site (cb - subset.start) col r2 cspin2 site2 (cb2 - subset.start) col2
        hr hk hs (by omega) hr2 hk2 hs2 (by omega) h
      exact ⟨hh.2.2.1, by omega, hh.2.1, hh.2.2.2.1, hh.2.2.2.2⟩
    · intro r cspin site cb col hr hk hs h1 h2 hc
      rw [columnIndex_eq]
      simp only [n_complex] at hr ⊢
      have hin := columns_inner_lt ncs ns (subset.end_ - subset.start) r cspin site
        (cb - subset.start) hr hk hs (by omega)
      have hmul : ld * (col + 1) ≤ ld * ncol := Nat.mul_le_mul_left ld hc
      rw [Nat.mul_succ] at hmul
      omega
  · exact ⟨0, 0, 0, 0, 1, 0, 0, 0, 1, 0, by decide, by decide, by decide, by decide, by decide,
      by decide, by decide, by decide, by decide, by decide, by decide, by decide, by decide,
      by decide, by decide⟩

end ColumnIndex

/-! ## The range of the reduction and the frame of `UpdateVecs` -/

section ReduceRange

variable {T : Type} [Add T]

/-- Once an access of `reduce` is out of range the loops keep that outcome. -/
theorem multivector.reduce_loop_none (m : multivector T) (lo hi i : Nat) :
    forLoop lo hi (fun j (r : Option (List T)) =>
      match r with
      | none => none
      | some r =>
        match r[j]?, m.v[i * m.threads + j]? with
        | some rj, some vij => some (r.set j (rj + vij))
        | _, _ => none) none = none := by
  apply forLoop_inv (fun r : Option (List T) => r = none) _ _ _ _ _ rfl
  intro j _ _ r hr
  rw [hr]

/-- The inner loop of `reduce` keeps the length of the result vector. -/
theorem multivector.reduce_loop_length (m : multivector T) (lo hi i : Nat)
    (r : Option (List T)) (hr : ∀ l, r = some l → l.length = m.n) :
    ∀ l, forLoop lo hi (fun j (r : Option (List T)) =>
      match r with
      | none => none
      | some r =>
        match r[j]?, m.v[i * m.threads + j]? with
        | some rj, some vij => some (r.set j (rj + vij))
        | _, _ => none) r = some l → l.length = m.n := by
  apply forLoop_inv (fun r : Option (List T) => ∀ l, r = some l → l.length = m.n) _ _ _ _ _ hr
  intro j _ _ r hr l hl
  cases r with
  | none => simp at hl
  | some r0 =>
    cases hrj : r0[j]? with
    | none => simp [hrj] at hl
    | some rj =>
      cases hvij : m.v[i * m.threads + j]? with
      | none => simp [hrj, hvij] at hl
      | some vij =>
        simp only [hrj, hvij, Option.some.injEq] at hl
        subst hl
        rw [List.length_set]
        exact hr r0 rfl

/-- With more threads than accumulators (`n ≥ 1`), `reduce` indexes its `n`-entry result at
position `n`. -/
theorem multivector.reduce_out_of_range [Zero T] (m : multivector T) (hn : 0 < m.n)
    (ht : m.n < m.threads) : m.reduce = none := by
  unfold multivector.reduce
  rw [forLoop_step 0 m.n hn]
  have hinner : forLoop 0 m.threads (fun j (r : Option (List T)) =>
      match r with
      | none => none
      | some r =>
        match r[j]?, m.v[0 * m.threads + j]? with
        | some rj, some vij => some (r.set j (rj + vij))
        | _, _ => none) (some (List.replicate m.n 0)) = none := by
    rw [forLoop_split 0 m.n m.threads (Nat.zero_le _) (Nat.le_of_lt ht),
      forLoop_step m.n m.threads ht]
    have hlen := multivector.reduce_loop_length m 0 m.n 0 (some (List.replicate m.n 0))
      (by
        intro l hl
        simp only [Option.some.injEq] at hl
        rw [← hl, List.length_replicate])
    cases hfirst : forLoop 0 m.n (fun j (r : Option (List T)) =>
      match r with
      | none => none
      | some r =>
        match r[j]?, m.v[0 * m.threads + j]? with
        | some rj, some vij => some (r.set j (rj + vij))
        | _, _ => none) (some (List.replicate m.n 0)) with
    | none => exact multivector.reduce_loop_none m _ _ 0
    | some l =>
      have hl := hlen l hfirst
      have hnone : l[m.n]? = none := List.getElem?_eq_none (by omega)
      simp only [hnone]
      exact multivector.reduce_loop_none m _ _ 0
  apply forLoop_inv (fun r : Option (List T) => r = none) _ _ _ _ _ hinner
  intro i _ _ r hr
  rw [hr]
  exact multivector.reduce_loop_none m _ _ i

/-- With at most as many threads as accumulators, every access of `reduce` on a buffer of
`n * threads` entries is in range and the call returns a vector of `n` entries. -/
theorem multivector.reduce_in_range [Zero T] (m : multivector T) (ht : m.threads ≤ m.n)
    (hv : m.v.length = m.n * m.threads) : ∃ l, m.reduce = some l ∧ l.length = m.n := by
  unfold multivector.reduce
  apply forLoop_inv (fun r : Option (List T) => ∃ l, r = some l ∧ l.length = m.n)
  · intro i _ hi r hr
    apply forLoop_inv (fun r : Option (List T) => ∃ l, r = some l ∧ l.length = m.n) _ _ _ _ _ hr
    intro j _ hj r hr
    obtain ⟨l, rfl, hl⟩ := hr
    have h1 : j < l.length := by omega
    have h2 : i * m.threads + j < m.v.length := by
      have := Nat.mul_le_mul_right m.threads (show i + 1 ≤ m.n from hi)
      rw [Nat.add_mul, Nat.one_mul] at this
      omega
    simp only [List.getElem?_eq_getElem h1, List.getElem?_eq_getElem h2]
    exact ⟨_, rfl, by rw [List.length_set]; exact hl⟩
  · exact ⟨_, rfl, List.length_replicate _ _⟩

end ReduceRange

section UpdateVecsFrame

variable {R : Type} [CommRing R]

/-- The multiply loops of `UpdateVecs` write only to the checkerboards of the subset, so on
a checkerboard outside the subset the field is the one its call `ZeroVec(y)` left. -/
theorem UpdateVecs_outside_data (x : CoarseSpinor R) (ip : List (Cplx R)) (y : CoarseSpinor R)
    (subset : CBSubset) (hcompat : AssertCompatible x.GetInfo y.GetInfo = true)
    (hip : x.GetNCol * y.GetNCol = ip.length) (c a : Nat)
    (hc : c < subset.start ∨ subset.end_ ≤ c) :
    (UpdateVecs x ip y subset).state.data c a = (ZeroVec y SUBSET_ALL).data c a := by
  unfold UpdateVecs
  simp only [hcompat, hip, Bool.not_true, Bool.false_eq_true, if_false, beq_self_eq_true,
    Run.state]
  apply forLoop_obs_frame (fun ys : CoarseSpinor R => ys.data c a)
  intro cb h1 h2 ys
  apply forLoop_obs_frame (fun ys : CoarseSpinor R => ys.data c a)
  intro site _ _ ys
  unfold XGEMM
  apply forLoop_obs_frame (fun ys : CoarseSpinor R => ys.data c a)
  intro j _ _ ys
  apply forLoop_obs_frame (fun ys : CoarseSpinor R => ys.data c a)
  intro i _ _ ys
  exact store_store_data_ne ys (y.GetSiteDataPtr 0 cb site) _ _ _ _ c a
    (by show c ≠ cb; omega)

/-- A call `UpdateVecs(x, ip, y, subset)` that passes its assertions leaves `0` in every
entry of `y` on a checkerboard outside the subset. -/
theorem UpdateVecs_outside_zero (x : CoarseSpinor R) (ip : List (Cplx R)) (y : CoarseSpinor R)
    (subset : CBSubset) (hcompat : AssertCompatible x.GetInfo y.GetInfo = true)
    (hip : x.GetNCol * y.GetNCol = ip.length) (c site col cspin : Nat)
    (hc : c < subset.start ∨ subset.end_ ≤ c) (hc2 : c < n_checkerboard)
    (h3 : site < y.GetInfo.GetNumCBSites) (h4 : col < y.GetNCol)
    (h5 : cspin < y.GetNumColorSpin) :
    (UpdateVecs x ip y subset).state.loadC (y.GetSiteDataPtr col c site) cspin = 0 := by
  have hz := ZeroVec_entry y SUBSET_ALL c site col cspin (Nat.zero_le _) hc2 h3 h4 h5
  simp only [CoarseSpinor.loadC, CoarseSpinor.load, CoarseSpinor.GetSiteDataPtr_cb] at hz ⊢
  rw [UpdateVecs_outside_data x ip y subset hcompat hip c _ hc,
    UpdateVecs_outside_data x ip y subset hcompat hip c _ hc]
  exact hz

end UpdateVecsFrame

/-! ## Relations between the inner products and the norm -/

section Conjugation

variable {R : Type} [CommRing R]

/-- The accumulator update `v[idx] += s` commutes with an additive map into another type of
accumulators. -/
theorem multivector.addAt_mapTo {T U : Type} [Zero T] [Add T] [Zero U] [Add U] (f : T → U)
    (h0 : f 0 = 0) (hadd : ∀ a b, f (a + b) = f a + f b) (m : multivector T) (idx : Nat)
    (s : T) :
    (⟨m.n, m.threads, m.v.map f⟩ : multivector U).addAt idx (f s) =
      ⟨(m.addAt idx s).n, (m.addAt idx s).threads, (m.addAt idx s).v.map f⟩ := by
  simp only [multivector.addAt, multivector.writeAt, multivector.readAt, List.map_set, hadd]
  congr 3
  rw [← h0, List.getD_map]

/-- The method `reduce` commutes with an additive map into another type of accumulators. -/
theorem multivector.reduce_mapTo {T U : Type} [Zero T] [Add T] [Zero U] [Add U] (f : T → U)
    (h0 : f 0 = 0) (hadd : ∀ a b, f (a + b) = f a + f b) (m : multivector T) :
    (⟨m.n, m.threads, m.v.map f⟩ : multivector U).reduce = m.reduce.map (List.map f) := by
  unfold multivector.reduce
  dsimp only
  have key : ∀ r0 : Option (List T),
      forLoop 0 m.n (fun i =>
        forLoop 0 m.threads (fun j r =>
          match r with
          | none => none
          | some r =>
            match r[j]?, (m.v.map f)[i * m.threads + j]? with
            | some rj, some vij => some (r.set j (rj + vij))
            | _, _ => none)) (r0.map (List.map f)) =
      (forLoop 0 m.n (fun i =>
        forLoop 0 m.threads (fun j r =>
          match r with
          | none => none
          | some r =>
            match r[j]?, m.v[i * m.threads + j]? with
            | some rj, some vij => some (r.set j (rj + vij))
            | _, _ => none)) r0).map (List.map f) := by
    intro r0
    symm
    apply forLoop_map (Option.map (List.map f))
    intro i _ _ r
    apply forLoop_map (Option.map (List.map f))
    intro j _ _ r
    cases r with
    | none => rfl
    | some r =>
      simp only [Option.map_some', List.getElem?_map]
      cases hr : r[j]? with
      | none => simp
      | some rj =>
        cases hv : m.v[i * m.threads + j]? with
        | none => simp
        | some vij => simp [List.map_set, hadd]
  have h := key (some (List.replicate m.n 0))
  simp only [Option.map_some', List.map_replicate, h0] at h
  exact h

/-- The conjugate of zero. -/
theorem Cplx.conj_zero : (0 : Cplx R).conj = 0 := by
  ext <;> simp

/-- Conjugation is additive. -/
theorem Cplx.conj_add (a b : Cplx R) : (a + b).conj = a.conj + b.conj := by
  ext
  · simp
  · simp only [Cplx.conj_im, Cplx.add_im]
    ring

/-- The geometry check is symmetric. -/
theorem AssertCompatible_comm (a b : LatticeInfo) :
    AssertCompatible a b = AssertCompatible b a := by
  simp only [AssertCompatible]
  rw [Bool.eq_iff_iff]
  simp only [Bool.and_eq_true, beq_iff_eq]
  constructor <;> rintro ⟨h1, h2⟩ <;> exact ⟨h1.symm, h2.symm⟩

/-- For fields with the same number of columns, `InnerProductVec(y, x, subset)` ends as
`InnerProductVec(x, y, subset)` does, and its value is the entry-wise complex conjugate, in
every environment in which the reduction returns. -/
theorem InnerProductVec_swap (env : OmpEnv) (x y : CoarseSpinor R) (subset : CBSubset)
    (hcol : x.GetNCol = y.GetNCol) :
    (InnerProductVec env y x subset).value =
      (InnerProductVec env x y subset).value.map (Option.map (List.map Cplx.conj)) := by
  unfold InnerProductVec
  dsimp only
  rw [AssertCompatible_comm y.GetInfo x.GetInfo]
  cases hc : AssertCompatible x.GetInfo y.GetInfo
  · rfl
  · have hcs := colorspin_eq_of_compatible x y hc
    have hns : x.GetInfo.GetNumCBSites = y.GetInfo.GetNumCBSites := by
      simp only [AssertCompatible, Bool.and_eq_true, beq_iff_eq] at hc
      exact hc.1
    simp only [Bool.not_true, Bool.false_eq_true, if_false, Run.value, Option.map_some',
      map_GlobalSum]
    congr 1
    rw [← multivector.reduce_map Cplx.conj Cplx.conj_zero Cplx.conj_add]
    congr 1
    rw [← hns, ← hcs.1, ← hcol]
    have h0 : (0 : Cplx R).conj = 0 := Cplx.conj_zero
    have hcreate : (multivector.create env x.GetNCol : multivector (Cplx R)) =
        ⟨(multivector.create env x.GetNCol : multivector (Cplx R)).n,
          (multivector.create env x.GetNCol : multivector (Cplx R)).threads,
          (multivector.create env x.GetNCol : multivector (Cplx R)).v.map Cplx.conj⟩ := by
      simp [multivector.create, h0]
    conv_lhs => rw [hcreate]
    symm
    apply forLoop_map (fun m : multivector (Cplx R) =>
      (⟨m.n, m.threads, m.v.map Cplx.conj⟩ : multivector (Cplx R)))
    intro cb _ _ m
    apply forLoop_map (fun m : multivector (Cplx R) =>
      (⟨m.n, m.threads, m.v.map Cplx.conj⟩ : multivector (Cplx R)))
    intro site _ _ m
    apply forLoop_map (fun m : multivector (Cplx R) =>
      (⟨m.n, m.threads, m.v.map Cplx.conj⟩ : multivector (Cplx R)))
    intro col _ _ m
    have hS := forLoop_map (fun acc : R × R => (acc.1, -acc.2)) 0 x.GetNumColorSpin
      (fun cspin (acc : R × R) =>
        (acc.1 + (x.load (x.GetSiteDataPtr col cb site) (RE + n_complex * cspin) *
                    y.load (y.GetSiteDataPtr col cb site) (RE + n_complex * cspin) +
                  x.load (x.GetSiteDataPtr col cb site) (IM + n_complex * cspin) *
                    y.load (y.GetSiteDataPtr col cb site) (IM + n_complex * cspin)),
         acc.2 + (x.load (x.GetSiteDataPtr col cb site) (RE + n_complex * cspin) *
                    y.load (y.GetSiteDataPtr col cb site) (IM + n_complex * cspin) -
                  x.load (x.GetSiteDataPtr col cb site) (IM + n_complex * cspin) *
                    y.load (y.GetSiteDataPtr col cb site) (RE + n_complex * cspin))))
      (fun cspin (acc : R × R) =>
        (acc.1 + (y.load (y.GetSiteDataPtr col cb site) (RE + n_complex * cspin) *
                    x.load (x.GetSiteDataPtr col cb site) (RE + n_complex * cspin) +
                  y.load (y.GetSiteDataPtr col cb site) (IM + n_complex * cspin) *
                    x.load (x.GetSiteDataPtr col cb site) (IM + n_complex * cspin)),
         acc.2 + (y.load (y.GetSiteDataPtr col cb site) (RE + n_complex * cspin) *
                    x.load (x.GetSiteDataPtr col cb site) (IM + n_complex * cspin) -
                  y.load (y.GetSiteDataPtr col cb site) (IM + n_complex * cspin) *
                    x.load (x.GetSiteDataPtr col cb site) (RE + n_complex * cspin))))
      (by
        intro cspin _ _ acc
        apply Prod.ext
        · simp only
          ring
        · simp only
          ring) ((0 : R), (0 : R))
    simp only [neg_zero] at hS
    rw [← hS]
    exact (multivector.addAt_map Cplx.conj h0 Cplx.conj_add m _ _).symm

/-- The geometry check passes on a field and itself. -/
theorem AssertCompatible_self (a : LatticeInfo) : AssertCompatible a a = true := by
  simp [AssertCompatible]

/-- The value of `InnerProductVec(x, x, subset)` is that of `Norm2Vec(x, subset)` with every
entry `v` read as the complex number `v + 0i`, in every environment in which the reduction
returns. -/
theorem InnerProductVec_self (env : OmpEnv) (x : CoarseSpinor R) (subset : CBSubset) :
    (InnerProductVec env x x subset).value =
      some ((Norm2Vec env x subset).map (List.map (fun r : R => (⟨r, 0⟩ : Cplx R)))) := by
  have h0 : (fun r : R => (⟨r, 0⟩ : Cplx R)) 0 = 0 := rfl
  have hadd : ∀ a b : R, (fun r : R => (⟨r, 0⟩ : Cplx R)) (a + b) =
      (fun r : R => (⟨r, 0⟩ : Cplx R)) a + (fun r : R => (⟨r, 0⟩ : Cplx R)) b := by
    intro a b
    apply Cplx.ext
    · rfl
    · simp
  simp only [InnerProductVec, Norm2Vec, AssertCompatible_self, Bool.not_true,
    Bool.false_eq_true, if_false, Run.value, map_GlobalSum]
  congr 1
  rw [← multivector.reduce_mapTo (fun r : R => (⟨r, 0⟩ : Cplx R)) h0 hadd]
  congr 1
  have hcreate : (multivector.create env x.GetNCol : multivector (Cplx R)) =
      ⟨(multivector.create env x.GetNCol : multivector R).n,
        (multivector.create env x.GetNCol : multivector R).threads,
        (multivector.create env x.GetNCol : multivector R).v.map
          (fun r : R => (⟨r, 0⟩ : Cplx R))⟩ := by
    simp only [multivector.create, List.map_replicate]
    rfl
  rw [hcreate]
  symm
  apply forLoop_map (fun m : multivector R =>
    (⟨m.n, m.threads, m.v.map (fun r : R => (⟨r, 0⟩ : Cplx R))⟩ : multivector (Cplx R)))
  intro cb _ _ m
  apply forLoop_map (fun m : multivector R =>
    (⟨m.n, m.threads, m.v.map (fun r : R => (⟨r, 0⟩ : Cplx R))⟩ : multivector (Cplx R)))
  intro site _ _ m
  apply forLoop_map (fun m : multivector R =>
    (⟨m.n, m.threads, m.v.map (fun r : R => (⟨r, 0⟩ : Cplx R))⟩ : multivector (Cplx R)))
  intro col _ _ m
  have hS := forLoop_map (fun r : R => (r, (0 : R))) 0 x.GetNumColorSpin
    (fun cspin cspin_sum =>
      cspin_sum +
        (x.load (x.GetSiteDataPtr col cb site) (RE + n_complex * cspin) *
            x.load (x.GetSiteDataPtr col cb site) (RE + n_complex * cspin) +
          x.load (x.GetSiteDataPtr col cb site) (IM + n_complex * cspin) *
            x.load (x.GetSiteDataPtr col cb site) (IM + n_complex * cspin)))
    (fun cspin (acc : R × R) =>
      (acc.1 + (x.load (x.GetSiteDataPtr col cb site) (RE + n_complex * cspin) *
                  x.load (x.GetSiteDataPtr col cb site) (RE + n_complex * cspin) +
                x.load (x.GetSiteDataPtr col cb site) (IM + n_complex * cspin) *
                  x.load (x.GetSiteDataPtr col cb site) (IM + n_complex * cspin)),
       acc.2 + (x.load (x.GetSiteDataPtr col cb site) (RE + n_complex * cspin) *
                  x.load (x.GetSiteDataPtr col cb site) (IM + n_complex * cspin) -
                x.load (x.GetSiteDataPtr col cb site) (IM + n_complex * cspin) *
                  x.load (x.GetSiteDataPtr col cb site) (RE + n_complex * cspin))))
    (by
      intro cspin _ _ acc
      apply Prod.ext
      · rfl
      · simp only
        ring) (0 : R)
  rw [← hS]
  exact (multivector.addAt_mapTo (fun r : R => (⟨r, 0⟩ : Cplx R)) h0 hadd m _ _).symm

end Conjugation

section NormSign

variable {R : Type} [LinearOrderedCommRing R]

/-- The reduction of a buffer of non-negative accumulators has non-negative entries. -/
theorem multivector.reduce_nonneg (m : multivector R) (hv : ∀ e ∈ m.v, 0 ≤ e) (l : List R)
    (h : m.reduce = some l) : ∀ e ∈ l, 0 ≤ e := by
  have key : ∀ r : Option (List R), (∀ l, r = some l → ∀ e ∈ l, 0 ≤ e) →
      ∀ l, forLoop 0 m.n (fun i =>
        forLoop 0 m.threads (fun j r =>
          match r with
          | none => none
          | some r =>
            match r[j]?, m.v[i * m.threads + j]? with
            | some rj, some vij => some (r.set j (rj + vij))
            | _, _ => none)) r = some l → ∀ e ∈ l, 0 ≤ e := by
    intro r hr
    apply forLoop_inv (fun r : Option (List R) => ∀ l, r = some l → ∀ e ∈ l, 0 ≤ e) _ _ _ _ _ hr
    intro i _ _ r hr
    apply forLoop_inv (fun r : Option (List R) => ∀ l, r = some l → ∀ e ∈ l, 0 ≤ e) _ _ _ _ _ hr
    intro j _ _ r hr l hl
    cases r with
    | none => simp at hl
    | some r0 =>
      cases hrj : r0[j]? with
      | none => simp [hrj] at hl
      | some rj =>
        cases hvij : m.v[i * m.threads + j]? with
        | none => simp [hrj, hvij] at hl
        | some vij =>
          simp only [hrj, hvij, Option.some.injEq] at hl
          subst hl
          intro e he
          rcases List.mem_or_eq_of_mem_set he with he | he
          · exact hr r0 rfl e he
          · rw [he]
            exact add_nonneg (hr r0 rfl rj (List.getElem?_mem hrj))
              (hv vij (List.getElem?_mem hvij))
  apply key (some (List.replicate m.n 0)) _ l h
  intro l0 hl0 e he
  simp only [Option.some.injEq] at hl0
  subst hl0
  rw [List.eq_of_mem_replicate he]

/-- Every entry of a vector that `Norm2Vec` returns is non-negative. -/
theorem Norm2Vec_nonneg (env : OmpEnv) (x : CoarseSpinor R) (subset : CBSubset) (l : List R)
    (h : Norm2Vec env x subset = some l) : ∀ e ∈ l, 0 ≤ e := by
  simp only [Norm2Vec, map_GlobalSum] at h
  refine multivector.reduce_nonneg _ ?_ l h
  apply forLoop_inv (fun m : multivector R => ∀ e ∈ m.v, 0 ≤ e)
  · intro cb _ _ m hm
    apply forLoop_inv (fun m : multivector R => ∀ e ∈ m.v, 0 ≤ e) _ _ _ _ _ hm
    intro site _ _ m hm
    apply forLoop_inv (fun m : multivector R => ∀ e ∈ m.v, 0 ≤ e) _ _ _ _ _ hm
    intro col _ _ m hm e he
    simp only [multivector.addAt, multivector.writeAt, multivector.readAt] at he
    rcases List.mem_or_eq_of_mem_set he with he | he
    · exact hm e he
    · rw [he]
      apply add_nonneg
      · rw [List.getD_eq_getElem?_getD]
        cases hg : m.v[m.mine env (env.thread_num cb site col) + col]? with
        | none => simp
        | some u => exact hm u (List.getElem?_mem hg)
      · apply forLoop_inv (fun s : R => 0 ≤ s) _ _ _ _ _ (le_refl 0)
        intro cspin _ _ s hs
        exact add_nonneg hs (add_nonneg (mul_self_nonneg _) (mul_self_nonneg _))
  · intro e he
    simp only [multivector.create] at he
    rw [List.eq_of_mem_replicate he]

/-- On one OpenMP thread, for a one-column field, `Norm2Vec` returns `[v]` with `v ≥ 0` and
`InnerProductVec(x, x, subset)` returns `[v + 0i]`. -/
theorem InnerProductVec_self_norm_one_thread (env : OmpEnv) (hopen : env.openmp = true)
    (hthreads : env.max_threads = 1) (x : CoarseSpinor R) (subset : CBSubset)
    (hcol : x.GetNCol = 1) :
    ∃ v, Norm2Vec env x subset = some [v] ∧
      (InnerProductVec env x x subset).value = some (some [⟨v, 0⟩]) ∧ 0 ≤ v := by
  obtain ⟨v, hv⟩ := Norm2Vec_one_column_returns env hopen hthreads x subset hcol
  refine ⟨v, hv, ?_, Norm2Vec_nonneg env x subset [v] hv v (List.mem_singleton.mpr rfl)⟩
  rw [InnerProductVec_self, hv]
  rfl

end NormSign

section InRange

/-- The form of `reduce_in_range` for a buffer whose shape is known by equations. -/
theorem multivector.reduce_in_range_of_shape {T : Type} [Zero T] [Add T] (m : multivector T)
    (N K : Nat) (hn : m.n = N) (ht : m.threads = K) (hv : m.v.length = N * K) (h : K ≤ N) :
    ∃ l, m.reduce = some l ∧ l.length = N := by
  subst hn ht
  exact multivector.reduce_in_range m h hv

end InRange

section InRangeProducts

variable {R : Type} [CommRing R]

/-- With at most as many threads as columns, `InnerProductVec` on compatible fields returns
a vector with one entry per column of `x`. -/
theorem InnerProductVec_returns (env : OmpEnv) (x y : CoarseSpinor R) (subset : CBSubset)
    (hcompat : AssertCompatible x.GetInfo y.GetInfo = true)
    (ht : (if env.openmp then env.max_threads else 1) ≤ x.GetNCol) :
    ∃ l, (InnerProductVec env x y subset).value = some (some l) ∧ l.length = x.GetNCol := by
  simp only [InnerProductVec, hcompat, Bool.not_true, Bool.false_eq_true, if_false,
    map_GlobalSum, Run.value, Option.some.injEq]
  have hshape := cellLoop_obs_frame
    (fun m : multivector (Cplx R) => (m.n, m.threads, m.v.length)) subset.start subset.end_
    x.GetInfo.GetNumCBSites x.GetNCol
    (fun cb cbsite col (ipprodm : multivector (Cplx R)) =>
      ipprodm.addAt (ipprodm.mine env (env.thread_num cb cbsite col) + col)
        ⟨(forLoop 0 x.GetNumColorSpin (fun cspin (acc : R × R) =>
          (acc.1 + (x.load (x.GetSiteDataPtr col cb cbsite) (RE + n_complex * cspin) *
                      y.load (y.GetSiteDataPtr col cb cbsite) (RE + n_complex * cspin) +
                    x.load (x.GetSiteDataPtr col cb cbsite) (IM + n_complex * cspin) *
                      y.load (y.GetSiteDataPtr col cb cbsite) (IM + n_complex * cspin)),
           acc.2 + (x.load (x.GetSiteDataPtr col cb cbsite) (RE + n_complex * cspin) *
                      y.load (y.GetSiteDataPtr col cb cbsite) (IM + n_complex * cspin) -
                    x.load (x.GetSiteDataPtr col cb cbsite) (IM + n_complex * cspin) *
                      y.load (y.GetSiteDataPtr col cb cbsite) (RE + n_complex * cspin))))
          ((0 : R), (0 : R))).1,
         (forLoop 0 x.GetNumColorSpin (fun cspin (acc : R × R) =>
          (acc.1 + (x.load (x.GetSiteDataPtr col cb cbsite) (RE + n_complex * cspin) *
                      y.load (y.GetSiteDataPtr col cb cbsite) (RE + n_complex * cspin) +
                    x.load (x.GetSiteDataPtr col cb cbsite) (IM + n_complex * cspin) *
                      y.load (y.GetSiteDataPtr col cb cbsite) (IM + n_complex * cspin)),
           acc.2 + (x.load (x.GetSiteDataPtr col cb cbsite) (RE + n_complex * cspin) *
                      y.load (y.GetSiteDataPtr col cb cbsite) (IM + n_complex * cspin) -
                    x.load (x.GetSiteDataPtr col cb cbsite) (IM + n_complex * cspin) *
                      y.load (y.GetSiteDataPtr col cb cbsite) (RE + n_complex * cspin))))
          ((0 : R), (0 : R))).2⟩)
    (fun _ _ _ _ _ _ _ st => multivector.addAt_shape st _ _)
    (multivector.create env x.GetNCol)
  simp only [multivector.create, List.length_replicate, Prod.mk.injEq] at hshape
  obtain ⟨l, hl, hlen⟩ := multivector.reduce_in_range_of_shape _ _ _ hshape.1 hshape.2.1
    hshape.2.2 ht
  simp only [multivector.create]
  exact ⟨l, hl, hlen⟩

/-- With at most as many threads as columns, for compatible fields with the same number of
columns, both `InnerProductVec(x, y, subset)` and `InnerProductVec(y, x, subset)` return a
vector, and the second is the entry-wise complex conjugate of the first. -/
theorem InnerProductVec_conjugate_in_range (env : OmpEnv) (x y : CoarseSpinor R)
    (subset : CBSubset) (hcompat : AssertCompatible x.GetInfo y.GetInfo = true)
    (hcol : x.GetNCol = y.GetNCol)
    (ht : (if env.openmp then env.max_threads else 1) ≤ x.GetNCol) :
    ∃ l, (InnerProductVec env x y subset).value = some (some l) ∧
      (InnerProductVec env y x subset).value = some (some (l.map Cplx.conj)) ∧
      l.length = x.GetNCol := by
  obtain ⟨l, hl, hlen⟩ := InnerProductVec_returns env x y subset hcompat ht
  refine ⟨l, hl, ?_, hlen⟩
  rw [InnerProductVec_swap env x y subset hcol, hl]
  rfl

end InRangeProducts

/-! ## Instances for the last kernels -/

section FinalInstances

/-- C31 at a call on the even checkerboard: `yFull` holds `7 + 8i` and `9 + 10i` in its two
columns on the odd checkerboard, the call passes its assertions, and afterwards both entries
of the odd checkerboard are `0` (column 1 of the even checkerboard holds the product,
`2 + 0i`). -/
theorem UpdateVecs_zeroes_other_checkerboard :
    AssertCompatible xTwoCol.GetInfo yFull.GetInfo = true ∧
    xTwoCol.GetNCol * yFull.GetNCol = ipIdentity.length ∧
    (UpdateVecs xTwoCol ipIdentity yFull SUBSET_EVEN).isFatal = false ∧
    yFull.loadC (yFull.GetSiteDataPtr 0 1 0) 0 = ⟨7, 8⟩ ∧
    (UpdateVecs xTwoCol ipIdentity yFull SUBSET_EVEN).state.loadC
      (yFull.GetSiteDataPtr 0 1 0) 0 = ⟨0, 0⟩ ∧
    yFull.loadC (yFull.GetSiteDataPtr 1 1 0) 0 = ⟨9, 10⟩ ∧
    (UpdateVecs xTwoCol ipIdentity yFull SUBSET_EVEN).state.loadC
      (yFull.GetSiteDataPtr 1 1 0) 0 = ⟨0, 0⟩ ∧
    (UpdateVecs xTwoCol ipIdentity yFull SUBSET_EVEN).state.loadC
      (yFull.GetSiteDataPtr 1 0 0) 0 = ⟨2, 0⟩ := by
  decide

/-- C32 in an OpenMP build with two threads and a buffer of width `n = 2` (four entries):
`mine()` returns offset `0` for thread 0 and for thread 1, where the slice of thread 1
starts at `1·n = 2`. -/
theorem mine_two_threads_same_slice :
    (multivector.create env2 2 : multivector Int).n = 2 ∧
    (multivector.create env2 2 : multivector Int).threads = 2 ∧
    (multivector.create env2 2 : multivector Int).v.length = 4 ∧
    (multivector.create env2 2 : multivector Int).mine env2 0 = 0 ∧
    (multivector.create env2 2 : multivector Int).mine env2 1 = 0 := by
  decide

/-- C37 on a buffer of width `n = 1` for `T = 2` threads holding `[1, 2]`: `reduce()`
accesses its one-entry result vector at position 1. -/
theorem reduce_one_two :
    mvOneTwo.n = 1 ∧ mvOneTwo.threads = 2 ∧ mvOneTwo.v.length = mvOneTwo.n * mvOneTwo.threads ∧
    mvOneTwo.reduce = none := by
  decide

/-- C39 at two OpenMP threads, for the one-column field `xTen`: neither
`InnerProductVec(x, x)` nor `Norm2Vec(x)` returns a vector, because the reduction of the
one-entry accumulator indexes `r[1]` in a result vector of length 1. -/
theorem InnerProductVec_self_two_threads :
    xTen.GetNCol = 1 ∧
    (InnerProductVec env2 xTen xTen SUBSET_EVEN).value = some none ∧
    Norm2Vec env2 xTen SUBSET_EVEN = none := by
  decide

/-- The same calls at one OpenMP thread: `[50 + 0i]` and `[50]`. -/
theorem InnerProductVec_self_one_thread :
    (InnerProductVec env1 xTen xTen SUBSET_EVEN).value = some (some [⟨50, 0⟩]) ∧
    Norm2Vec env1 xTen SUBSET_EVEN = some [50] := by
  decide

/-- C40 at two OpenMP threads, for the compatible one-column fields `xConst`, `yConst`:
neither `InnerProductVec(x, y)` nor `InnerProductVec(y, x)` returns a vector, because the
reduction of the one-entry accumulator indexes `r[1]` in a result vector of length 1. -/
theorem InnerProductVec_swap_two_threads :
    AssertCompatible xConst.GetInfo yConst.GetInfo = true ∧
    xConst.GetNCol = yConst.GetNCol ∧
    (InnerProductVec env2 xConst yConst SUBSET_EVEN).value = some none ∧
    (InnerProductVec env2 yConst xConst SUBSET_EVEN).value = some none := by
  decide

/-- The same calls at one OpenMP thread, and those on the two-column fields `xTwoCol`,
`yTwoCol`: the swapped call returns the conjugate vector. -/
theorem InnerProductVec_swap_one_thread :
    (InnerProductVec env1 xConst yConst SUBSET_EVEN).value = some (some [⟨0, 4⟩]) ∧
    (InnerProductVec env1 yConst xConst SUBSET_EVEN).value = some (some [⟨0, -4⟩]) ∧
    (InnerProductVec env1 xTwoCol yTwoCol SUBSET_EVEN).value = some (some [⟨2, 1⟩, 0]) ∧
    (InnerProductVec env1 yTwoCol xTwoCol SUBSET_EVEN).value = some (some [⟨2, -1⟩, 0]) := by
  decide

/-- An instance of the theorem for C33 on `gaugeFives`, which holds `5` everywhere: after
`ZeroGauge` the second real of the diagonal block and of the inverse-diagonal block and the
fourth real of the three other blocks at site 0 of checkerboard 1 are `0`. -/
theorem ZeroGauge_clears_regions_witness :
    (1 : Nat) < n_checkerboard ∧ 0 < (ZeroGauge gaugeFives).GetInfo.GetNumCBSites ∧
    1 < (ZeroGauge gaugeFives).GetLinkOffset ∧ 3 < (ZeroGauge gaugeFives).GetSiteOffset ∧
    gaugeFives.read (gaugeFives.GetSiteDiagDataPtr 1 0) 1 = 5 ∧
    (ZeroGauge gaugeFives).read ((ZeroGauge gaugeFives).GetSiteDiagDataPtr 1 0) 1 = 0 ∧
    (ZeroGauge gaugeFives).read ((ZeroGauge gaugeFives).GetSiteInvDiagDataPtr 1 0) 1 = 0 ∧
    (ZeroGauge gaugeFives).read ((ZeroGauge gaugeFives).GetSiteDirDataPtr 1 0 0) 3 = 0 ∧
    (ZeroGauge gaugeFives).read ((ZeroGauge gaugeFives).GetSiteDirADDataPtr 1 0 0) 3 = 0 ∧
    (ZeroGauge gaugeFives).read ((ZeroGauge gaugeFives).GetSiteDirDADataPtr 1 0 0) 3 = 0 :=
  ⟨by decide, by decide, by decide, by decide, by decide,
    (((ZeroGauge_clears_regions gaugeFives 1 0 (by decide) (by decide)).1 1 (by decide)).1),
    (((ZeroGauge_clears_regions gaugeFives 1 0 (by decide) (by decide)).1 1 (by decide)).2),
    (((ZeroGauge_clears_regions gaugeFives 1 0 (by decide) (by decide)).2 3 (by decide)).1),
    (((ZeroGauge_clears_regions gaugeFives 1 0 (by decide) (by decide)).2 3
      (by decide)).2.1),
    (((ZeroGauge_clears_regions gaugeFives 1 0 (by decide) (by decide)).2 3
      (by decide)).2.2)⟩

/-- An instance of the theorem for C35 with the links `row + col·i`, the half spinor
`(col + 1) + spin·i` and an output view that held `9 + 9i`: the entry `(1, 1)` becomes
`3 + 11i`. -/
theorem mult_u_halfspinor_entries_witness :
    vNines 1 1 = ⟨9, 9⟩ ∧ mult_u_halfspinor uLinks vHalf vNines 0 0 1 1 = ⟨3, 11⟩ :=
  ⟨by decide,
    (mult_u_halfspinor_entries uLinks vHalf vNines 0 0 1 1 (by decide) (by decide)).trans
      (by decide)⟩

/-- An instance of the theorem for C36 with the same inputs: the entry `(1, 1)` becomes
`11 − 3i`. -/
theorem mult_adj_u_halfspinor_entries_witness :
    mult_adj_u_halfspinor uLinks vHalf vNines 0 0 1 1 = ⟨11, -3⟩ :=
  ((mult_adj_u_halfspinor_entries uLinks vHalf vNines 0 0).1 1 1 (by decide)
    (by decide)).trans (by decide)

/-- An instance of the theorem for C34 with the counting source started at `100` on the
two-column field `xTwoCol`: the entry of column 1 on checkerboard 1 is at position 3 of the
loop order and receives the draws `106` and `107`; eight draws are made in all. -/
theorem Gaussian_draw_sequence_witness :
    (Gaussian drawCounter xTwoCol SUBSET_ALL 100).2 = 108 ∧
    (Gaussian drawCounter xTwoCol SUBSET_ALL 100).1.load (xTwoCol.GetSiteDataPtr 1 1 0)
      (RE + n_complex * 0) = 106 ∧
    (Gaussian drawCounter xTwoCol SUBSET_ALL 100).1.load (xTwoCol.GetSiteDataPtr 1 1 0)
      (IM + n_complex * 0) = 107 ∧
    (Gaussian drawCounter xTwoCol SUBSET_EVEN 100).1.data 1 2 = 2 :=
  ⟨(Gaussian_draw_sequence drawCounter xTwoCol SUBSET_ALL 100).1.trans (by decide),
    (((Gaussian_draw_sequence drawCounter xTwoCol SUBSET_ALL 100).2.1 1 0 1 0 (by decide)
      (by decide) (by decide) (by decide) (by decide)).1).trans (by decide),
    (((Gaussian_draw_sequence drawCounter xTwoCol SUBSET_ALL 100).2.1 1 0 1 0 (by decide)
      (by decide) (by decide) (by decide) (by decide)).2).trans (by decide),
    ((Gaussian_draw_sequence drawCounter xTwoCol SUBSET_EVEN 100).2.2.2 1 2
      (by decide)).trans (by decide)⟩

/-- An instance of the theorem for C38 with one colorspin, one site, both checkerboards,
two columns and `ld = 4`: the last entry (imaginary part, checkerboard 1, column 1) is at
position `7 < 8`. -/
theorem columnIndex_injective_witness :
    n_complex * 1 * 1 * (SUBSET_ALL.end_ - SUBSET_ALL.start) ≤ 4 ∧
    columnIndex 1 1 SUBSET_ALL.start 4 1 0 0 1 1 = 7 ∧
    columnIndex 1 1 SUBSET_ALL.start 4 1 0 0 1 1 < 4 * 2 :=
  ⟨by decide, by decide,
    ((columnIndex_injective 1 1 2 4 SUBSET_ALL).2.1 (by decide)).2 1 0 0 1 1 (by decide)
      (by decide) (by decide) (by decide) (by decide) (by decide)⟩

end FinalInstances

end MG
